import Mathlib

/-!
# libBrain: neuron and layer numerics

A shallow embedding of the multilayer-perceptron neuron
(`plugins/mlp/src/brain_neuron.c`), of the layer: its construction, its
forward pass and its backward pass (`dev/src/brain_layer.c`), and of the
builder neuron (`src/core/brain_neuron_builder.c`, namespace `Builder`).

Conventions of the embedding

* `BrainReal` (a C floating type) is modelled by the ordered field `ℚ`:
  the arithmetic is exact.  Where a property depends on rounding or on
  underflow, the function has a second translation, named `_rounded`, in
  which every sum and product goes through a rounding function;
  `round_double` is the rounding of the C type `double`.
* `BrainSignal` (a `BrainReal*`) is a nullable pointer to a buffer: `none`
  is `NULL`, `some xs` a buffer holding the entries `xs`.  `rd` reads an
  entry and `wr` writes one.  Reading or writing outside the buffer is
  undefined in C; here `rd` gives `0` and `wr` does nothing.  The theorems
  about a slot that is written assume that the slot lies inside its buffer.
* a function pointer is an `Option` of a function, `none` being `NULL`.
* a `BrainNeuron` (a `struct Neuron*`) is an `Option Neuron`.
* the fields `_in`, `_out` and `_errors` of a neuron point into buffers
  owned by its layer.  A `Neuron` value carries the content of what they
  point to; `Layer.attach` and `Layer.detach` load and store that content
  when a layer runs one of its neurons.
* the activation registry, the cost registry, the random generator and the
  enumeration of the learning rules are declared in headers that are not
  among the sources; the functions that use them take them as arguments.
* the tree a neuron is configured from is read through the functions
  declared in `brain_xml_utils.h`, whose implementation is not among the
  sources; they are modelled from the descriptions of that header.
* the builder neuron calls its activation and its derivative through
  function pointers it does not check; a function of the builder that makes
  such a call returns an `Option`, `none` standing for the call through a
  null pointer.
-/

namespace Brain

/-- The numeric type of the library. -/
abbrev BrainReal := ℚ

/-- Nullable pointer to a buffer of reals. -/
abbrev BrainSignal := Option (List BrainReal)

/-- Number of entries of the buffer pointed to (`0` for `NULL`). -/
def BrainSignal.len (s : BrainSignal) : Nat :=
  match s with
  | none => 0
  | some xs => xs.length

/-- Read `s[i]`. -/
def BrainSignal.rd (s : BrainSignal) (i : Nat) : BrainReal :=
  match s with
  | none => 0
  | some xs => xs.getD i 0

/-- Write `s[i] = v`. -/
def BrainSignal.wr (s : BrainSignal) (i : Nat) (v : BrainReal) : BrainSignal :=
  match s with
  | none => none
  | some xs => some (xs.set i v)

/-- The C loop `for (i = 0; i < n; ++i) s = body s i`. -/
def for_loop {σ : Type} (body : σ → Nat → σ) : Nat → σ → σ
  | 0, s => s
  | k + 1, s => body (for_loop body k s) k

/-- Macro `MIN(a, b) ((a) < (b) ? (a) : (b))`. -/
def MIN (a b : BrainReal) : BrainReal := if a < b then a else b

/-- Macro `MAX(a, b) ((a) < (b) ? (b) : (a))`. -/
def MAX (a b : BrainReal) : BrainReal := if a < b then b else a

/-- Macro `EPSILON 1e-6`. -/
def EPSILON : BrainReal := 1 / 1000000

/-- C library `fabs`. -/
def fabs (x : BrainReal) : BrainReal := if x < 0 then -x else x

/-- An activation function or its derivative. -/
abbrev ActivationPtrFunc := Option (BrainReal → BrainReal)

/-- The two learning functions a neuron can point to. -/
inductive LearningFunc where
  | update_neuron_using_backpropagation
  | update_neuron_using_resilient
  deriving DecidableEq, Repr

/-- Pointer to a learning function. -/
abbrev LearningPtrFunc := Option LearningFunc

/-- The `struct Neuron` of `brain_neuron.c`. -/
structure Neuron where
  _activation_function : ActivationPtrFunc
  _derivative_function : ActivationPtrFunc
  _learning_function : LearningPtrFunc
  _in : BrainSignal
  _w : BrainSignal
  _gradients : BrainSignal
  _deltas : BrainSignal
  _errors : BrainSignal
  _out : BrainReal
  _bias : BrainReal
  _bias_delta : BrainReal
  _bias_gradient : BrainReal
  _sum : BrainReal
  _rprop_eta_plus : BrainReal
  _rprop_eta_minus : BrainReal
  _rprop_delta_min : BrainReal
  _rprop_delta_max : BrainReal
  _backprop_learning_rate : BrainReal
  _backprop_momemtum : BrainReal
  _number_of_input : Nat

/-- A `struct Neuron*`. -/
abbrev BrainNeuron := Option Neuron

/-- Body of the loop of `update_neuron_using_backpropagation`
(`brain_neuron.c` lines 74-82). -/
def backpropagation_body (learning_rate momentum neuron_gradient : BrainReal)
    (neuron : Neuron) (i : Nat) : Neuron :=
  let neuron1 : Neuron :=
    if neuron._errors.isSome then
      { neuron with
        _errors := neuron._errors.wr i
          (neuron._errors.rd i + neuron_gradient * neuron._w.rd i) }
    else neuron
  { neuron1 with
    _w := neuron1._w.wr i
      (neuron1._w.rd i -
        (learning_rate * neuron_gradient * neuron1._in.rd i - momentum * neuron1._w.rd i)) }

/-- Function `update_neuron_using_backpropagation` (`brain_neuron.c` lines 53-87). -/
def update_neuron_using_backpropagation (neuron : BrainNeuron) (loss : BrainReal) :
    BrainNeuron :=
  match neuron with
  | none => none
  | some nr =>
    let number_of_inputs := nr._number_of_input
    let learning_rate := nr._backprop_learning_rate
    let momentum := nr._backprop_momemtum
    match nr._derivative_function with
    | none => some nr
    | some derivative_function =>
      let neuron_gradient := loss * derivative_function nr._sum
      let nr1 : Neuron :=
        { nr with _bias := nr._bias - (learning_rate * neuron_gradient - momentum * nr._bias) }
      some (for_loop (backpropagation_body learning_rate momentum neuron_gradient)
        number_of_inputs nr1)

/-- Body of the loop of `update_neuron_using_resilient`
(`brain_neuron.c` lines 144-186).  The triple holds the locals
`new_delta`, `new_correction` and `new_gradient`. -/
def resilient_body
    (rprop_eta_positive rprop_eta_negative rprop_delta_min rprop_delta_max : BrainReal)
    (neuron_gradient : BrainReal) (neuron : Neuron) (i : Nat) : Neuron :=
  let g := neuron_gradient * neuron._in.rd i
  let neuron1 : Neuron :=
    if neuron._errors.isSome then
      { neuron with
        _errors := neuron._errors.wr i
          (neuron._errors.rd i + neuron_gradient * neuron._w.rd i) }
    else neuron
  let locals : BrainReal × BrainReal × BrainReal :=
    if 0 < neuron1._gradients.rd i * g then
      let new_delta := MIN (neuron1._deltas.rd i * rprop_eta_positive) rprop_delta_max
      let new_correction := new_delta
      let new_gradient := g
      if 0 < g then (new_delta, new_correction * -1, new_gradient)
      else (new_delta, new_correction, new_gradient)
    else if neuron1._gradients.rd i * g < 0 then
      (MAX (neuron1._deltas.rd i * rprop_eta_negative) rprop_delta_min, 0, 0)
    else if fabs (neuron1._gradients.rd i * g) ≤ EPSILON then
      let new_correction := neuron1._deltas.rd i
      let new_gradient := g
      if 0 < g then (0, new_correction * -1, new_gradient)
      else (0, new_correction, new_gradient)
    else (0, 0, 0)
  { neuron1 with
    _w := neuron1._w.wr i (neuron1._w.rd i + locals.2.1)
    _deltas := neuron1._deltas.wr i locals.1
    _gradients := neuron1._gradients.wr i locals.2.2 }

/-- Function `update_neuron_using_resilient` (`brain_neuron.c` lines 89-191). -/
def update_neuron_using_resilient (neuron : BrainNeuron) (loss : BrainReal) : BrainNeuron :=
  match neuron with
  | none => none
  | some nr =>
    let rprop_eta_positive := nr._rprop_eta_plus
    let rprop_eta_negative := nr._rprop_eta_minus
    let rprop_delta_min := nr._rprop_delta_min
    let rprop_delta_max := nr._rprop_delta_max
    match nr._derivative_function with
    | none => some nr
    | some derivative_function =>
      let neuron_gradient := loss * derivative_function nr._sum
      let number_of_inputs := nr._number_of_input
      let g := neuron_gradient
      let locals : BrainReal × BrainReal × BrainReal :=
        if 0 < nr._bias_gradient * g then
          let new_delta := MIN (nr._bias_delta * rprop_eta_positive) rprop_delta_max
          let new_correction := new_delta
          let new_gradient := g
          if 0 < g then (new_delta, new_correction * -1, new_gradient)
          else (new_delta, new_correction, new_gradient)
        else if nr._bias_gradient * g < 0 then
          (MAX (nr._bias_delta * rprop_eta_negative) rprop_delta_min, 0, 0)
        else if fabs (nr._bias_gradient * g) ≤ EPSILON then
          let new_correction := nr._bias_delta
          let new_gradient := g
          if 0 < g then (0, new_correction * -1, new_gradient)
          else (0, new_correction, new_gradient)
        else (0, 0, 0)
      let nr1 : Neuron :=
        { nr with
          _bias := nr._bias + locals.2.1
          _bias_delta := locals.1
          _bias_gradient := locals.2.2 }
      some (for_loop
        (resilient_body rprop_eta_positive rprop_eta_negative rprop_delta_min rprop_delta_max
          neuron_gradient)
        number_of_inputs nr1)

/-- The values that lines 157-181 of `brain_neuron.c` give to `new_delta`,
`new_correction` and `new_gradient`, as a function of the stored gradient
`prev`, the stored step `step` and the gradient `g` of this round.  It is
used to state what the loop of `update_neuron_using_resilient` computes. -/
def rprop_locals
    (rprop_eta_positive rprop_eta_negative rprop_delta_min rprop_delta_max : BrainReal)
    (prev step g : BrainReal) : BrainReal × BrainReal × BrainReal :=
  if 0 < prev * g then
    let new_delta := MIN (step * rprop_eta_positive) rprop_delta_max
    let new_correction := new_delta
    let new_gradient := g
    if 0 < g then (new_delta, new_correction * -1, new_gradient)
    else (new_delta, new_correction, new_gradient)
  else if prev * g < 0 then
    (MAX (step * rprop_eta_negative) rprop_delta_min, 0, 0)
  else if fabs (prev * g) ≤ EPSILON then
    let new_correction := step
    let new_gradient := g
    if 0 < g then (0, new_correction * -1, new_gradient)
    else (0, new_correction, new_gradient)
  else (0, 0, 0)

/-- Body of the loop of `activate_neuron` (`brain_neuron.c` lines 291-294). -/
def activate_body (neuron : Neuron) (j : Nat) : Neuron :=
  { neuron with _sum := neuron._sum + neuron._in.rd j * neuron._w.rd j }

/-- Function `activate_neuron` (`brain_neuron.c` lines 269-302). -/
def activate_neuron (neuron : BrainNeuron) (is_activated : Bool) : BrainNeuron :=
  match neuron with
  | none => none
  | some nr =>
    let activation_function := nr._activation_function
    let nr1 : Neuron := { nr with _out := 0, _sum := 0 }
    match activation_function with
    | none => some nr1
    | some f =>
      if is_activated && nr1._in.isSome && nr1._w.isSome then
        let nr2 := for_loop activate_body nr1._number_of_input nr1
        let nr3 : Neuron := { nr2 with _sum := nr2._sum + nr2._bias }
        some { nr3 with _out := f nr3._sum }
      else some nr1

/-- The tags of the learning rules.  The enumeration is declared in a header
that is not at hand; `Other` stands for every value that is neither
`BackPropagation` nor `Resilient`. -/
inductive BrainLearningType where
  | BackPropagation
  | Resilient
  | Other (tag : Nat)
  deriving DecidableEq, Repr

/-- Function `get_learning_function` (`brain_neuron.c` lines 193-205). -/
def get_learning_function (learning_type : BrainLearningType) : LearningPtrFunc :=
  match learning_type with
  | BrainLearningType.BackPropagation => some LearningFunc.update_neuron_using_backpropagation
  | BrainLearningType.Resilient => some LearningFunc.update_neuron_using_resilient
  | BrainLearningType.Other _ => some LearningFunc.update_neuron_using_backpropagation

/-- Call through a pointer to a learning function. -/
def call_learning_function (f : LearningFunc) (neuron : BrainNeuron) (loss : BrainReal) :
    BrainNeuron :=
  match f with
  | LearningFunc.update_neuron_using_backpropagation =>
    update_neuron_using_backpropagation neuron loss
  | LearningFunc.update_neuron_using_resilient => update_neuron_using_resilient neuron loss

/-- Function `neuron_learning` (`brain_neuron.c` lines 419-431). -/
def neuron_learning (neuron : BrainNeuron) (loss : BrainReal) : BrainNeuron :=
  match neuron with
  | none => none
  | some nr =>
    match nr._learning_function with
    | none => some nr
    | some learning_function => call_learning_function learning_function (some nr) loss

/-- Function `new_neuron` (`brain_neuron.c` lines 332-379).

The activation registry and the random generator are not part of the
sources at hand: `sigmoid` and `sigmoid_derivative` stand for
`activation(Sigmoid)` and `derivative(Sigmoid)`, and `rand k lo hi` for the
value of the `k`-th expansion of `BRAIN_RAND_RANGE(lo, hi)`.  The argument
`out` is a nullable pointer to the output slot, given with its content. -/
def new_neuron (sigmoid sigmoid_derivative : ActivationPtrFunc)
    (rand : Nat → BrainReal → BrainReal → BrainReal)
    (input : BrainSignal) (number_of_inputs : Nat) (out : Option BrainReal)
    (errors : BrainSignal) : BrainNeuron :=
  match out with
  | none => none
  | some slot =>
    if number_of_inputs ≠ 0 then
      let random_value_limit : BrainReal := (number_of_inputs : BrainReal)
      let nr : Neuron :=
        { _out := slot
          _number_of_input := number_of_inputs
          _in := input
          _bias := rand 0 (-random_value_limit) random_value_limit
          _bias_gradient := 0
          _bias_delta := 0
          _sum := 0
          _backprop_learning_rate := 112 / 100
          _backprop_momemtum := 0
          _rprop_eta_plus := 12 / 10
          _rprop_eta_minus := 95 / 100
          _rprop_delta_min := 1 / 1000000
          _rprop_delta_max := 50
          _activation_function := sigmoid
          _derivative_function := sigmoid_derivative
          _learning_function := get_learning_function BrainLearningType.BackPropagation
          _errors := errors
          _w := some (List.replicate number_of_inputs 0)
          _deltas := some (List.replicate number_of_inputs 0)
          _gradients := some (List.replicate number_of_inputs 0) }
      some (for_loop
        (fun (s : Neuron) (index : Nat) =>
          { s with
            _w := s._w.wr index (rand (index + 1) (-random_value_limit) random_value_limit) })
        number_of_inputs nr)
    else none

/-- The `struct Layer` of `brain_layer.c`. -/
structure Layer where
  _number_of_neuron : Nat
  _neurons : List BrainNeuron
  _in : BrainSignal
  _in_errors : BrainSignal
  _out : BrainSignal
  _out_errors : BrainSignal
  _cost_function_derivative : Option (BrainReal → BrainReal → BrainReal)

/-- A `struct Layer*`. -/
abbrev BrainLayer := Option Layer

/-- Neuron `i` of the layer, seen through its pointers: `_out` is
`&_out[i]` and `_errors` is the layer's `_out_errors` (`new_layer`,
`brain_layer.c` lines 164-166), and `_in` is the input vector of the layer,
the one input signal a layer holds for the `in` argument of `new_neuron`. -/
def Layer.attach (l : Layer) (i : Nat) : BrainNeuron :=
  match l._neurons.getD i none with
  | none => none
  | some nr => some { nr with _in := l._in, _out := l._out.rd i, _errors := l._out_errors }

/-- Store back what neuron `i` wrote through its pointers. -/
def Layer.detach (l : Layer) (i : Nat) (neuron : BrainNeuron) : Layer :=
  match neuron with
  | none => l
  | some nr =>
    { l with
      _neurons := l._neurons.set i (some nr)
      _out := l._out.wr i nr._out
      _out_errors := nr._errors }

/-- C library `memset(s, 0, n * sizeof(BrainDouble))`. -/
def memset_zero (s : BrainSignal) (n : Nat) : BrainSignal :=
  for_loop (fun (t : BrainSignal) (i : Nat) => t.wr i 0) n s

/-- Body of the loop of `activate_layer` (`brain_layer.c` lines 345-352). -/
def activate_layer_body (hidden_layer : Bool) (layer : Layer) (i : Nat) : Layer :=
  let neuron := layer.attach i
  layer.detach i (activate_neuron neuron hidden_layer)

/-- Function `activate_layer` (`brain_layer.c` lines 336-354). -/
def activate_layer (layer : BrainLayer) (hidden_layer : Bool) : BrainLayer :=
  match layer with
  | none => none
  | some l =>
    let l1 : Layer := { l with _in_errors := memset_zero l._in_errors l._number_of_neuron }
    some (for_loop (activate_layer_body hidden_layer) l1._number_of_neuron l1)

/-- Function `get_neuron_number_of_input` (`brain_neuron.c` lines 381-390). -/
def get_neuron_number_of_input (neuron : BrainNeuron) : Nat :=
  match neuron with
  | some nr => nr._number_of_input
  | none => 0

/-- Function `get_layer_neuron` (`brain_layer.c` lines 66-77). -/
def get_layer_neuron (layer : BrainLayer) (index : Nat) : BrainNeuron :=
  match layer with
  | none => none
  | some l => if index < l._number_of_neuron then l.attach index else none

/-- Function `get_layer_output` (`brain_layer.c` lines 174-183). -/
def get_layer_output (layer : BrainLayer) : BrainSignal :=
  match layer with
  | some l => l._out
  | none => none

/-- Body of the loop of `backpropagate_output_layer` (`brain_layer.c` lines
261-279).  The pointer `output` is the output vector of the layer. -/
def backpropagate_output_layer_body (cost_function_derivative : BrainReal → BrainReal → BrainReal)
    (desired : BrainSignal) (output_layer : Layer) (output_index : Nat) : Layer :=
  let output := get_layer_output (some output_layer)
  let loss := cost_function_derivative (output.rd output_index) (desired.rd output_index)
  let output_neuron := get_layer_neuron (some output_layer) output_index
  match output_neuron with
  | none => output_layer
  | some _ => output_layer.detach output_index (neuron_learning output_neuron loss)

/-- Function `backpropagate_output_layer` (`brain_layer.c` lines 209-282).
The call through a null `_cost_function_derivative`, undefined in C, leaves
the layer as it is. -/
def backpropagate_output_layer (output_layer : BrainLayer) (number_of_output : Nat)
    (desired : BrainSignal) : BrainLayer :=
  match output_layer with
  | none => none
  | some l =>
    if desired.isSome then
      let number_of_neuron := l._number_of_neuron
      if number_of_neuron = number_of_output then
        match l._cost_function_derivative with
        | none => some l
        | some cost_function_derivative =>
          some (for_loop (backpropagate_output_layer_body cost_function_derivative desired)
            number_of_output l)
      else some l
    else some l

/-- Body of the loop of `backpropagate_hidden_layer` (`brain_layer.c` lines
322-332). -/
def backpropagate_hidden_layer_body (hidden_layer : Layer) (i : Nat) : Layer :=
  let current_neuron := hidden_layer.attach i
  match current_neuron with
  | none => hidden_layer
  | some _ =>
    let loss := hidden_layer._in_errors.rd i
    hidden_layer.detach i (neuron_learning current_neuron loss)

/-- Function `backpropagate_hidden_layer` (`brain_layer.c` lines 284-334). -/
def backpropagate_hidden_layer (hidden_layer : BrainLayer) : BrainLayer :=
  match hidden_layer with
  | none => none
  | some l =>
    let current_number_of_neuron := l._number_of_neuron
    some (for_loop backpropagate_hidden_layer_body current_number_of_neuron l)

/-- Function `new_layer` (`brain_layer.c` lines 110-172).

`quadratic_derivative` stands for `get_cost_function_derivative(Quadratic)`,
whose registry is not among the sources.  The call of `new_neuron` at lines
164-166 gives the number of inputs, the output slot and `out_errors`; the
neuron is given the input of the layer as its input.  Neuron `index` draws
its `number_of_inputs + 1` random values after those of the neurons before
it. -/
def new_layer (sigmoid sigmoid_derivative : ActivationPtrFunc)
    (quadratic_derivative : Option (BrainReal → BrainReal → BrainReal))
    (rand : Nat → BrainReal → BrainReal → BrainReal)
    (number_of_neurons number_of_inputs : Nat) (input : BrainSignal)
    (out_errors : BrainSignal) : BrainLayer :=
  if number_of_inputs ≠ 0 ∧ number_of_neurons ≠ 0 ∧ input.isSome then
    let l : Layer :=
      { _number_of_neuron := number_of_neurons
        _in := input
        _out_errors := out_errors
        _cost_function_derivative := quadratic_derivative
        _neurons := []
        _out := none
        _in_errors := none }
    if 0 ≠ l._number_of_neuron then
      let l1 : Layer :=
        { l with
          _neurons := List.replicate l._number_of_neuron none
          _out := some (List.replicate l._number_of_neuron 0)
          _in_errors := some (List.replicate l._number_of_neuron 0) }
      some (for_loop
        (fun (s : Layer) (index : Nat) =>
          { s with
            _neurons := s._neurons.set index
              (new_neuron sigmoid sigmoid_derivative
                (fun k => rand (index * (number_of_inputs + 1) + k))
                s._in number_of_inputs (some (s._out.rd index)) out_errors) })
        l1._number_of_neuron l1)
    else some l
  else none

/-- Modelled from the spec: a node of the tree a network is read from, the
`Context` of `brain_xml_utils.h`, whose implementation is not among the
sources.  A node has a name, attributes that hold numbers, attributes that
hold text, child nodes, and a content that may hold a number. -/
inductive XmlNode where
  | mk (name : String) (numbers : List (String × BrainReal))
      (props : List (String × String)) (children : List XmlNode)
      (content : Option BrainReal)

/-- A nullable pointer to a node. -/
abbrev Context := Option XmlNode

/-- Child nodes of a node. -/
def XmlNode.children : XmlNode → List XmlNode
  | XmlNode.mk _ _ _ cs _ => cs

/-- Name of a node. -/
def XmlNode.name : XmlNode → String
  | XmlNode.mk n _ _ _ _ => n

/-- Numeric attributes of a node. -/
def XmlNode.numbers : XmlNode → List (String × BrainReal)
  | XmlNode.mk _ ns _ _ _ => ns

/-- Text attributes of a node. -/
def XmlNode.props : XmlNode → List (String × String)
  | XmlNode.mk _ _ ps _ _ => ps

/-- Content of a node. -/
def XmlNode.content : XmlNode → Option BrainReal
  | XmlNode.mk _ _ _ _ c => c

/-- Modelled from the spec: `get_node_with_name_and_index` of
`brain_xml_utils.h`, "get a child node with its name and its position":
the `i`-th child with that name, `NULL` when there is none. -/
def get_node_with_name_and_index (node : Context) (name : String) (i : Nat) : Context :=
  match node with
  | none => none
  | some n => (n.children.filter (fun c => c.name == name)).get? i

/-- Modelled from the spec: `node_get_double` of `brain_xml_utils.h`,
"extract a double value from an attribute", with "the default value" for an
attribute the node does not have. -/
def node_get_double (node : Context) (key : String) (default : BrainReal) : BrainReal :=
  match node with
  | none => default
  | some n =>
    match n.numbers.lookup key with
    | some v => v
    | none => default

/-- Modelled from the spec: `node_get_prop` of `brain_xml_utils.h`, the text
of an attribute, `NULL` when the node does not have it. -/
def node_get_prop (node : Context) (key : String) : Option String :=
  match node with
  | none => none
  | some n => n.props.lookup key

/-- The activation registry of `brain_activation.h`, which is not among the
sources: `activation_of buffer` stands for
`activation(get_activation_type(buffer))` and `derivative_of buffer` for
`derivative(get_activation_type(buffer))`. -/
structure ActivationRegistry where
  activation_of : Option String → ActivationPtrFunc
  derivative_of : Option String → ActivationPtrFunc

/-- Function `configure_neuron_with_context` (`brain_neuron.c` lines 207-267). -/
def configure_neuron_with_context (registry : ActivationRegistry) (neuron : BrainNeuron)
    (context : Context) : BrainNeuron :=
  match neuron, context with
  | some nr, some _ =>
    let training_context := get_node_with_name_and_index context "training" 0
    let nr1 : Neuron :=
      if training_context.isSome then
        let backprop_context := get_node_with_name_and_index training_context "backprop" 0
        if backprop_context.isSome then
          { nr with
            _learning_function := get_learning_function BrainLearningType.BackPropagation
            _backprop_learning_rate := node_get_double backprop_context "learning-rate" (12 / 10)
            _backprop_momemtum := node_get_double backprop_context "momentum" 0 }
        else
          let rprop_context := get_node_with_name_and_index training_context "rprop" 0
          if rprop_context.isSome then
            let eta_context := get_node_with_name_and_index rprop_context "resilient-eta" 0
            let delta_context := get_node_with_name_and_index rprop_context "resilient-delta" 0
            let nr2 : Neuron :=
              { nr with _learning_function := get_learning_function BrainLearningType.Resilient }
            let nr3 : Neuron :=
              if eta_context.isSome then
                { nr2 with
                  _rprop_eta_plus := node_get_double eta_context "positive" (125 / 100)
                  _rprop_eta_minus := node_get_double eta_context "negative" (95 / 100) }
              else nr2
            if delta_context.isSome then
              { nr3 with
                _rprop_delta_max := node_get_double delta_context "max" 50
                _rprop_delta_min := node_get_double delta_context "min" (1 / 1000000) }
            else nr3
          else nr
      else nr
    let buffer := node_get_prop context "activation-function"
    some { nr1 with
      _activation_function := registry.activation_of buffer
      _derivative_function := registry.derivative_of buffer }
  | _, _ => neuron

/-- Modelled from the spec: `get_number_of_node_with_name` of
`brain_xml_utils.h`, "the number of children node with given node_name
name". -/
def get_number_of_node_with_name (node : Context) (node_name : String) : Nat :=
  match node with
  | none => 0
  | some n => (n.children.filter (fun c => c.name == node_name)).length

/-- Modelled from the spec: `node_get_content_as_double`, which no header at
hand declares: the content of a node read as a number, `0` for a node that
is absent or has no content. -/
def node_get_content_as_double (node : Context) : BrainReal :=
  match node with
  | none => 0
  | some n =>
    match n.content with
    | some v => v
    | none => 0

/-- Function `deserialize_neuron` (`brain_neuron.c` lines 433-455). -/
def deserialize_neuron (neuron : BrainNeuron) (context : Context) : BrainNeuron :=
  match neuron, context with
  | some nr, some _ =>
    let neuron_bias := node_get_double context "bias" 0
    let number_of_weights := get_number_of_node_with_name context "weight"
    let nr1 : Neuron := { nr with _bias := neuron_bias }
    some (for_loop
      (fun (s : Neuron) (index : Nat) =>
        let subcontext := get_node_with_name_and_index context "weight" index
        { s with _w := s._w.wr index (node_get_content_as_double subcontext) })
      number_of_weights nr1)
  | _, _ => neuron

/-- Modelled from the spec: the XML writer behind a `Writer`, whose
functions no source at hand declares.  It holds the elements that are open,
the innermost first, the elements that are finished, in the order they were
finished, and whether the writer is in a failed state. -/
structure XmlWriter where
  opened : List XmlNode
  finished : List XmlNode
  broken : Bool

/-- A nullable pointer to a writer. -/
abbrev Writer := Option XmlWriter

/-- Modelled from the spec: `start_element` opens an element with the given
name inside the innermost open element and tells whether it could. -/
def start_element (writer : XmlWriter) (name : String) : XmlWriter × Bool :=
  if writer.broken then (writer, false)
  else ({ writer with opened := XmlNode.mk name [] [] [] none :: writer.opened }, true)

/-- Modelled from the spec: `add_attribute` adds an attribute, after those it
has, to the innermost open element.  The value is the number the text
written reads back as. -/
def add_attribute (writer : XmlWriter) (key : String) (value : BrainReal) : XmlWriter :=
  match writer.opened with
  | [] => writer
  | XmlNode.mk n ns ps cs c :: rest =>
    { writer with opened := XmlNode.mk n (ns ++ [(key, value)]) ps cs c :: rest }

/-- Modelled from the spec: `write_element` writes a whole element with the
given name and content as the last child of the innermost open element. -/
def write_element (writer : XmlWriter) (name : String) (value : BrainReal) : XmlWriter :=
  match writer.opened with
  | [] => { writer with finished := writer.finished ++ [XmlNode.mk name [] [] [] (some value)] }
  | XmlNode.mk n ns ps cs c :: rest =>
    { writer with
      opened := XmlNode.mk n ns ps (cs ++ [XmlNode.mk name [] [] [] (some value)]) c :: rest }

/-- Modelled from the spec: `stop_element` closes the innermost open element,
which becomes the last child of the element around it, or a finished
element when there is none. -/
def stop_element (writer : XmlWriter) : XmlWriter :=
  match writer.opened with
  | [] => writer
  | [top] => { writer with opened := [], finished := writer.finished ++ [top] }
  | top :: XmlNode.mk n ns ps cs c :: rest =>
    { writer with opened := XmlNode.mk n ns ps (cs ++ [top]) c :: rest }

/-- Function `serialize_neuron` (`brain_neuron.c` lines 457-490).  `text v`
is the number that the text `sprintf(buffer, "%lf", v)` writes reads back
as. -/
def serialize_neuron (text : BrainReal → BrainReal) (neuron : BrainNeuron) (writer : Writer) :
    Writer :=
  match neuron, writer with
  | some nr, some w =>
    let number_of_inputs := get_neuron_number_of_input (some nr)
    let started := start_element w "neuron"
    if started.2 then
      let w1 := add_attribute started.1 "bias" (text nr._bias)
      let w2 :=
        if nr._w.isSome then
          for_loop
            (fun (s : XmlWriter) (index_input : Nat) =>
              write_element s "weight" (text (nr._w.rd index_input)))
            number_of_inputs w1
        else w1
      some (stop_element w2)
    else some started.1
  | _, _ => writer

/-- Modelled from the spec: `is_node_with_name` of `brain_xml_utils.h`,
"check if a give node has a certain name"; a null node has none. -/
def is_node_with_name (node : Context) (name : String) : Bool :=
  match node with
  | none => false
  | some n => n.name == name

/-- Modelled from the spec: `node_get_int` of `brain_xml_utils.h`, "extract
an int value from an attribute", with "the default value" for an attribute
the node does not have.  The attributes of the model hold numbers; the int
of a number is its integer part. -/
def node_get_int (node : Context) (key : String) (default : Int) : Int :=
  match node with
  | none => default
  | some n =>
    match n.numbers.lookup key with
    | some v => if 0 ≤ v then Rat.floor v else -Rat.floor (-v)
    | none => default

namespace Builder

/-- The `struct Neuron` of `brain_neuron_builder.c`.  The buffers `_in`, `_w`
and `_correction` have `_number_of_input + 1` entries, the last one for the
bias; `_number_of_input` is a `BrainInt`, and `_number_of_input + 1` is
taken to fit in one.  The tag `_activation_type` belongs to an enumeration
that is not among the sources and is kept as a number. -/
structure Neuron where
  _in : BrainSignal
  _w : BrainSignal
  _out : BrainReal
  _learning_rate : BrainReal
  _inertial_factor : BrainReal
  _delta : BrainReal
  _correction : BrainSignal
  _activation : ActivationPtrFunc
  _derivative : ActivationPtrFunc
  _number_of_input : Int
  _activation_type : Nat

/-- A `struct Neuron*` of the builder. -/
abbrev BrainNeuron := Option Neuron

/-- Body of the loop of `update_neuron` (`brain_neuron_builder.c` lines
128-134). -/
def update_neuron_body (neuron : Neuron) (index : Nat) : Neuron :=
  let correction := -neuron._learning_rate * neuron._delta * neuron._in.rd index +
    neuron._inertial_factor * neuron._correction.rd index
  let neuron1 : Neuron := { neuron with _w := neuron._w.wr index (neuron._w.rd index + correction) }
  { neuron1 with _correction := neuron1._correction.wr index correction }

/-- Function `update_neuron` (`brain_neuron_builder.c` lines 121-136).  The
loop runs while `index < _number_of_input + 1`. -/
def update_neuron (neuron : BrainNeuron) : BrainNeuron :=
  match neuron with
  | none => none
  | some nr => some (for_loop update_neuron_body (nr._number_of_input + 1).toNat nr)

/-- Function `get_neuron_output` (`brain_neuron_builder.c` lines 18-27). -/
def get_neuron_output (neuron : BrainNeuron) : BrainReal :=
  match neuron with
  | some nr => nr._out
  | none => 0

/-- Function `get_neuron_weighted_delta` (`brain_neuron_builder.c` lines
29-38). -/
def get_neuron_weighted_delta (neuron : BrainNeuron) (index : Int) : BrainReal :=
  match neuron with
  | some nr =>
    if 0 ≤ index ∧ index < nr._number_of_input then nr._delta * nr._w.rd index.toNat
    else 0
  | none => 0

/-- Function `append_neuron_delta` (`brain_neuron_builder.c` lines 40-47).
The call `neuron->_derivative(..)` goes through a function pointer with no
check: the result is `none` when the pointer is null, which ends the
program. -/
def append_neuron_delta (neuron : BrainNeuron) (delta : BrainReal) : Option BrainNeuron :=
  match neuron with
  | none => some none
  | some nr =>
    match nr._derivative with
    | none => none
    | some derivative => some (some { nr with _delta := nr._delta + derivative nr._out * delta })

/-- Function `propagate_neuron` (`brain_neuron_builder.c` lines 49-56). -/
def propagate_neuron (neuron : BrainNeuron) (out : BrainReal) (input_index : Int) :
    BrainNeuron :=
  match neuron with
  | some nr =>
    if 0 ≤ input_index ∧ input_index < nr._number_of_input then
      some { nr with _in := nr._in.wr input_index.toNat out }
    else some nr
  | none => none

/-- Function `get_neuron_weight` (`brain_neuron_builder.c` lines 76-87). -/
def get_neuron_weight (neuron : BrainNeuron) (weight_index : Int) : BrainReal :=
  match neuron with
  | some nr =>
    if 0 ≤ weight_index ∧ weight_index < nr._number_of_input then nr._w.rd weight_index.toNat
    else 0
  | none => 0

/-- Function `get_neuron_input` (`brain_neuron_builder.c` lines 89-100). -/
def get_neuron_input (neuron : BrainNeuron) (input_index : Int) : BrainReal :=
  match neuron with
  | some nr =>
    if 0 ≤ input_index ∧ input_index < nr._number_of_input then nr._in.rd input_index.toNat
    else 0
  | none => 0

/-- Function `activate_neuron` (`brain_neuron_builder.c` lines 102-119).
The loop runs while `j < _number_of_input + 1`.  The call
`neuron->_activation(sum)` goes through a function pointer with no check:
the result is `none` when the pointer is null, which ends the program. -/
def activate_neuron (neuron : BrainNeuron) : Option BrainNeuron :=
  match neuron with
  | none => some none
  | some nr =>
    let sum := for_loop
      (fun (sum : BrainReal) (j : Nat) => sum + nr._in.rd j * nr._w.rd j)
      (nr._number_of_input + 1).toNat 0
    match nr._activation with
    | none => none
    | some activation =>
      let nr1 : Neuron := { nr with _out := activation sum }
      let nr2 : Neuron :=
        { nr1 with
          _out := (if nr1._out > 0 then 1 else 0) - (if nr1._out < 0 then 1 else 0) }
      some (some { nr2 with _delta := 0 })

/-- Function `set_neuron_input` (`brain_neuron_builder.c` lines 58-74).  The
argument `input` is the `in` of the source. -/
def set_neuron_input (neuron : BrainNeuron) (number_of_inputs : Int) (input : BrainSignal) :
    Option BrainNeuron :=
  match neuron with
  | none => some none
  | some nr =>
    if nr._number_of_input = number_of_inputs then
      let nr1 := for_loop
        (fun (s : Neuron) (k : Nat) => { s with _in := s._in.wr k (input.rd k) })
        nr._number_of_input.toNat nr
      activate_neuron (some nr1)
    else some (some nr)

/-- Function `get_neuron_number_of_inputs` (`brain_neuron_builder.c` lines
228-237). -/
def get_neuron_number_of_inputs (neuron : BrainNeuron) : Int :=
  match neuron with
  | some nr => nr._number_of_input + 1
  | none => 0

/-- Function `set_neuron_weight` (`brain_neuron_builder.c` lines 239-248). -/
def set_neuron_weight (neuron : BrainNeuron) (index : Int) (weight : BrainReal) :
    BrainNeuron :=
  match neuron with
  | some nr =>
    if 0 ≤ index ∧ index < nr._number_of_input + 1 then
      some { nr with _w := nr._w.wr index.toNat weight }
    else some nr
  | none => none

/-- Function `new_neuron_from_context` (`brain_neuron_builder.c` lines
164-207).  The registry of `brain_activation.h` is not among the sources:
`get_activation_type`, `activation` and `derivative` are parameters.
`rand k` stands for the value of `(BrainDouble)rand() / (BrainDouble)RAND_MAX`
in round `k` of the loop, and `junk b k` for what `malloc` left in entry `k`
of buffer `b`.  The buffers have `_number_of_input + 1` entries. -/
def new_neuron_from_context (get_activation_type : Option String → Nat)
    (activation derivative : Nat → ActivationPtrFunc) (rand : Nat → BrainReal)
    (junk : Nat → Nat → BrainReal) (context : Context) : BrainNeuron :=
  if !context.isSome || !is_node_with_name context "neuron" then none
  else
    let number_of_input := node_get_int context "input" 0
    let size := (number_of_input + 1).toNat
    let buffer := node_get_prop context "activation-type"
    let activation_type := get_activation_type buffer
    let nr0 : Neuron :=
      { _learning_rate := node_get_double context "learning-rate" 0
        _inertial_factor := node_get_double context "inertial-factor" 0
        _out := 0
        _delta := 0
        _number_of_input := number_of_input
        _in := some ((List.range size).map (junk 0))
        _w := some ((List.range size).map (junk 1))
        _correction := some ((List.range size).map (junk 2))
        _activation_type := activation_type
        _activation := activation activation_type
        _derivative := derivative activation_type }
    let nr1 : Neuron := { nr0 with _correction := memset_zero nr0._correction size }
    let nr2 : Neuron := { nr1 with _in := nr1._in.wr nr1._number_of_input.toNat (-1) }
    let random_value_limit := 1 / (nr2._number_of_input : BrainReal)
    some (for_loop
      (fun (s : Neuron) (index : Nat) =>
        { s with
          _w := s._w.wr index (rand index * 2 * random_value_limit - random_value_limit) })
      size nr2)

end Builder

/-- The indices `index` of the assignments `neuron->_w[index] = ...` that
`deserialize_neuron` executes, in the order it executes them
(`brain_neuron.c` lines 438-450): one for each round of its loop. -/
def deserialize_neuron_writes (neuron : BrainNeuron) (context : Context) : List Nat :=
  match neuron, context with
  | some _, some _ =>
    let number_of_weights := get_number_of_node_with_name context "weight"
    for_loop (fun (written : List Nat) (index : Nat) => written ++ [index])
      number_of_weights []
  | _, _ => []

/-! ## Rounded arithmetic

`BrainDouble` is the C type `double`, and `BrainReal`, whose declaration is
not among the sources, is taken to be `double` as well.  The definitions
above compute in exact arithmetic.  The definitions below are translations of
the same functions in which every sum and every product goes through a
rounding function `fl`, as every `double` operation does; with the identity
for `fl` they are the definitions above. -/

/-- The nearest integer of a rational, the even one of the two when it lies
halfway between them. -/
def round_half_even (y : BrainReal) : Int :=
  let f : Int := ⌊y⌋
  let r : BrainReal := y - f
  if r < 1 / 2 then f
  else if 1 / 2 < r then f + 1
  else if f % 2 = 0 then f
  else f + 1

/-- The rounding of the C type `double` (IEEE 754 binary64, round to
nearest, ties to even): the significand has 53 bits and the numbers below
`2 ^ -1022` are multiples of `2 ^ -1074`, so a result below half of that
becomes `0`.  Results beyond the largest `double` are not modelled. -/
def round_double (x : BrainReal) : BrainReal :=
  let e : Int := max (Int.log 2 |x|) (-1022)
  let ulp : BrainReal := (2 : BrainReal) ^ (e - 52)
  round_half_even (x / ulp) * ulp

/-- Body of the loop of `update_neuron_using_resilient`
(`brain_neuron.c` lines 144-186), every sum and product rounded by `fl`. -/
def resilient_body_rounded (fl : BrainReal → BrainReal)
    (rprop_eta_positive rprop_eta_negative rprop_delta_min rprop_delta_max : BrainReal)
    (neuron_gradient : BrainReal) (neuron : Neuron) (i : Nat) : Neuron :=
  let g := fl (neuron_gradient * neuron._in.rd i)
  let neuron1 : Neuron :=
    if neuron._errors.isSome then
      { neuron with
        _errors := neuron._errors.wr i
          (fl (neuron._errors.rd i + fl (neuron_gradient * neuron._w.rd i))) }
    else neuron
  let locals : BrainReal × BrainReal × BrainReal :=
    if 0 < fl (neuron1._gradients.rd i * g) then
      let new_delta := MIN (fl (neuron1._deltas.rd i * rprop_eta_positive)) rprop_delta_max
      let new_correction := new_delta
      let new_gradient := g
      if 0 < g then (new_delta, fl (new_correction * -1), new_gradient)
      else (new_delta, new_correction, new_gradient)
    else if fl (neuron1._gradients.rd i * g) < 0 then
      (MAX (fl (neuron1._deltas.rd i * rprop_eta_negative)) rprop_delta_min, 0, 0)
    else if fabs (fl (neuron1._gradients.rd i * g)) ≤ EPSILON then
      let new_correction := neuron1._deltas.rd i
      let new_gradient := g
      if 0 < g then (0, fl (new_correction * -1), new_gradient)
      else (0, new_correction, new_gradient)
    else (0, 0, 0)
  { neuron1 with
    _w := neuron1._w.wr i (fl (neuron1._w.rd i + locals.2.1))
    _deltas := neuron1._deltas.wr i locals.1
    _gradients := neuron1._gradients.wr i locals.2.2 }

/-- Function `update_neuron_using_resilient` (`brain_neuron.c` lines 89-191),
every sum and product rounded by `fl`. -/
def update_neuron_using_resilient_rounded (fl : BrainReal → BrainReal) (neuron : BrainNeuron)
    (loss : BrainReal) : BrainNeuron :=
  match neuron with
  | none => none
  | some nr =>
    let rprop_eta_positive := nr._rprop_eta_plus
    let rprop_eta_negative := nr._rprop_eta_minus
    let rprop_delta_min := nr._rprop_delta_min
    let rprop_delta_max := nr._rprop_delta_max
    match nr._derivative_function with
    | none => some nr
    | some derivative_function =>
      let neuron_gradient := fl (loss * derivative_function nr._sum)
      let number_of_inputs := nr._number_of_input
      let g := neuron_gradient
      let locals : BrainReal × BrainReal × BrainReal :=
        if 0 < fl (nr._bias_gradient * g) then
          let new_delta := MIN (fl (nr._bias_delta * rprop_eta_positive)) rprop_delta_max
          let new_correction := new_delta
          let new_gradient := g
          if 0 < g then (new_delta, fl (new_correction * -1), new_gradient)
          else (new_delta, new_correction, new_gradient)
        else if fl (nr._bias_gradient * g) < 0 then
          (MAX (fl (nr._bias_delta * rprop_eta_negative)) rprop_delta_min, 0, 0)
        else if fabs (fl (nr._bias_gradient * g)) ≤ EPSILON then
          let new_correction := nr._bias_delta
          let new_gradient := g
          if 0 < g then (0, fl (new_correction * -1), new_gradient)
          else (0, new_correction, new_gradient)
        else (0, 0, 0)
      let nr1 : Neuron :=
        { nr with
          _bias := fl (nr._bias + locals.2.1)
          _bias_delta := locals.1
          _bias_gradient := locals.2.2 }
      some (for_loop
        (resilient_body_rounded fl rprop_eta_positive rprop_eta_negative rprop_delta_min
          rprop_delta_max neuron_gradient)
        number_of_inputs nr1)

/-- The values that lines 157-181 of `brain_neuron.c` give to `new_delta`,
`new_correction` and `new_gradient` when every product is rounded by `fl`,
as a function of the stored gradient `prev`, the stored step `step` and the
gradient `g` of this round.  It is used to state what the rounded loop
computes. -/
def rprop_locals_rounded (fl : BrainReal → BrainReal)
    (rprop_eta_positive rprop_eta_negative rprop_delta_min rprop_delta_max : BrainReal)
    (prev step g : BrainReal) : BrainReal × BrainReal × BrainReal :=
  if 0 < fl (prev * g) then
    let new_delta := MIN (fl (step * rprop_eta_positive)) rprop_delta_max
    let new_correction := new_delta
    let new_gradient := g
    if 0 < g then (new_delta, fl (new_correction * -1), new_gradient)
    else (new_delta, new_correction, new_gradient)
  else if fl (prev * g) < 0 then
    (MAX (fl (step * rprop_eta_negative)) rprop_delta_min, 0, 0)
  else if fabs (fl (prev * g)) ≤ EPSILON then
    let new_correction := step
    let new_gradient := g
    if 0 < g then (0, fl (new_correction * -1), new_gradient)
    else (0, new_correction, new_gradient)
  else (0, 0, 0)

namespace Builder

/-- Function `append_neuron_delta` (`brain_neuron_builder.c` lines 40-47),
the product and the sum rounded by `fl`. -/
def append_neuron_delta_rounded (fl : BrainReal → BrainReal) (neuron : BrainNeuron)
    (delta : BrainReal) : Option BrainNeuron :=
  match neuron with
  | none => some none
  | some nr =>
    match nr._derivative with
    | none => none
    | some derivative =>
      some (some { nr with _delta := fl (nr._delta + fl (derivative nr._out * delta)) })

/-- Function `get_neuron_weighted_delta` (`brain_neuron_builder.c` lines
29-38), the product rounded by `fl`. -/
def get_neuron_weighted_delta_rounded (fl : BrainReal → BrainReal) (neuron : BrainNeuron)
    (index : Int) : BrainReal :=
  match neuron with
  | some nr =>
    if 0 ≤ index ∧ index < nr._number_of_input then fl (nr._delta * nr._w.rd index.toNat)
    else 0
  | none => 0

/-- Function `activate_neuron` (`brain_neuron_builder.c` lines 102-119),
every sum and product rounded by `fl`. -/
def activate_neuron_rounded (fl : BrainReal → BrainReal) (neuron : BrainNeuron) :
    Option BrainNeuron :=
  match neuron with
  | none => some none
  | some nr =>
    let sum := for_loop
      (fun (sum : BrainReal) (j : Nat) => fl (sum + fl (nr._in.rd j * nr._w.rd j)))
      (nr._number_of_input + 1).toNat 0
    match nr._activation with
    | none => none
    | some activation =>
      let nr1 : Neuron := { nr with _out := activation sum }
      let nr2 : Neuron :=
        { nr1 with
          _out := (if nr1._out > 0 then 1 else 0) - (if nr1._out < 0 then 1 else 0) }
      some (some { nr2 with _delta := 0 })

end Builder

/-! ## Sample inputs -/

/-- A neuron with three inputs, the identity as activation and the
constant `1` as its derivative.  With the loss `1` the three weights fall
in the three branches of the resilient rule: the products of stored and
new gradient are `1`, `-2` and `0`. -/
def sample_neuron : Neuron :=
  { _activation_function := some (fun x => x)
    _derivative_function := some (fun _ => 1)
    _learning_function := some LearningFunc.update_neuron_using_resilient
    _in := some [1, -2, 5]
    _w := some [3, 4, -1]
    _gradients := some [1, 1, 0]
    _deltas := some [1 / 2, 1 / 2, 1 / 2]
    _errors := some [0, 0, 0]
    _out := 0
    _bias := 1
    _bias_delta := 1 / 2
    _bias_gradient := 0
    _sum := 0
    _rprop_eta_plus := 12 / 10
    _rprop_eta_minus := 1 / 2
    _rprop_delta_min := 1 / 1000000
    _rprop_delta_max := 50
    _backprop_learning_rate := 112 / 100
    _backprop_momemtum := 0
    _number_of_input := 3 }

/-- A layer of one neuron, `sample_neuron`, over the input `[1, -2, 5]`.
The weighted sum of the neuron is `1 * 3 + (-2) * 4 + 5 * (-1) + 1 = -9` and
its activation is the identity. -/
def sample_layer : Layer :=
  { _number_of_neuron := 1
    _neurons := [some sample_neuron]
    _in := some [1, -2, 5]
    _in_errors := some [7]
    _out := some [5]
    _out_errors := some [0, 0, 0]
    _cost_function_derivative := none }

/-- The derivative of the quadratic cost, `actual - desired`. -/
def sample_cost_derivative : BrainReal → BrainReal → BrainReal :=
  fun actual desired => actual - desired

/-- A random generator that returns the middle of the range it is asked for. -/
def sample_rand : Nat → BrainReal → BrainReal → BrainReal :=
  fun _ lo hi => (lo + hi) / 2

/-- A layer of two neurons over three inputs, as `new_layer` builds it. -/
def sample_new_layer : BrainLayer :=
  new_layer (some (fun x => x)) (some (fun _ => 1)) (some sample_cost_derivative) sample_rand
    2 3 (some [1, -2, 5]) none

/-- A `neuron` node without a `training` child. -/
def sample_context_bare : Context :=
  some (XmlNode.mk "neuron" [] [] [] none)

/-- A `neuron` node whose `training` child has a `backprop` child that gives
no attribute. -/
def sample_context_backprop : Context :=
  some (XmlNode.mk "neuron" [] []
    [XmlNode.mk "training" [] [] [XmlNode.mk "backprop" [] [] [] none] none] none)

/-- An activation registry that knows the identity only. -/
def sample_registry : ActivationRegistry :=
  { activation_of := fun _ => some (fun x => x)
    derivative_of := fun _ => some (fun _ => 1) }

/-- A neuron of an output layer after a forward pass: three inputs, the
momentum rule, a derivative that is `2` everywhere, the stored sum `-9` and
the output `-9`. -/
def sample_output_neuron : Neuron :=
  { sample_neuron with
    _derivative_function := some (fun _ => 2)
    _learning_function := some LearningFunc.update_neuron_using_backpropagation
    _sum := -9
    _out := -9 }

/-- An output layer of one neuron, `sample_output_neuron`, with the
quadratic cost. -/
def sample_output_layer : Layer :=
  { _number_of_neuron := 1
    _neurons := [some sample_output_neuron]
    _in := some [1, -2, 5]
    _in_errors := some [0]
    _out := some [-9]
    _out_errors := some [0, 0, 0]
    _cost_function_derivative := some sample_cost_derivative }

/-- A neuron that uses the resilient rule, as `new_neuron` leaves its steps:
all steps are zero.  Its derivative is `x * (1 - x)`, which is `0` at `0`. -/
def sample_fresh_neuron : Neuron :=
  { sample_neuron with
    _derivative_function := some (fun x => x * (1 - x))
    _deltas := some [0, 0, 0]
    _bias_delta := 0 }

/-- A random generator that returns the upper end of the range it is asked
for. -/
def sample_rand_upper : Nat → BrainReal → BrainReal → BrainReal :=
  fun _ _ hi => hi

/-- A builder neuron with two inputs: the third entry of each buffer is for
the bias, whose input is `-1`. -/
def sample_builder_neuron : Builder.Neuron :=
  { _in := some [1, 2, -1]
    _w := some [1 / 2, -1 / 2, 1 / 4]
    _out := 1
    _learning_rate := 1 / 10
    _inertial_factor := 1 / 2
    _delta := 2
    _correction := some [1, 0, -1]
    _activation := some (fun x => x)
    _derivative := some (fun _ => 1)
    _number_of_input := 2
    _activation_type := 0 }

/-- The neuron with one input in which the bias of `nr` is the only weight:
the weight has the value `bias`, the step `bias_delta` and the stored
gradient `bias_gradient` of `nr`, and its input is `1`.  The update rule
run on it applies the rule of a weight to the history of the bias. -/
def bias_as_weight (nr : Neuron) : Neuron :=
  { nr with
    _in := some [1]
    _w := some [nr._bias]
    _deltas := some [nr._bias_delta]
    _gradients := some [nr._bias_gradient]
    _number_of_input := 1 }

/-- A neuron with two inputs whose two steps are `-1`, between
`delta_min = -10` and `delta_max = 50`, with `eta_plus = 2` and
`eta_minus = 1/2`.  With the loss `1` the products of stored and new
gradient are `1` and `-1`. -/
def sample_negative_step_neuron : Neuron :=
  { sample_neuron with
    _in := some [1, 1]
    _w := some [3, 4]
    _gradients := some [1, -1]
    _deltas := some [-1, -1]
    _errors := none
    _rprop_eta_plus := 2
    _rprop_eta_minus := 1 / 2
    _rprop_delta_min := -10
    _rprop_delta_max := 50
    _number_of_input := 2 }

/-- A writer that has written nothing yet. -/
def sample_writer : XmlWriter :=
  { opened := [], finished := [], broken := false }

/-- A neuron with three inputs, the weights `[0, 0, 0]` and the bias `0`, to
read a persisted neuron into. -/
def sample_target_neuron : Neuron :=
  { sample_neuron with _w := some [0, 0, 0], _bias := 0 }


/-- A neuron in the state `new_neuron` leaves the resilient rule in: all
steps and all stored gradients are zero.  Its derivative is the constant `1`
and its inputs are `[1, -2, 5]`. -/
def sample_zero_step_neuron : Neuron :=
  { sample_neuron with
    _deltas := some [0, 0, 0]
    _gradients := some [0, 0, 0]
    _bias_delta := 0
    _bias_gradient := 0 }

/-- A neuron with one input: each of its buffers has one entry. -/
def sample_one_input_neuron : Neuron :=
  { sample_neuron with
    _in := some [1]
    _w := some [3]
    _gradients := some [0]
    _deltas := some [0]
    _errors := some [0]
    _number_of_input := 1 }

/-- A persisted neuron with the bias `0` and two elements `weight`. -/
def sample_two_weight_context : XmlNode :=
  XmlNode.mk "neuron" [("bias", 0)] []
    [XmlNode.mk "weight" [] [] [] (some 1), XmlNode.mk "weight" [] [] [] (some 2)] none

/-- A node `neuron` of the builder format with two inputs. -/
def sample_builder_context : XmlNode :=
  XmlNode.mk "neuron" [("input", 2), ("learning-rate", 1 / 10), ("inertial-factor", 1 / 2)]
    [("activation-type", "Identity")] [] none

/-- A neuron with one input whose state holds doubles only: the input `1`,
the weight `3`, the step `1/2`, the stored gradient `2 ^ -600`, no upstream
error vector, `eta_plus = 2`, `eta_minus = 1/2`, `delta_min = 0` and
`delta_max = 50`.  Its derivative is the constant `1`. -/
def sample_tiny_gradient_neuron : Neuron :=
  { _activation_function := some (fun x => x)
    _derivative_function := some (fun _ => 1)
    _learning_function := some LearningFunc.update_neuron_using_resilient
    _in := some [1]
    _w := some [3]
    _gradients := some [2 ^ (-600 : Int)]
    _deltas := some [1 / 2]
    _errors := none
    _out := 0
    _bias := 1
    _bias_delta := 1 / 2
    _bias_gradient := 0
    _sum := 0
    _rprop_eta_plus := 2
    _rprop_eta_minus := 1 / 2
    _rprop_delta_min := 0
    _rprop_delta_max := 50
    _backprop_learning_rate := 1
    _backprop_momemtum := 0
    _number_of_input := 1 }

/-! ## Buffers -/

theorem BrainSignal.len_wr (s : BrainSignal) (i : Nat) (v : BrainReal) :
    (s.wr i v).len = s.len := by
  cases s <;> simp [BrainSignal.wr, BrainSignal.len]

theorem BrainSignal.isSome_wr (s : BrainSignal) (i : Nat) (v : BrainReal) :
    (s.wr i v).isSome = s.isSome := by
  cases s <;> simp [BrainSignal.wr]

theorem BrainSignal.rd_wr (s : BrainSignal) (i j : Nat) (v : BrainReal) :
    (s.wr i v).rd j = if j = i ∧ i < s.len then v else s.rd j := by
  cases s with
  | none => simp [BrainSignal.wr, BrainSignal.rd, BrainSignal.len]
  | some xs =>
    simp only [BrainSignal.wr, BrainSignal.rd, BrainSignal.len, List.getD_eq_getElem?_getD,
      List.getElem?_set]
    by_cases hji : j = i
    · subst hji
      by_cases hlt : j < xs.length
      · simp [hlt]
      · simp [hlt, List.getElem?_eq_none (Nat.le_of_not_lt hlt)]
    · have hij : ¬ i = j := fun h => hji h.symm
      simp [hji, hij]

theorem BrainSignal.ext_rd {s t : BrainSignal} (hs : s.isSome = t.isSome)
    (hl : s.len = t.len) (hr : ∀ j, s.rd j = t.rd j) : s = t := by
  cases s with
  | none => cases t with
    | none => rfl
    | some ys => simp at hs
  | some xs => cases t with
    | none => simp at hs
    | some ys =>
      simp only [BrainSignal.len] at hl
      congr 1
      apply List.ext_getElem hl
      intro n h1 h2
      have := hr n
      simpa [BrainSignal.rd, List.getD_eq_getElem?_getD, h1, h2] using this

/-! ## The momentum rule -/

/-- The test on `_errors` only skips a write that would do nothing. -/
theorem backpropagation_body_eq (lr m g : BrainReal) (nr : Neuron) (i : Nat) :
    backpropagation_body lr m g nr i =
      { nr with
        _errors := nr._errors.wr i (nr._errors.rd i + g * nr._w.rd i)
        _w := nr._w.wr i (nr._w.rd i - (lr * g * nr._in.rd i - m * nr._w.rd i)) } := by
  obtain ⟨af, df, lf, inp, w, gr, de, er, out, b, bd, bg, sm, ep, em, dmin, dmax, blr, bm, n⟩ := nr
  cases er <;> simp [backpropagation_body, BrainSignal.wr]

/-- What the loop of the momentum rule leaves alone. -/
theorem backpropagation_loop_frame (lr m g : BrainReal) (s : Neuron) (k : Nat) :
    (for_loop (backpropagation_body lr m g) k s)._in = s._in ∧
    (for_loop (backpropagation_body lr m g) k s)._bias = s._bias ∧
    (for_loop (backpropagation_body lr m g) k s)._w.len = s._w.len ∧
    (for_loop (backpropagation_body lr m g) k s)._errors.len = s._errors.len ∧
    (for_loop (backpropagation_body lr m g) k s)._errors.isSome = s._errors.isSome := by
  induction k with
  | zero => simp [for_loop]
  | succ k ih =>
    obtain ⟨h1, h2, h3, h4, h5⟩ := ih
    simp [for_loop, backpropagation_body_eq, BrainSignal.len_wr, BrainSignal.isSome_wr,
      h1, h2, h3, h4, h5]

/-- The weights after `k` rounds of the loop of the momentum rule. -/
theorem backpropagation_loop_w (lr m g : BrainReal) (s : Neuron) (k j : Nat) :
    (for_loop (backpropagation_body lr m g) k s)._w.rd j =
      if j < k ∧ j < s._w.len then
        s._w.rd j - (lr * g * s._in.rd j - m * s._w.rd j)
      else s._w.rd j := by
  induction k with
  | zero => simp [for_loop]
  | succ k ih =>
    obtain ⟨h1, _, h3, _, _⟩ := backpropagation_loop_frame lr m g s k
    simp only [for_loop, backpropagation_body_eq, BrainSignal.rd_wr, h1, h3]
    by_cases hjk : j = k
    · subst hjk
      simp only [Nat.lt_irrefl, false_and, if_false] at ih
      by_cases hl : j < s._w.len
      · simp [hl, ih]
      · simp [hl, ih]
    · rw [ih]
      have : j < k + 1 ↔ j < k := by omega
      simp [hjk, this]

/-- The upstream errors after `k` rounds of the loop of the momentum rule. -/
theorem backpropagation_loop_errors (lr m g : BrainReal) (s : Neuron) (k j : Nat) :
    (for_loop (backpropagation_body lr m g) k s)._errors.rd j =
      if j < k ∧ j < s._errors.len then s._errors.rd j + g * s._w.rd j
      else s._errors.rd j := by
  induction k with
  | zero => simp [for_loop]
  | succ k ih =>
    obtain ⟨_, _, _, h4, _⟩ := backpropagation_loop_frame lr m g s k
    have hw := backpropagation_loop_w lr m g s k k
    simp only [Nat.lt_irrefl, false_and, if_false] at hw
    simp only [for_loop, backpropagation_body_eq, BrainSignal.rd_wr, h4, hw]
    by_cases hjk : j = k
    · subst hjk
      simp only [Nat.lt_irrefl, false_and, if_false] at ih
      by_cases hl : j < s._errors.len
      · simp [hl, ih]
      · simp [hl, ih]
    · rw [ih]
      have : j < k + 1 ↔ j < k := by omega
      simp [hjk, this]

/-! ## The resilient rule -/

/-- One round of the loop of the resilient rule, with the locals named. -/
theorem resilient_body_eq (ep em dmin dmax g : BrainReal) (nr : Neuron) (i : Nat) :
    resilient_body ep em dmin dmax g nr i =
      { nr with
        _errors := nr._errors.wr i (nr._errors.rd i + g * nr._w.rd i)
        _w := nr._w.wr i (nr._w.rd i +
          (rprop_locals ep em dmin dmax (nr._gradients.rd i) (nr._deltas.rd i)
            (g * nr._in.rd i)).2.1)
        _deltas := nr._deltas.wr i
          (rprop_locals ep em dmin dmax (nr._gradients.rd i) (nr._deltas.rd i)
            (g * nr._in.rd i)).1
        _gradients := nr._gradients.wr i
          (rprop_locals ep em dmin dmax (nr._gradients.rd i) (nr._deltas.rd i)
            (g * nr._in.rd i)).2.2 } := by
  obtain ⟨af, df, lf, inp, w, gr, de, er, out, b, bd, bg, sm, ep1, em1, dmin1, dmax1, blr, bm, n⟩ := nr
  cases er <;> rfl

/-- What the loop of the resilient rule leaves alone. -/
theorem resilient_loop_frame (ep em dmin dmax g : BrainReal) (s : Neuron) (k : Nat) :
    (for_loop (resilient_body ep em dmin dmax g) k s)._in = s._in ∧
    (for_loop (resilient_body ep em dmin dmax g) k s)._bias = s._bias ∧
    (for_loop (resilient_body ep em dmin dmax g) k s)._bias_delta = s._bias_delta ∧
    (for_loop (resilient_body ep em dmin dmax g) k s)._bias_gradient = s._bias_gradient ∧
    (for_loop (resilient_body ep em dmin dmax g) k s)._w.len = s._w.len ∧
    (for_loop (resilient_body ep em dmin dmax g) k s)._deltas.len = s._deltas.len ∧
    (for_loop (resilient_body ep em dmin dmax g) k s)._gradients.len = s._gradients.len ∧
    (for_loop (resilient_body ep em dmin dmax g) k s)._errors.len = s._errors.len ∧
    (for_loop (resilient_body ep em dmin dmax g) k s)._errors.isSome = s._errors.isSome := by
  induction k with
  | zero => simp [for_loop]
  | succ k ih =>
    obtain ⟨h1, h2, h3, h4, h5, h6, h7, h8, h9⟩ := ih
    simp [for_loop, resilient_body_eq, BrainSignal.len_wr, BrainSignal.isSome_wr,
      h1, h2, h3, h4, h5, h6, h7, h8, h9]

/-- The four buffers after `k` rounds of the loop of the resilient rule:
slot `j` is rewritten in round `j`, from the values the slot held when the
loop started, and no other round touches it. -/
theorem resilient_loop_slots (ep em dmin dmax g : BrainReal) (s : Neuron) (k : Nat) :
    ∀ j,
      ((for_loop (resilient_body ep em dmin dmax g) k s)._w.rd j =
        if j < k ∧ j < s._w.len then
          s._w.rd j + (rprop_locals ep em dmin dmax (s._gradients.rd j) (s._deltas.rd j)
            (g * s._in.rd j)).2.1
        else s._w.rd j) ∧
      ((for_loop (resilient_body ep em dmin dmax g) k s)._deltas.rd j =
        if j < k ∧ j < s._deltas.len then
          (rprop_locals ep em dmin dmax (s._gradients.rd j) (s._deltas.rd j)
            (g * s._in.rd j)).1
        else s._deltas.rd j) ∧
      ((for_loop (resilient_body ep em dmin dmax g) k s)._gradients.rd j =
        if j < k ∧ j < s._gradients.len then
          (rprop_locals ep em dmin dmax (s._gradients.rd j) (s._deltas.rd j)
            (g * s._in.rd j)).2.2
        else s._gradients.rd j) ∧
      ((for_loop (resilient_body ep em dmin dmax g) k s)._errors.rd j =
        if j < k ∧ j < s._errors.len then s._errors.rd j + g * s._w.rd j
        else s._errors.rd j) := by
  induction k with
  | zero => intro j; simp [for_loop]
  | succ k ih =>
    intro j
    obtain ⟨h1, _, _, _, h5, h6, h7, h8, _⟩ := resilient_loop_frame ep em dmin dmax g s k
    obtain ⟨kw, kd, kg, ke⟩ := ih k
    simp only [Nat.lt_irrefl, false_and, if_false] at kw kd kg ke
    obtain ⟨jw, jd, jg, je⟩ := ih j
    simp only [for_loop, resilient_body_eq, BrainSignal.rd_wr, h1, h5, h6, h7, h8,
      kw, kd, kg, ke]
    by_cases hjk : j = k
    · subst hjk
      refine ⟨?_, ?_, ?_, ?_⟩
      · by_cases hl : j < s._w.len <;> simp [hl, kw]
      · by_cases hl : j < s._deltas.len <;> simp [hl, kd]
      · by_cases hl : j < s._gradients.len <;> simp [hl, kg]
      · by_cases hl : j < s._errors.len <;> simp [hl, ke]
    · have hlt : j < k + 1 ↔ j < k := by omega
      rw [jw, jd, jg, je]
      simp [hjk, hlt]

/-- The locals when the stored and the new gradient agree in sign. -/
theorem rprop_locals_pos (ep em dmin dmax prev step g : BrainReal) (h : 0 < prev * g) :
    rprop_locals ep em dmin dmax prev step g =
      (MIN (step * ep) dmax,
        if 0 < g then -(MIN (step * ep) dmax) else MIN (step * ep) dmax, g) := by
  unfold rprop_locals
  simp only [h, if_true]
  split_ifs <;> simp

/-- The locals when the stored and the new gradient disagree in sign. -/
theorem rprop_locals_neg (ep em dmin dmax prev step g : BrainReal) (h : prev * g < 0) :
    rprop_locals ep em dmin dmax prev step g = (MAX (step * em) dmin, 0, 0) := by
  unfold rprop_locals
  have h1 : ¬ 0 < prev * g := not_lt.mpr (le_of_lt h)
  simp only [h1, h, if_true, if_false]

/-- The locals when the product of the stored and the new gradient is zero. -/
theorem rprop_locals_zero (ep em dmin dmax prev step g : BrainReal) (h : prev * g = 0) :
    rprop_locals ep em dmin dmax prev step g = (0, if 0 < g then -step else step, g) := by
  unfold rprop_locals
  have h3 : fabs 0 ≤ EPSILON := by
    unfold fabs EPSILON
    norm_num
  simp only [h, lt_irrefl, if_false, h3, if_true]
  split_ifs <;> simp

/-- Macro `MIN` is the minimum. -/
theorem MIN_eq_min (a b : BrainReal) : MIN a b = min a b := by
  unfold MIN
  split_ifs with h
  · exact (min_eq_left (le_of_lt h)).symm
  · exact (min_eq_right (not_lt.mp h)).symm

/-- Macro `MAX` is the maximum. -/
theorem MAX_eq_max (a b : BrainReal) : MAX a b = max a b := by
  unfold MAX
  split_ifs with h
  · exact (max_eq_right (le_of_lt h)).symm
  · exact (max_eq_left (not_lt.mp h)).symm

/-- The upstream errors after `update_neuron_using_backpropagation`, slot by
slot, in terms of the neuron before the call. -/
theorem update_neuron_using_backpropagation_slots (nr : Neuron) (loss : BrainReal)
    (derivative : BrainReal → BrainReal)
    (hd : nr._derivative_function = some derivative) :
    ∃ nr', update_neuron_using_backpropagation (some nr) loss = some nr' ∧
      (∀ j, nr'._errors.rd j =
        if j < nr._number_of_input ∧ j < nr._errors.len then
          nr._errors.rd j + loss * derivative nr._sum * nr._w.rd j
        else nr._errors.rd j) ∧
      nr'._errors.len = nr._errors.len ∧
      nr'._errors.isSome = nr._errors.isSome := by
  unfold update_neuron_using_backpropagation
  simp only [hd]
  refine ⟨_, rfl, ?_, ?_, ?_⟩
  · intro j
    exact backpropagation_loop_errors _ _ _ _ _ j
  · exact (backpropagation_loop_frame _ _ _ _ _).2.2.2.1
  · exact (backpropagation_loop_frame _ _ _ _ _).2.2.2.2

/-! ## Claims on the momentum rule -/

/-- C1: with a derivative function, `update_neuron_using_backpropagation`
computes `gradient = loss * derivative(sum)`, replaces every weight `w[i]`,
`i < number_of_input`, by
`w[i] - (learning_rate * gradient * in[i] - momentum * w[i])`, and the bias
by `bias - (learning_rate * gradient - momentum * bias)`, which is the rule
of a weight whose input is `1`. -/
theorem update_neuron_using_backpropagation_rule (nr : Neuron) (loss : BrainReal)
    (derivative : BrainReal → BrainReal)
    (hd : nr._derivative_function = some derivative)
    (hw : nr._number_of_input ≤ nr._w.len) :
    ∃ nr', update_neuron_using_backpropagation (some nr) loss = some nr' ∧
      (∀ i, i < nr._number_of_input →
        nr'._w.rd i = nr._w.rd i -
          (nr._backprop_learning_rate * (loss * derivative nr._sum) * nr._in.rd i -
            nr._backprop_momemtum * nr._w.rd i)) ∧
      nr'._bias = nr._bias -
        (nr._backprop_learning_rate * (loss * derivative nr._sum) -
          nr._backprop_momemtum * nr._bias) ∧
      nr'._bias = nr._bias -
        (nr._backprop_learning_rate * (loss * derivative nr._sum) * 1 -
          nr._backprop_momemtum * nr._bias) := by
  unfold update_neuron_using_backpropagation
  simp only [hd]
  refine ⟨_, rfl, ?_, ?_, ?_⟩
  · intro i hi
    rw [backpropagation_loop_w]
    have hi2 : i < nr._w.len := Nat.lt_of_lt_of_le hi hw
    simp [hi, hi2]
  · rw [(backpropagation_loop_frame _ _ _ _ _).2.1]
  · rw [(backpropagation_loop_frame _ _ _ _ _).2.1]
    simp

/-- Witness of C1 on `sample_neuron` with the loss `1`. -/
theorem update_neuron_using_backpropagation_rule_witness :
    sample_neuron._derivative_function = some (fun _ => 1) ∧
    sample_neuron._number_of_input ≤ sample_neuron._w.len ∧
    ∃ nr', update_neuron_using_backpropagation (some sample_neuron) 1 = some nr' ∧
      (∀ i, i < sample_neuron._number_of_input →
        nr'._w.rd i = sample_neuron._w.rd i -
          (sample_neuron._backprop_learning_rate * (1 * (fun _ => 1) sample_neuron._sum) *
              sample_neuron._in.rd i -
            sample_neuron._backprop_momemtum * sample_neuron._w.rd i)) ∧
      nr'._bias = sample_neuron._bias -
        (sample_neuron._backprop_learning_rate * (1 * (fun _ => 1) sample_neuron._sum) -
          sample_neuron._backprop_momemtum * sample_neuron._bias) ∧
      nr'._bias = sample_neuron._bias -
        (sample_neuron._backprop_learning_rate * (1 * (fun _ => 1) sample_neuron._sum) * 1 -
          sample_neuron._backprop_momemtum * sample_neuron._bias) :=
  ⟨rfl, by decide,
    update_neuron_using_backpropagation_rule sample_neuron 1 (fun _ => 1) rfl (by decide)⟩

/-- C2: one call of `update_neuron_using_backpropagation` adds
`gradient * w_old[i]` to every upstream error slot `errors[i]`,
`i < number_of_input`, where `w_old` are the weights before the call and
`gradient = loss * derivative(sum)`.  Each slot receives one push, the other
slots keep their value, and the resulting buffer is the same whatever the
bias of the neuron is. -/
theorem update_neuron_using_backpropagation_errors (nr : Neuron) (loss : BrainReal)
    (derivative : BrainReal → BrainReal)
    (hd : nr._derivative_function = some derivative)
    (he : nr._number_of_input ≤ nr._errors.len) :
    ∃ nr', update_neuron_using_backpropagation (some nr) loss = some nr' ∧
      (∀ i, i < nr._number_of_input →
        nr'._errors.rd i = nr._errors.rd i + loss * derivative nr._sum * nr._w.rd i) ∧
      (∀ i, nr._number_of_input ≤ i → nr'._errors.rd i = nr._errors.rd i) ∧
      nr'._errors.len = nr._errors.len ∧
      (∀ bias, ∃ nr'',
        update_neuron_using_backpropagation (some { nr with _bias := bias }) loss = some nr'' ∧
        nr''._errors = nr'._errors) := by
  unfold update_neuron_using_backpropagation
  simp only [hd]
  refine ⟨_, rfl, ?_, ?_, ?_, ?_⟩
  · intro i hi
    rw [backpropagation_loop_errors]
    have hi2 : i < nr._errors.len := Nat.lt_of_lt_of_le hi he
    simp [hi, hi2]
  · intro i hi
    rw [backpropagation_loop_errors]
    have hi2 : ¬ i < nr._number_of_input := Nat.not_lt.mpr hi
    simp [hi2]
  · rw [(backpropagation_loop_frame _ _ _ _ _).2.2.2.1]
  · intro bias
    refine ⟨_, rfl, ?_⟩
    apply BrainSignal.ext_rd
    · rw [(backpropagation_loop_frame _ _ _ _ _).2.2.2.2,
        (backpropagation_loop_frame _ _ _ _ _).2.2.2.2]
    · rw [(backpropagation_loop_frame _ _ _ _ _).2.2.2.1,
        (backpropagation_loop_frame _ _ _ _ _).2.2.2.1]
    · intro j
      rw [backpropagation_loop_errors, backpropagation_loop_errors]

/-- Witness of C2 on `sample_neuron` with the loss `1`. -/
theorem update_neuron_using_backpropagation_errors_witness :
    sample_neuron._derivative_function = some (fun _ => 1) ∧
    sample_neuron._number_of_input ≤ sample_neuron._errors.len ∧
    ∃ nr', update_neuron_using_backpropagation (some sample_neuron) 1 = some nr' ∧
      (∀ i, i < sample_neuron._number_of_input →
        nr'._errors.rd i =
          sample_neuron._errors.rd i + 1 * (fun _ => 1) sample_neuron._sum *
            sample_neuron._w.rd i) ∧
      (∀ i, sample_neuron._number_of_input ≤ i →
        nr'._errors.rd i = sample_neuron._errors.rd i) ∧
      nr'._errors.len = sample_neuron._errors.len ∧
      (∀ bias, ∃ nr'',
        update_neuron_using_backpropagation (some { sample_neuron with _bias := bias }) 1 =
          some nr'' ∧
        nr''._errors = nr'._errors) :=
  ⟨rfl, by decide,
    update_neuron_using_backpropagation_errors sample_neuron 1 (fun _ => 1) rfl (by decide)⟩

/-- The four buffers after `update_neuron_using_resilient`, slot by slot,
in terms of the neuron before the call. -/
theorem update_neuron_using_resilient_slots (nr : Neuron) (loss : BrainReal)
    (derivative : BrainReal → BrainReal)
    (hd : nr._derivative_function = some derivative) :
    ∃ nr', update_neuron_using_resilient (some nr) loss = some nr' ∧
      (∀ j,
        (nr'._w.rd j =
          if j < nr._number_of_input ∧ j < nr._w.len then
            nr._w.rd j + (rprop_locals nr._rprop_eta_plus nr._rprop_eta_minus
              nr._rprop_delta_min nr._rprop_delta_max (nr._gradients.rd j) (nr._deltas.rd j)
              (loss * derivative nr._sum * nr._in.rd j)).2.1
          else nr._w.rd j) ∧
        (nr'._deltas.rd j =
          if j < nr._number_of_input ∧ j < nr._deltas.len then
            (rprop_locals nr._rprop_eta_plus nr._rprop_eta_minus
              nr._rprop_delta_min nr._rprop_delta_max (nr._gradients.rd j) (nr._deltas.rd j)
              (loss * derivative nr._sum * nr._in.rd j)).1
          else nr._deltas.rd j) ∧
        (nr'._gradients.rd j =
          if j < nr._number_of_input ∧ j < nr._gradients.len then
            (rprop_locals nr._rprop_eta_plus nr._rprop_eta_minus
              nr._rprop_delta_min nr._rprop_delta_max (nr._gradients.rd j) (nr._deltas.rd j)
              (loss * derivative nr._sum * nr._in.rd j)).2.2
          else nr._gradients.rd j) ∧
        (nr'._errors.rd j =
          if j < nr._number_of_input ∧ j < nr._errors.len then
            nr._errors.rd j + loss * derivative nr._sum * nr._w.rd j
          else nr._errors.rd j)) ∧
      nr'._errors.len = nr._errors.len ∧
      nr'._errors.isSome = nr._errors.isSome := by
  unfold update_neuron_using_resilient
  simp only [hd]
  refine ⟨_, rfl, ?_, ?_, ?_⟩
  · intro j
    exact resilient_loop_slots _ _ _ _ _ _ _ j
  · exact (resilient_loop_frame _ _ _ _ _ _ _).2.2.2.2.2.2.2.1
  · exact (resilient_loop_frame _ _ _ _ _ _ _).2.2.2.2.2.2.2.2

/-! ## Claims on the resilient rule -/

/-- C3: in `update_neuron_using_resilient`, for a weight index `i` with
`g = gradient * in[i]` and `prev = gradients[i]`, if `prev * g > 0` then
`deltas[i]` becomes `min(deltas[i] * eta_plus, delta_max)`, the weight moves
by that new step against the sign of `g` (minus the step when `g > 0`, plus
the step when `g < 0`), and `gradients[i]` becomes `g`. -/
theorem update_neuron_using_resilient_same_sign (nr : Neuron) (loss : BrainReal)
    (derivative : BrainReal → BrainReal) (i : Nat)
    (hd : nr._derivative_function = some derivative)
    (hi : i < nr._number_of_input)
    (hw : nr._number_of_input ≤ nr._w.len)
    (hdl : nr._number_of_input ≤ nr._deltas.len)
    (hgr : nr._number_of_input ≤ nr._gradients.len)
    (hp : 0 < nr._gradients.rd i * (loss * derivative nr._sum * nr._in.rd i)) :
    ∃ nr', update_neuron_using_resilient (some nr) loss = some nr' ∧
      nr'._deltas.rd i = min (nr._deltas.rd i * nr._rprop_eta_plus) nr._rprop_delta_max ∧
      (0 < loss * derivative nr._sum * nr._in.rd i →
        nr'._w.rd i = nr._w.rd i - nr'._deltas.rd i) ∧
      (loss * derivative nr._sum * nr._in.rd i < 0 →
        nr'._w.rd i = nr._w.rd i + nr'._deltas.rd i) ∧
      nr'._gradients.rd i = loss * derivative nr._sum * nr._in.rd i := by
  obtain ⟨nr', hup, hs, -⟩ := update_neuron_using_resilient_slots nr loss derivative hd
  obtain ⟨sw, sd, sg, -⟩ := hs i
  have hi1 : i < nr._w.len := Nat.lt_of_lt_of_le hi hw
  have hi2 : i < nr._deltas.len := Nat.lt_of_lt_of_le hi hdl
  have hi3 : i < nr._gradients.len := Nat.lt_of_lt_of_le hi hgr
  rw [rprop_locals_pos _ _ _ _ _ _ _ hp] at sw sd sg
  simp only [hi, hi1, hi2, hi3, and_self, if_true, MIN_eq_min] at sw sd sg
  refine ⟨nr', hup, sd, ?_, ?_, sg⟩
  · intro hg
    rw [sw, sd, if_pos hg]
    ring
  · intro hg
    rw [sw, sd, if_neg (not_lt.mpr (le_of_lt hg))]

/-- Witness of C3: weight `0` of `sample_neuron` with the loss `1`, where the
stored gradient is `1` and the new one is `1`. -/
theorem update_neuron_using_resilient_same_sign_witness :
    sample_neuron._derivative_function = some (fun _ => 1) ∧
    0 < sample_neuron._number_of_input ∧
    sample_neuron._number_of_input ≤ sample_neuron._w.len ∧
    sample_neuron._number_of_input ≤ sample_neuron._deltas.len ∧
    sample_neuron._number_of_input ≤ sample_neuron._gradients.len ∧
    0 < sample_neuron._gradients.rd 0 *
      (1 * (fun _ => 1) sample_neuron._sum * sample_neuron._in.rd 0) ∧
    ∃ nr', update_neuron_using_resilient (some sample_neuron) 1 = some nr' ∧
      nr'._deltas.rd 0 =
        min (sample_neuron._deltas.rd 0 * sample_neuron._rprop_eta_plus)
          sample_neuron._rprop_delta_max ∧
      (0 < 1 * (fun _ => 1) sample_neuron._sum * sample_neuron._in.rd 0 →
        nr'._w.rd 0 = sample_neuron._w.rd 0 - nr'._deltas.rd 0) ∧
      (1 * (fun _ => 1) sample_neuron._sum * sample_neuron._in.rd 0 < 0 →
        nr'._w.rd 0 = sample_neuron._w.rd 0 + nr'._deltas.rd 0) ∧
      nr'._gradients.rd 0 = 1 * (fun _ => 1) sample_neuron._sum * sample_neuron._in.rd 0 :=
  ⟨rfl, by decide, by decide, by decide, by decide,
    by norm_num [sample_neuron, BrainSignal.rd],
    update_neuron_using_resilient_same_sign sample_neuron 1 (fun _ => 1) 0 rfl
      (by decide) (by decide) (by decide) (by decide)
      (by norm_num [sample_neuron, BrainSignal.rd])⟩

/-- C4: in `update_neuron_using_resilient`, for a weight index `i` with
`g = gradient * in[i]` and `prev = gradients[i]`, if `prev * g < 0` then
`deltas[i]` becomes `max(deltas[i] * eta_minus, delta_min)`, the weight
`w[i]` keeps its value and `gradients[i]` becomes `0`. -/
theorem update_neuron_using_resilient_opposite_sign (nr : Neuron) (loss : BrainReal)
    (derivative : BrainReal → BrainReal) (i : Nat)
    (hd : nr._derivative_function = some derivative)
    (hi : i < nr._number_of_input)
    (hdl : nr._number_of_input ≤ nr._deltas.len)
    (hgr : nr._number_of_input ≤ nr._gradients.len)
    (hp : nr._gradients.rd i * (loss * derivative nr._sum * nr._in.rd i) < 0) :
    ∃ nr', update_neuron_using_resilient (some nr) loss = some nr' ∧
      nr'._deltas.rd i = max (nr._deltas.rd i * nr._rprop_eta_minus) nr._rprop_delta_min ∧
      nr'._w.rd i = nr._w.rd i ∧
      nr'._gradients.rd i = 0 := by
  obtain ⟨nr', hup, hs, -⟩ := update_neuron_using_resilient_slots nr loss derivative hd
  obtain ⟨sw, sd, sg, -⟩ := hs i
  have hi2 : i < nr._deltas.len := Nat.lt_of_lt_of_le hi hdl
  have hi3 : i < nr._gradients.len := Nat.lt_of_lt_of_le hi hgr
  rw [rprop_locals_neg _ _ _ _ _ _ _ hp] at sw sd sg
  simp only [hi, hi2, hi3, and_self, if_true, MAX_eq_max] at sd sg
  refine ⟨nr', hup, sd, ?_, sg⟩
  rw [sw]
  split_ifs <;> simp

/-- Witness of C4: weight `1` of `sample_neuron` with the loss `1`, where the
stored gradient is `1` and the new one is `-2`. -/
theorem update_neuron_using_resilient_opposite_sign_witness :
    sample_neuron._derivative_function = some (fun _ => 1) ∧
    1 < sample_neuron._number_of_input ∧
    sample_neuron._number_of_input ≤ sample_neuron._deltas.len ∧
    sample_neuron._number_of_input ≤ sample_neuron._gradients.len ∧
    sample_neuron._gradients.rd 1 *
      (1 * (fun _ => 1) sample_neuron._sum * sample_neuron._in.rd 1) < 0 ∧
    ∃ nr', update_neuron_using_resilient (some sample_neuron) 1 = some nr' ∧
      nr'._deltas.rd 1 =
        max (sample_neuron._deltas.rd 1 * sample_neuron._rprop_eta_minus)
          sample_neuron._rprop_delta_min ∧
      nr'._w.rd 1 = sample_neuron._w.rd 1 ∧
      nr'._gradients.rd 1 = 0 :=
  ⟨rfl, by decide, by decide, by decide,
    by norm_num [sample_neuron, BrainSignal.rd],
    update_neuron_using_resilient_opposite_sign sample_neuron 1 (fun _ => 1) 1 rfl
      (by decide) (by decide) (by decide)
      (by norm_num [sample_neuron, BrainSignal.rd])⟩

/-- C5: in `update_neuron_using_resilient`, for a weight index `i` with
`g = gradient * in[i]` and `prev = gradients[i]`, if `prev * g` is zero then
`w[i]` moves by the stored step `deltas[i]`, taken as it was before the
call, against the sign of `g` (minus the step when `g > 0`, plus the step
when `g < 0`; when `g = 0` the code adds the step), and `gradients[i]`
becomes `g`. -/
theorem update_neuron_using_resilient_zero_product (nr : Neuron) (loss : BrainReal)
    (derivative : BrainReal → BrainReal) (i : Nat)
    (hd : nr._derivative_function = some derivative)
    (hi : i < nr._number_of_input)
    (hw : nr._number_of_input ≤ nr._w.len)
    (hgr : nr._number_of_input ≤ nr._gradients.len)
    (hp : nr._gradients.rd i * (loss * derivative nr._sum * nr._in.rd i) = 0) :
    ∃ nr', update_neuron_using_resilient (some nr) loss = some nr' ∧
      (0 < loss * derivative nr._sum * nr._in.rd i →
        nr'._w.rd i = nr._w.rd i - nr._deltas.rd i) ∧
      (loss * derivative nr._sum * nr._in.rd i < 0 →
        nr'._w.rd i = nr._w.rd i + nr._deltas.rd i) ∧
      (loss * derivative nr._sum * nr._in.rd i = 0 →
        nr'._w.rd i = nr._w.rd i + nr._deltas.rd i) ∧
      nr'._gradients.rd i = loss * derivative nr._sum * nr._in.rd i := by
  obtain ⟨nr', hup, hs, -⟩ := update_neuron_using_resilient_slots nr loss derivative hd
  obtain ⟨sw, -, sg, -⟩ := hs i
  have hi1 : i < nr._w.len := Nat.lt_of_lt_of_le hi hw
  have hi3 : i < nr._gradients.len := Nat.lt_of_lt_of_le hi hgr
  rw [rprop_locals_zero _ _ _ _ _ _ _ hp] at sw sg
  simp only [hi, hi1, hi3, and_self, if_true] at sw sg
  refine ⟨nr', hup, ?_, ?_, ?_, sg⟩
  · intro hg
    rw [sw, if_pos hg]
    ring
  · intro hg
    rw [sw, if_neg (not_lt.mpr (le_of_lt hg))]
  · intro hg
    rw [sw, if_neg (not_lt.mpr (le_of_eq hg))]

/-- Witness of C5: weight `2` of `sample_neuron` with the loss `1`, where the
stored gradient is `0` and the new one is `5`. -/
theorem update_neuron_using_resilient_zero_product_witness :
    sample_neuron._derivative_function = some (fun _ => 1) ∧
    2 < sample_neuron._number_of_input ∧
    sample_neuron._number_of_input ≤ sample_neuron._w.len ∧
    sample_neuron._number_of_input ≤ sample_neuron._gradients.len ∧
    sample_neuron._gradients.rd 2 *
      (1 * (fun _ => 1) sample_neuron._sum * sample_neuron._in.rd 2) = 0 ∧
    ∃ nr', update_neuron_using_resilient (some sample_neuron) 1 = some nr' ∧
      (0 < 1 * (fun _ => 1) sample_neuron._sum * sample_neuron._in.rd 2 →
        nr'._w.rd 2 = sample_neuron._w.rd 2 - sample_neuron._deltas.rd 2) ∧
      (1 * (fun _ => 1) sample_neuron._sum * sample_neuron._in.rd 2 < 0 →
        nr'._w.rd 2 = sample_neuron._w.rd 2 + sample_neuron._deltas.rd 2) ∧
      (1 * (fun _ => 1) sample_neuron._sum * sample_neuron._in.rd 2 = 0 →
        nr'._w.rd 2 = sample_neuron._w.rd 2 + sample_neuron._deltas.rd 2) ∧
      nr'._gradients.rd 2 = 1 * (fun _ => 1) sample_neuron._sum * sample_neuron._in.rd 2 :=
  ⟨rfl, by decide, by decide, by decide,
    by norm_num [sample_neuron, BrainSignal.rd],
    update_neuron_using_resilient_zero_product sample_neuron 1 (fun _ => 1) 2 rfl
      (by decide) (by decide) (by decide)
      (by norm_num [sample_neuron, BrainSignal.rd])⟩

/-- A buffer of zeros reads as zero everywhere. -/
theorem BrainSignal.rd_replicate_zero (n i : Nat) :
    BrainSignal.rd (some (List.replicate n 0)) i = 0 := by
  simp only [BrainSignal.rd, List.getD_eq_getElem?_getD, List.getElem?_replicate]
  split_ifs <;> rfl

/-- The training parameters are not touched by the loop of the resilient rule. -/
theorem resilient_loop_parameters (ep em dmin dmax g : BrainReal) (s : Neuron) (k : Nat) :
    (for_loop (resilient_body ep em dmin dmax g) k s)._rprop_delta_min = s._rprop_delta_min ∧
    (for_loop (resilient_body ep em dmin dmax g) k s)._rprop_delta_max = s._rprop_delta_max := by
  induction k with
  | zero => simp [for_loop]
  | succ k ih =>
    obtain ⟨h1, h2⟩ := ih
    simp [for_loop, resilient_body_eq, h1, h2]

/-- The bias step after `update_neuron_using_resilient` and the training
parameters, in terms of the neuron before the call. -/
theorem update_neuron_using_resilient_bias_delta (nr : Neuron) (loss : BrainReal)
    (derivative : BrainReal → BrainReal)
    (hd : nr._derivative_function = some derivative) :
    ∃ nr', update_neuron_using_resilient (some nr) loss = some nr' ∧
      nr'._bias_delta =
        (rprop_locals nr._rprop_eta_plus nr._rprop_eta_minus nr._rprop_delta_min
          nr._rprop_delta_max nr._bias_gradient nr._bias_delta (loss * derivative nr._sum)).1 ∧
      nr'._rprop_delta_min = nr._rprop_delta_min ∧
      nr'._rprop_delta_max = nr._rprop_delta_max := by
  unfold update_neuron_using_resilient
  simp only [hd]
  refine ⟨_, rfl, ?_, ?_, ?_⟩
  · rw [(resilient_loop_frame _ _ _ _ _ _ _).2.2.1]
    rfl
  · rw [(resilient_loop_parameters _ _ _ _ _ _ _).1]
  · rw [(resilient_loop_parameters _ _ _ _ _ _ _).2]

/-- What the loop of `new_neuron` that draws the weights leaves alone. -/
theorem new_neuron_loop_frame (f : Nat → BrainReal) (s : Neuron) (k : Nat) :
    (for_loop (fun (s : Neuron) (index : Nat) => { s with _w := s._w.wr index (f index) })
      k s)._deltas = s._deltas ∧
    (for_loop (fun (s : Neuron) (index : Nat) => { s with _w := s._w.wr index (f index) })
      k s)._gradients = s._gradients ∧
    (for_loop (fun (s : Neuron) (index : Nat) => { s with _w := s._w.wr index (f index) })
      k s)._bias_delta = s._bias_delta ∧
    (for_loop (fun (s : Neuron) (index : Nat) => { s with _w := s._w.wr index (f index) })
      k s)._bias_gradient = s._bias_gradient ∧
    (for_loop (fun (s : Neuron) (index : Nat) => { s with _w := s._w.wr index (f index) })
      k s)._rprop_delta_min = s._rprop_delta_min ∧
    (for_loop (fun (s : Neuron) (index : Nat) => { s with _w := s._w.wr index (f index) })
      k s)._rprop_delta_max = s._rprop_delta_max ∧
    (for_loop (fun (s : Neuron) (index : Nat) => { s with _w := s._w.wr index (f index) })
      k s)._number_of_input = s._number_of_input ∧
    (for_loop (fun (s : Neuron) (index : Nat) => { s with _w := s._w.wr index (f index) })
      k s)._derivative_function = s._derivative_function := by
  induction k with
  | zero => simp [for_loop]
  | succ k ih =>
    obtain ⟨h1, h2, h3, h4, h5, h6, h7, h8⟩ := ih
    simp [for_loop, h1, h2, h3, h4, h5, h6, h7, h8]

/-- The state in which `new_neuron` leaves the resilient rule: all steps and
stored gradients are zero, `delta_min` is `1e-6` and `delta_max` is `50`. -/
theorem new_neuron_resilient_state (sigmoid sigmoid_derivative : ActivationPtrFunc)
    (rand : Nat → BrainReal → BrainReal → BrainReal) (input : BrainSignal) (n : Nat)
    (slot : BrainReal) (errors : BrainSignal) :
    ∃ nr, new_neuron sigmoid sigmoid_derivative rand input (n + 1) (some slot) errors = some nr ∧
      nr._deltas = some (List.replicate (n + 1) 0) ∧
      nr._gradients = some (List.replicate (n + 1) 0) ∧
      nr._bias_delta = 0 ∧ nr._bias_gradient = 0 ∧
      nr._rprop_delta_min = 1 / 1000000 ∧ nr._rprop_delta_max = 50 ∧
      nr._number_of_input = n + 1 ∧
      nr._derivative_function = sigmoid_derivative := by
  unfold new_neuron
  simp only [ne_eq, Nat.succ_ne_zero, not_false_eq_true, if_true]
  refine ⟨_, rfl, ?_, ?_, ?_, ?_, ?_, ?_, ?_, ?_⟩
  · rw [(new_neuron_loop_frame _ _ _).1]
  · rw [(new_neuron_loop_frame _ _ _).2.1]
  · rw [(new_neuron_loop_frame _ _ _).2.2.1]
  · rw [(new_neuron_loop_frame _ _ _).2.2.2.1]
  · rw [(new_neuron_loop_frame _ _ _).2.2.2.2.1]
  · rw [(new_neuron_loop_frame _ _ _).2.2.2.2.2.1]
  · rw [(new_neuron_loop_frame _ _ _).2.2.2.2.2.2.1]
  · rw [(new_neuron_loop_frame _ _ _).2.2.2.2.2.2.2]

/-- C6 does not hold on the code: a neuron built by `new_neuron`, for which
`delta_min = 1e-6 ≤ delta_max = 50`, has after one call of
`update_neuron_using_resilient`, whatever the input and the loss are, every
step `deltas[i]` and the bias step `bias_delta` equal to `0`, which is
below `delta_min`. -/
theorem new_neuron_resilient_step_below_delta_min
    (sigmoid sigmoid_derivative : ActivationPtrFunc)
    (rand : Nat → BrainReal → BrainReal → BrainReal) (input : BrainSignal) (n : Nat)
    (slot : BrainReal) (errors : BrainSignal) (loss : BrainReal) :
    ∃ nr nr',
      new_neuron sigmoid sigmoid_derivative rand input (n + 1) (some slot) errors = some nr ∧
      update_neuron_using_resilient (some nr) loss = some nr' ∧
      nr'._rprop_delta_min ≤ nr'._rprop_delta_max ∧
      (∀ i, i < n + 1 → nr'._deltas.rd i = 0 ∧ nr'._deltas.rd i < nr'._rprop_delta_min) ∧
      nr'._bias_delta = 0 ∧ nr'._bias_delta < nr'._rprop_delta_min := by
  obtain ⟨nr, hnew, hde, hgr, hbd, hbg, hmin, hmax, hn, hdf⟩ :=
    new_neuron_resilient_state sigmoid sigmoid_derivative rand input n slot errors
  cases hd : nr._derivative_function with
  | none =>
    refine ⟨nr, nr, hnew, ?_, ?_, ?_, ?_, ?_⟩
    · unfold update_neuron_using_resilient
      simp only [hd]
    · rw [hmin, hmax]; norm_num
    · intro i _
      rw [hde, hmin, BrainSignal.rd_replicate_zero]
      norm_num
    · exact hbd
    · rw [hbd, hmin]; norm_num
  | some derivative =>
    obtain ⟨nr', hup, hs, -⟩ := update_neuron_using_resilient_slots nr loss derivative hd
    obtain ⟨nr'', hup', hb, hmin', hmax'⟩ :=
      update_neuron_using_resilient_bias_delta nr loss derivative hd
    have hsame : nr'' = nr' := Option.some.inj (hup'.symm.trans hup)
    subst hsame
    have hbz : nr''._bias_delta = 0 := by
      rw [hb, rprop_locals_zero _ _ _ _ _ _ _ (by rw [hbg, zero_mul])]
    have hdz : ∀ i, nr''._deltas.rd i = 0 := by
      intro i
      rw [(hs i).2.1, rprop_locals_zero _ _ _ _ _ _ _
        (by rw [hgr, BrainSignal.rd_replicate_zero, zero_mul]), hde,
        BrainSignal.rd_replicate_zero]
      simp
    refine ⟨nr, nr'', hnew, hup, ?_, ?_, hbz, ?_⟩
    · rw [hmin', hmax', hmin, hmax]; norm_num
    · intro i _
      rw [hdz i, hmin', hmin]
      norm_num
    · rw [hbz, hmin', hmin]; norm_num

/-- C7: from the same neuron state and with the same loss, the upstream
error buffer after `update_neuron_using_resilient` is the upstream error
buffer after `update_neuron_using_backpropagation`; with a derivative
function, whatever branch each weight takes, slot `i` grows by
`loss * derivative(sum) * w_old[i]` when it lies below `number_of_input`
and inside the buffer, and keeps its value otherwise. -/
theorem update_neuron_using_resilient_errors_eq_backpropagation (nr : Neuron)
    (loss : BrainReal) :
    ∃ a b, update_neuron_using_resilient (some nr) loss = some a ∧
      update_neuron_using_backpropagation (some nr) loss = some b ∧
      a._errors = b._errors ∧
      ∀ derivative, nr._derivative_function = some derivative →
        ∀ i, a._errors.rd i =
          if i < nr._number_of_input ∧ i < nr._errors.len then
            nr._errors.rd i + loss * derivative nr._sum * nr._w.rd i
          else nr._errors.rd i := by
  cases hd : nr._derivative_function with
  | none =>
    refine ⟨nr, nr, ?_, ?_, rfl, ?_⟩
    · unfold update_neuron_using_resilient
      simp only [hd]
    · unfold update_neuron_using_backpropagation
      simp only [hd]
    · intro derivative h
      cases h
  | some d =>
    obtain ⟨a, ha, hs, hal, has⟩ := update_neuron_using_resilient_slots nr loss d hd
    obtain ⟨b, hb, hbs, hbl, hbs2⟩ := update_neuron_using_backpropagation_slots nr loss d hd
    refine ⟨a, b, ha, hb, ?_, ?_⟩
    · apply BrainSignal.ext_rd
      · rw [has, hbs2]
      · rw [hal, hbl]
      · intro j
        rw [(hs j).2.2.2, hbs j]
    · intro derivative h i
      cases h
      exact (hs i).2.2.2

/-- The theorem of C7 at `sample_neuron` with the loss `1`. -/
theorem update_neuron_using_resilient_errors_eq_backpropagation_witness :
    ∃ a b, update_neuron_using_resilient (some sample_neuron) 1 = some a ∧
      update_neuron_using_backpropagation (some sample_neuron) 1 = some b ∧
      a._errors = b._errors ∧
      ∀ derivative, sample_neuron._derivative_function = some derivative →
        ∀ i, a._errors.rd i =
          if i < sample_neuron._number_of_input ∧ i < sample_neuron._errors.len then
            sample_neuron._errors.rd i + 1 * derivative sample_neuron._sum *
              sample_neuron._w.rd i
          else sample_neuron._errors.rd i :=
  update_neuron_using_resilient_errors_eq_backpropagation sample_neuron 1

/-! ## Claims on the forward pass -/

/-- What the loop of `activate_neuron` computes: it adds the products
`in[j] * w[j]`, `j < k`, to `_sum` and touches nothing else. -/
theorem activate_loop (s : Neuron) (k : Nat) :
    for_loop activate_body k s =
      { s with _sum := s._sum + ∑ j in Finset.range k, s._in.rd j * s._w.rd j } := by
  induction k with
  | zero => simp [for_loop]
  | succ k ih =>
    simp only [for_loop, ih, activate_body, Finset.sum_range_succ]
    congr 1
    ring

/-- C8: for a neuron with an activation function, an input and a weight
vector, `activate_neuron` called with `is_activated` true stores
`sum = (Σ j < number_of_input, in[j] * w[j]) + bias` in the neuron and
writes `activation(sum)` to the output slot. -/
theorem activate_neuron_activated (nr : Neuron) (activation : BrainReal → BrainReal)
    (ha : nr._activation_function = some activation)
    (hin : nr._in.isSome = true) (hw : nr._w.isSome = true) :
    ∃ nr', activate_neuron (some nr) true = some nr' ∧
      nr'._sum = (∑ j in Finset.range nr._number_of_input, nr._in.rd j * nr._w.rd j) +
        nr._bias ∧
      nr'._out = activation nr'._sum := by
  unfold activate_neuron
  simp only [ha, hin, hw, Bool.and_self, if_true, activate_loop]
  refine ⟨_, rfl, ?_, rfl⟩
  simp

/-- Witness of C8 on `sample_neuron`. -/
theorem activate_neuron_activated_witness :
    sample_neuron._activation_function = some (fun x => x) ∧
    sample_neuron._in.isSome = true ∧ sample_neuron._w.isSome = true ∧
    ∃ nr', activate_neuron (some sample_neuron) true = some nr' ∧
      nr'._sum =
        (∑ j in Finset.range sample_neuron._number_of_input,
          sample_neuron._in.rd j * sample_neuron._w.rd j) + sample_neuron._bias ∧
      nr'._out = (fun x => x) nr'._sum :=
  ⟨rfl, rfl, rfl, activate_neuron_activated sample_neuron (fun x => x) rfl rfl rfl⟩

/-- C10: `activate_neuron` called with `is_activated` false writes `0` to
the output slot of the neuron and sets its stored sum to `0`, whatever its
inputs, weights and bias are; nothing else of the neuron changes. -/
theorem activate_neuron_suppressed (nr : Neuron) :
    ∃ nr', activate_neuron (some nr) false = some nr' ∧
      nr'._out = 0 ∧ nr'._sum = 0 ∧ nr' = { nr with _out := 0, _sum := 0 } := by
  refine ⟨{ nr with _out := 0, _sum := 0 }, ?_, rfl, rfl, rfl⟩
  simp only [activate_neuron]
  split <;> simp

/-- Function `activate_neuron` writes the output slot and the stored sum of
the neuron and nothing else. -/
theorem activate_neuron_frame (nr : Neuron) (flag : Bool) :
    ∃ out sum, activate_neuron (some nr) flag = some { nr with _out := out, _sum := sum } := by
  simp only [activate_neuron]
  split
  · exact ⟨0, 0, rfl⟩
  · split
    · simp only [activate_loop]
      exact ⟨_, _, rfl⟩
    · exact ⟨0, 0, rfl⟩

/-- Reading an array of neurons after one entry was set. -/
theorem getD_set_neuron (xs : List BrainNeuron) (i j : Nat) (v : BrainNeuron) :
    (xs.set i v).getD j none = if j = i ∧ i < xs.length then v else xs.getD j none := by
  simp only [List.getD_eq_getElem?_getD, List.getElem?_set]
  by_cases hji : j = i
  · subst hji
    by_cases hlt : j < xs.length
    · simp [hlt]
    · simp [hlt, List.getElem?_eq_none (Nat.le_of_not_lt hlt)]
  · have hij : ¬ i = j := fun h => hji h.symm
    simp [hji, hij]

/-- A neuron that is present lies inside the array. -/
theorem lt_length_of_getD_some (xs : List BrainNeuron) (i : Nat) (nr : Neuron)
    (h : xs.getD i none = some nr) : i < xs.length := by
  by_contra hlt
  rw [List.getD_eq_getElem?_getD, List.getElem?_eq_none (Nat.le_of_not_lt hlt)] at h
  simp at h

/-- One round of the loop of `activate_layer`: neuron `i` is replaced by its
activated state, its output slot is written, the rest of the layer is kept. -/
theorem activate_layer_body_spec (flag : Bool) (s : Layer) (i : Nat) :
    (activate_layer_body flag s i)._in = s._in ∧
    (activate_layer_body flag s i)._out_errors = s._out_errors ∧
    (activate_layer_body flag s i)._in_errors = s._in_errors ∧
    (activate_layer_body flag s i)._number_of_neuron = s._number_of_neuron ∧
    (activate_layer_body flag s i)._neurons.length = s._neurons.length ∧
    (activate_layer_body flag s i)._out.len = s._out.len ∧
    (∀ j, (activate_layer_body flag s i)._neurons.getD j none =
      if j = i then activate_neuron (s.attach i) flag else s._neurons.getD j none) ∧
    (∀ j, (activate_layer_body flag s i)._out.rd j =
      if j = i ∧ i < s._out.len then
        (match activate_neuron (s.attach i) flag with
          | some nr => nr._out
          | none => s._out.rd j)
      else s._out.rd j) := by
  cases hn : s._neurons.getD i none with
  | none =>
    have ha : s.attach i = none := by simp only [Layer.attach, hn]
    have hb : activate_layer_body flag s i = s := by
      simp [activate_layer_body, ha, activate_neuron, Layer.detach]
    rw [hb, ha]
    refine ⟨rfl, rfl, rfl, rfl, rfl, rfl, ?_, ?_⟩
    · intro j
      by_cases hji : j = i
      · subst hji
        rw [if_pos rfl, hn]
        rfl
      · simp [hji]
    · intro j
      simp [activate_neuron]
  | some nr =>
    have hlt : i < s._neurons.length := lt_length_of_getD_some _ _ _ hn
    have ha : s.attach i =
        some { nr with _in := s._in, _out := s._out.rd i, _errors := s._out_errors } := by
      simp only [Layer.attach, hn]
    obtain ⟨o, sm, hact⟩ := activate_neuron_frame
      { nr with _in := s._in, _out := s._out.rd i, _errors := s._out_errors } flag
    have hb : activate_layer_body flag s i =
        { s with
          _neurons := s._neurons.set i (some
            { nr with _in := s._in, _out := o, _errors := s._out_errors, _sum := sm })
          _out := s._out.wr i o } := by
      simp [activate_layer_body, ha, hact, Layer.detach]
    rw [hb, ha, hact]
    refine ⟨rfl, rfl, rfl, rfl, ?_, ?_, ?_, ?_⟩
    · simp
    · simp [BrainSignal.len_wr]
    · intro j
      simp only [getD_set_neuron, hlt, and_true]
    · intro j
      simp only [BrainSignal.rd_wr]

/-- The layer after `k` rounds of the loop of `activate_layer`: every neuron
`j < k` is the activated state of neuron `j` of the layer the loop started
from, its output slot holds the output of that state, and the rest of the
layer is as it was. -/
theorem activate_layer_loop (flag : Bool) (l : Layer) (k : Nat) :
    (for_loop (activate_layer_body flag) k l)._in = l._in ∧
    (for_loop (activate_layer_body flag) k l)._out_errors = l._out_errors ∧
    (for_loop (activate_layer_body flag) k l)._in_errors = l._in_errors ∧
    (for_loop (activate_layer_body flag) k l)._number_of_neuron = l._number_of_neuron ∧
    (for_loop (activate_layer_body flag) k l)._neurons.length = l._neurons.length ∧
    (for_loop (activate_layer_body flag) k l)._out.len = l._out.len ∧
    (∀ j, (for_loop (activate_layer_body flag) k l)._neurons.getD j none =
      if j < k then activate_neuron (l.attach j) flag else l._neurons.getD j none) ∧
    (∀ j, (for_loop (activate_layer_body flag) k l)._out.rd j =
      if j < k ∧ j < l._out.len then
        (match activate_neuron (l.attach j) flag with
          | some nr => nr._out
          | none => l._out.rd j)
      else l._out.rd j) := by
  induction k with
  | zero => simp [for_loop]
  | succ k ih =>
    obtain ⟨h1, h2, h3, h4, h5, h6, hN, hO⟩ := ih
    obtain ⟨b1, b2, b3, b4, b5, b6, bN, bO⟩ :=
      activate_layer_body_spec flag (for_loop (activate_layer_body flag) k l) k
    have hNk := hN k
    have hOk := hO k
    simp only [Nat.lt_irrefl, false_and, if_false] at hNk hOk
    have hatt : (for_loop (activate_layer_body flag) k l).attach k = l.attach k := by
      simp only [Layer.attach, hNk, hOk, h1, h2]
    simp only [for_loop]
    refine ⟨b1.trans h1, b2.trans h2, b3.trans h3, b4.trans h4, b5.trans h5, b6.trans h6,
      ?_, ?_⟩
    · intro j
      rw [bN j, hatt, hN j]
      by_cases hjk : j = k
      · subst hjk
        simp
      · have hlt : j < k + 1 ↔ j < k := by omega
        simp [hjk, hlt]
    · intro j
      rw [bO j, hatt, hO j, h6]
      by_cases hjk : j = k
      · subst hjk
        by_cases hl : j < l._out.len
        · simp [hl, hOk]
        · simp [hl]
      · have hlt : j < k + 1 ↔ j < k := by omega
        simp [hjk, hlt]

/-- The state `activate_neuron` returns when the flag is false. -/
theorem activate_neuron_false_eq (nr : Neuron) :
    activate_neuron (some nr) false = some { nr with _out := 0, _sum := 0 } := by
  simp only [activate_neuron]
  split <;> simp

/-- What `memset` leaves in a buffer: zero in the first `n` entries. -/
theorem memset_zero_spec (s : BrainSignal) (n : Nat) :
    (memset_zero s n).len = s.len ∧ (memset_zero s n).isSome = s.isSome ∧
    ∀ j, (memset_zero s n).rd j = if j < n ∧ j < s.len then 0 else s.rd j := by
  unfold memset_zero
  induction n with
  | zero => simp [for_loop]
  | succ k ih =>
    obtain ⟨h1, h2, h3⟩ := ih
    simp only [for_loop]
    refine ⟨by rw [BrainSignal.len_wr, h1], by rw [BrainSignal.isSome_wr, h2], ?_⟩
    intro j
    rw [BrainSignal.rd_wr, h1, h3 j]
    by_cases hjk : j = k
    · subst hjk
      by_cases hl : j < s.len
      · simp [hl]
      · simp [hl]
    · have hlt : j < k + 1 ↔ j < k := by omega
      simp [hjk, hlt]

/-- C12: after `activate_layer`, for both values of the flag, every entry of
the error accumulator `_in_errors` of the layer is zero, whatever it held
before; the accumulator has the `number_of_neuron` entries `new_layer`
allocates and keeps them. -/
theorem activate_layer_clears_in_errors (l : Layer) (flag : Bool)
    (hlen : l._in_errors.len = l._number_of_neuron) :
    ∃ l', activate_layer (some l) flag = some l' ∧
      l'._in_errors.len = l._in_errors.len ∧
      ∀ j, j < l'._in_errors.len → l'._in_errors.rd j = 0 := by
  refine ⟨_, rfl, ?_, ?_⟩
  · rw [(activate_layer_loop flag _ _).2.2.1]
    exact (memset_zero_spec _ _).1
  · intro j hj
    rw [(activate_layer_loop flag _ _).2.2.1] at hj ⊢
    have hj2 : j < l._in_errors.len := by
      rw [← (memset_zero_spec l._in_errors l._number_of_neuron).1]
      exact hj
    have hj3 : j < l._number_of_neuron := by rw [← hlen]; exact hj2
    show (memset_zero l._in_errors l._number_of_neuron).rd j = 0
    rw [(memset_zero_spec _ _).2.2 j]
    simp [hj2, hj3]

/-- Witness of C12 on `sample_layer`, whose accumulator holds `[7]`. -/
theorem activate_layer_clears_in_errors_witness :
    sample_layer._in_errors.len = sample_layer._number_of_neuron ∧
    ∃ l', activate_layer (some sample_layer) false = some l' ∧
      l'._in_errors.len = sample_layer._in_errors.len ∧
      ∀ j, j < l'._in_errors.len → l'._in_errors.rd j = 0 :=
  ⟨by decide, activate_layer_clears_in_errors sample_layer false (by decide)⟩

/-- C16: if `number_of_output` differs from the neuron count of the layer,
`backpropagate_output_layer` returns the layer as it was: no weight, bias,
step size or stored gradient of a neuron and no entry of an error buffer is
modified. -/
theorem backpropagate_output_layer_mismatch (l : Layer) (number_of_output : Nat)
    (desired : BrainSignal) (h : number_of_output ≠ l._number_of_neuron) :
    backpropagate_output_layer (some l) number_of_output desired = some l := by
  have h2 : ¬ l._number_of_neuron = number_of_output := fun e => h e.symm
  unfold backpropagate_output_layer
  simp only [h2, if_false]
  split <;> rfl

/-- Witness of C16: `sample_layer` has one neuron and is given two desired
values. -/
theorem backpropagate_output_layer_mismatch_witness :
    2 ≠ sample_layer._number_of_neuron ∧
    backpropagate_output_layer (some sample_layer) 2 (some [1, 0]) = some sample_layer :=
  ⟨by decide, backpropagate_output_layer_mismatch sample_layer 2 (some [1, 0]) (by decide)⟩

/-! ## Claims on the construction of a layer -/

/-- The loop of `new_neuron` that draws the weights keeps the number of
inputs and the size of the weight buffer. -/
theorem new_neuron_loop_size (f : Nat → BrainReal) (s : Neuron) (k : Nat) :
    (for_loop (fun (s : Neuron) (index : Nat) => { s with _w := s._w.wr index (f index) })
      k s)._number_of_input = s._number_of_input ∧
    (for_loop (fun (s : Neuron) (index : Nat) => { s with _w := s._w.wr index (f index) })
      k s)._w.len = s._w.len := by
  induction k with
  | zero => simp [for_loop]
  | succ k ih =>
    obtain ⟨h1, h2⟩ := ih
    simp [for_loop, h1, h2, BrainSignal.len_wr]

/-- Function `new_neuron`, given an output slot and a number of inputs that
is not zero, returns a neuron with that number of inputs and as many
weights. -/
theorem new_neuron_size (sigmoid sigmoid_derivative : ActivationPtrFunc)
    (rand : Nat → BrainReal → BrainReal → BrainReal) (input : BrainSignal) (n : Nat)
    (slot : BrainReal) (errors : BrainSignal) (hn : n ≠ 0) :
    ∃ nr, new_neuron sigmoid sigmoid_derivative rand input n (some slot) errors = some nr ∧
      nr._number_of_input = n ∧ nr._w.len = n := by
  unfold new_neuron
  simp only [ne_eq, hn, not_false_eq_true, if_true]
  refine ⟨_, rfl, ?_, ?_⟩
  · rw [(new_neuron_loop_size _ _ _).1]
  · rw [(new_neuron_loop_size _ _ _).2]
    simp [BrainSignal.len]

/-- The layer after `k` rounds of the loop of `new_layer`: the first `k`
entries of the array of neurons hold what `new_neuron` returned, and the
rest of the layer is as the allocation left it. -/
theorem new_layer_loop (sigmoid sigmoid_derivative : ActivationPtrFunc)
    (rand : Nat → BrainReal → BrainReal → BrainReal) (m : Nat) (oe : BrainSignal)
    (l : Layer) (k : Nat) :
    (for_loop
      (fun (s : Layer) (index : Nat) =>
        { s with
          _neurons := s._neurons.set index
            (new_neuron sigmoid sigmoid_derivative (fun k => rand (index * (m + 1) + k))
              s._in m (some (s._out.rd index)) oe) }) k l)._number_of_neuron =
      l._number_of_neuron ∧
    (for_loop
      (fun (s : Layer) (index : Nat) =>
        { s with
          _neurons := s._neurons.set index
            (new_neuron sigmoid sigmoid_derivative (fun k => rand (index * (m + 1) + k))
              s._in m (some (s._out.rd index)) oe) }) k l)._in = l._in ∧
    (for_loop
      (fun (s : Layer) (index : Nat) =>
        { s with
          _neurons := s._neurons.set index
            (new_neuron sigmoid sigmoid_derivative (fun k => rand (index * (m + 1) + k))
              s._in m (some (s._out.rd index)) oe) }) k l)._out = l._out ∧
    (for_loop
      (fun (s : Layer) (index : Nat) =>
        { s with
          _neurons := s._neurons.set index
            (new_neuron sigmoid sigmoid_derivative (fun k => rand (index * (m + 1) + k))
              s._in m (some (s._out.rd index)) oe) }) k l)._in_errors = l._in_errors ∧
    (for_loop
      (fun (s : Layer) (index : Nat) =>
        { s with
          _neurons := s._neurons.set index
            (new_neuron sigmoid sigmoid_derivative (fun k => rand (index * (m + 1) + k))
              s._in m (some (s._out.rd index)) oe) }) k l)._neurons.length =
      l._neurons.length ∧
    ∀ j, (for_loop
      (fun (s : Layer) (index : Nat) =>
        { s with
          _neurons := s._neurons.set index
            (new_neuron sigmoid sigmoid_derivative (fun k => rand (index * (m + 1) + k))
              s._in m (some (s._out.rd index)) oe) }) k l)._neurons.getD j none =
      if j < k ∧ j < l._neurons.length then
        new_neuron sigmoid sigmoid_derivative (fun k => rand (j * (m + 1) + k))
          l._in m (some (l._out.rd j)) oe
      else l._neurons.getD j none := by
  induction k with
  | zero => simp [for_loop]
  | succ k ih =>
    obtain ⟨h1, h2, h3, h4, h5, h6⟩ := ih
    simp only [for_loop]
    refine ⟨h1, h2, h3, h4, ?_, ?_⟩
    · rw [List.length_set, h5]
    · intro j
      rw [getD_set_neuron, h5, h2, h3, h6 j]
      by_cases hjk : j = k
      · subst hjk
        by_cases hl : j < l._neurons.length
        · simp [hl]
        · simp [hl]
      · have hlt : j < k + 1 ↔ j < k := by omega
        simp [hjk, hlt]

/-- What `new_layer` returns when it returns a layer. -/
theorem new_layer_some (sigmoid sigmoid_derivative : ActivationPtrFunc)
    (quadratic_derivative : Option (BrainReal → BrainReal → BrainReal))
    (rand : Nat → BrainReal → BrainReal → BrainReal) (n m : Nat) (input oe : BrainSignal)
    (hn : n ≠ 0) (hm : m ≠ 0) (hin : input.isSome = true) :
    ∃ l, new_layer sigmoid sigmoid_derivative quadratic_derivative rand n m input oe = some l ∧
      l._number_of_neuron = n ∧ l._in = input ∧
      l._out = some (List.replicate n 0) ∧
      l._in_errors = some (List.replicate n 0) ∧
      l._neurons.length = n ∧
      ∀ j, j < n → l._neurons.getD j none =
        new_neuron sigmoid sigmoid_derivative (fun k => rand (j * (m + 1) + k)) input m
          (some 0) oe := by
  have hn2 : ¬ 0 = n := fun e => hn e.symm
  unfold new_layer
  simp only [ne_eq, hn, hm, hin, not_false_eq_true, and_self, if_true, hn2]
  refine ⟨_, rfl, ?_, ?_, ?_, ?_, ?_, ?_⟩
  · rw [(new_layer_loop _ _ _ _ _ _ _).1]
  · rw [(new_layer_loop _ _ _ _ _ _ _).2.1]
  · rw [(new_layer_loop _ _ _ _ _ _ _).2.2.1]
  · rw [(new_layer_loop _ _ _ _ _ _ _).2.2.2.1]
  · rw [(new_layer_loop _ _ _ _ _ _ _).2.2.2.2.1]
    simp
  · intro j hj
    rw [(new_layer_loop _ _ _ _ _ _ _).2.2.2.2.2 j]
    simp [hj, BrainSignal.rd_replicate_zero]

/-- C17: `new_layer` returns `NULL` if and only if `number_of_neurons` is
`0`, or `number_of_inputs` is `0`, or the input signal is absent; a layer
it returns has `number_of_neurons` as its neuron count. -/
theorem new_layer_null_iff (sigmoid sigmoid_derivative : ActivationPtrFunc)
    (quadratic_derivative : Option (BrainReal → BrainReal → BrainReal))
    (rand : Nat → BrainReal → BrainReal → BrainReal) (n m : Nat) (input oe : BrainSignal) :
    (new_layer sigmoid sigmoid_derivative quadratic_derivative rand n m input oe = none ↔
      (n = 0 ∨ m = 0 ∨ input = none)) ∧
    ∀ l, new_layer sigmoid sigmoid_derivative quadratic_derivative rand n m input oe = some l →
      l._number_of_neuron = n := by
  by_cases hc : n ≠ 0 ∧ m ≠ 0 ∧ input.isSome = true
  · obtain ⟨hn, hm, hin⟩ := hc
    obtain ⟨l, hl, hcount, -⟩ :=
      new_layer_some sigmoid sigmoid_derivative quadratic_derivative rand n m input oe hn hm hin
    have hin2 : input ≠ none := by
      intro e
      rw [e] at hin
      simp at hin
    refine ⟨?_, ?_⟩
    · rw [hl]
      simp [hn, hm, hin2]
    · intro l' hl'
      rw [hl] at hl'
      cases hl'
      exact hcount
  · have hnone : new_layer sigmoid sigmoid_derivative quadratic_derivative rand n m input oe =
        none := by
      unfold new_layer
      have hc2 : ¬ (m ≠ 0 ∧ n ≠ 0 ∧ input.isSome = true) := fun ⟨a, b, c⟩ => hc ⟨b, a, c⟩
      rw [if_neg hc2]
    refine ⟨?_, ?_⟩
    · rw [hnone]
      simp only [true_iff]
      by_contra hno
      apply hc
      push_neg at hno
      obtain ⟨a, b, c⟩ := hno
      refine ⟨a, b, ?_⟩
      cases input with
      | none => exact absurd rfl c
      | some xs => rfl
    · intro l' hl'
      rw [hnone] at hl'
      cases hl'

/-- Function `new_layer` returns a layer only for a number of neurons and a
number of inputs that are not zero and an input that is present. -/
theorem new_layer_some_inv (sigmoid sigmoid_derivative : ActivationPtrFunc)
    (quadratic_derivative : Option (BrainReal → BrainReal → BrainReal))
    (rand : Nat → BrainReal → BrainReal → BrainReal) (n m : Nat) (input oe : BrainSignal)
    (l : Layer)
    (h : new_layer sigmoid sigmoid_derivative quadratic_derivative rand n m input oe = some l) :
    n ≠ 0 ∧ m ≠ 0 ∧ input.isSome = true := by
  by_contra hc
  have hc2 : ¬ (m ≠ 0 ∧ n ≠ 0 ∧ input.isSome = true) := fun ⟨a, b, c⟩ => hc ⟨b, a, c⟩
  unfold new_layer at h
  rw [if_neg hc2] at h
  cases h

/-- C18: in a layer returned by `new_layer(number_of_neurons,
number_of_inputs, ...)` the output vector has `number_of_neurons` entries,
all zero, the layer holds `number_of_neurons` neurons, each of them is
present, has a weight vector of `number_of_inputs` entries, and
`get_neuron_number_of_input` returns `number_of_inputs` for it. -/
theorem new_layer_dimensions (sigmoid sigmoid_derivative : ActivationPtrFunc)
    (quadratic_derivative : Option (BrainReal → BrainReal → BrainReal))
    (rand : Nat → BrainReal → BrainReal → BrainReal) (n m : Nat) (input oe : BrainSignal)
    (l : Layer)
    (h : new_layer sigmoid sigmoid_derivative quadratic_derivative rand n m input oe = some l) :
    l._out = some (List.replicate n 0) ∧ l._out.len = n ∧
    l._number_of_neuron = n ∧ l._neurons.length = n ∧
    ∀ i, i < n → ∃ nr, l._neurons.getD i none = some nr ∧ nr._w.len = m ∧
      get_neuron_number_of_input (some nr) = m := by
  obtain ⟨hn, hm, hin⟩ := new_layer_some_inv _ _ _ _ _ _ _ _ _ h
  obtain ⟨l', hl', hcount, -, hout, -, hlen, hneu⟩ :=
    new_layer_some sigmoid sigmoid_derivative quadratic_derivative rand n m input oe hn hm hin
  have hll : l' = l := Option.some.inj (hl'.symm.trans h)
  subst hll
  refine ⟨hout, ?_, hcount, hlen, ?_⟩
  · rw [hout]
    simp [BrainSignal.len]
  · intro i hi
    obtain ⟨nr, hnr, hni, hwl⟩ := new_neuron_size sigmoid sigmoid_derivative
      (fun k => rand (i * (m + 1) + k)) input m 0 oe hm
    exact ⟨nr, (hneu i hi).trans hnr, hwl, hni⟩

/-- Witness of C18 on `sample_new_layer`, two neurons over three inputs. -/
theorem new_layer_dimensions_witness :
    ∃ l, sample_new_layer = some l ∧
      l._out = some (List.replicate 2 0) ∧ l._out.len = 2 ∧
      l._number_of_neuron = 2 ∧ l._neurons.length = 2 ∧
      ∀ i, i < 2 → ∃ nr, l._neurons.getD i none = some nr ∧ nr._w.len = 3 ∧
        get_neuron_number_of_input (some nr) = 3 := by
  obtain ⟨l, hl, -⟩ := new_layer_some (some (fun x => x)) (some (fun _ => 1))
    (some sample_cost_derivative) sample_rand 2 3 (some [1, -2, 5]) none
    (by decide) (by decide) rfl
  exact ⟨l, hl, new_layer_dimensions _ _ _ _ _ _ _ _ _ hl⟩

/-- C19 does not hold as stated: a layer built by `new_layer` for two
neurons over three inputs owns an error accumulator `_in_errors` of two
entries, not three. -/
theorem new_layer_in_errors_not_input_size :
    ∃ l, sample_new_layer = some l ∧ l._in_errors.len = 2 ∧ l._in.len = 3 ∧
      l._in_errors.len ≠ 3 := by
  obtain ⟨l, hl, -, hin, -, herr, -⟩ := new_layer_some (some (fun x => x)) (some (fun _ => 1))
    (some sample_cost_derivative) sample_rand 2 3 (some [1, -2, 5]) none
    (by decide) (by decide) rfl
  refine ⟨l, hl, ?_, ?_, ?_⟩
  · rw [herr]
    rfl
  · rw [hin]
    rfl
  · rw [herr]
    decide

/-- C19 as the code has it: in a layer returned by
`new_layer(number_of_neurons, number_of_inputs, ...)` the error accumulator
the layer owns, `_in_errors`, has `number_of_neurons` entries, one for each
neuron of the layer, all zero. -/
theorem new_layer_in_errors_size (sigmoid sigmoid_derivative : ActivationPtrFunc)
    (quadratic_derivative : Option (BrainReal → BrainReal → BrainReal))
    (rand : Nat → BrainReal → BrainReal → BrainReal) (n m : Nat) (input oe : BrainSignal)
    (l : Layer)
    (h : new_layer sigmoid sigmoid_derivative quadratic_derivative rand n m input oe = some l) :
    l._in_errors.len = n ∧ l._in_errors.len = l._number_of_neuron ∧
    l._in_errors = some (List.replicate n 0) := by
  obtain ⟨hn, hm, hin⟩ := new_layer_some_inv _ _ _ _ _ _ _ _ _ h
  obtain ⟨l', hl', hcount, -, -, herr, -⟩ :=
    new_layer_some sigmoid sigmoid_derivative quadratic_derivative rand n m input oe hn hm hin
  have hll : l' = l := Option.some.inj (hl'.symm.trans h)
  subst hll
  have hlen : l'._in_errors.len = n := by
    rw [herr]
    simp [BrainSignal.len]
  exact ⟨hlen, by rw [hlen, hcount], herr⟩

/-- Witness of the amended C19 on `sample_new_layer`. -/
theorem new_layer_in_errors_size_witness :
    ∃ l, sample_new_layer = some l ∧
      l._in_errors.len = 2 ∧ l._in_errors.len = l._number_of_neuron ∧
      l._in_errors = some (List.replicate 2 0) := by
  obtain ⟨l, hl, -⟩ := new_layer_some (some (fun x => x)) (some (fun _ => 1))
    (some sample_cost_derivative) sample_rand 2 3 (some [1, -2, 5]) none
    (by decide) (by decide) rfl
  exact ⟨l, hl, new_layer_in_errors_size _ _ _ _ _ _ _ _ _ hl⟩

/-! ## Claims on the configuration of a neuron -/

/-- The loop of `new_neuron` that draws the weights keeps the training
parameters. -/
theorem new_neuron_loop_parameters (f : Nat → BrainReal) (s : Neuron) (k : Nat) :
    (for_loop (fun (s : Neuron) (index : Nat) => { s with _w := s._w.wr index (f index) })
      k s)._backprop_learning_rate = s._backprop_learning_rate ∧
    (for_loop (fun (s : Neuron) (index : Nat) => { s with _w := s._w.wr index (f index) })
      k s)._backprop_momemtum = s._backprop_momemtum ∧
    (for_loop (fun (s : Neuron) (index : Nat) => { s with _w := s._w.wr index (f index) })
      k s)._rprop_eta_plus = s._rprop_eta_plus ∧
    (for_loop (fun (s : Neuron) (index : Nat) => { s with _w := s._w.wr index (f index) })
      k s)._rprop_eta_minus = s._rprop_eta_minus ∧
    (for_loop (fun (s : Neuron) (index : Nat) => { s with _w := s._w.wr index (f index) })
      k s)._rprop_delta_max = s._rprop_delta_max ∧
    (for_loop (fun (s : Neuron) (index : Nat) => { s with _w := s._w.wr index (f index) })
      k s)._rprop_delta_min = s._rprop_delta_min := by
  induction k with
  | zero => simp [for_loop]
  | succ k ih =>
    obtain ⟨h1, h2, h3, h4, h5, h6⟩ := ih
    simp [for_loop, h1, h2, h3, h4, h5, h6]

/-- The training parameters `new_neuron` gives to a neuron. -/
theorem new_neuron_parameters (sigmoid sigmoid_derivative : ActivationPtrFunc)
    (rand : Nat → BrainReal → BrainReal → BrainReal) (input : BrainSignal) (n : Nat)
    (slot : BrainReal) (errors : BrainSignal) :
    ∃ nr, new_neuron sigmoid sigmoid_derivative rand input (n + 1) (some slot) errors = some nr ∧
      nr._backprop_learning_rate = 112 / 100 ∧ nr._backprop_momemtum = 0 ∧
      nr._rprop_eta_plus = 12 / 10 ∧ nr._rprop_eta_minus = 95 / 100 ∧
      nr._rprop_delta_max = 50 ∧ nr._rprop_delta_min = 1 / 1000000 := by
  unfold new_neuron
  simp only [ne_eq, Nat.succ_ne_zero, not_false_eq_true, if_true]
  refine ⟨_, rfl, ?_, ?_, ?_, ?_, ?_, ?_⟩
  · rw [(new_neuron_loop_parameters _ _ _).1]
  · rw [(new_neuron_loop_parameters _ _ _).2.1]
  · rw [(new_neuron_loop_parameters _ _ _).2.2.1]
  · rw [(new_neuron_loop_parameters _ _ _).2.2.2.1]
  · rw [(new_neuron_loop_parameters _ _ _).2.2.2.2.1]
  · rw [(new_neuron_loop_parameters _ _ _).2.2.2.2.2]

/-- Configuring from a tree without a `training` node changes the two
activation pointers only. -/
theorem configure_neuron_with_context_bare (registry : ActivationRegistry) (nr : Neuron) :
    configure_neuron_with_context registry (some nr) sample_context_bare =
      some { nr with
        _activation_function := registry.activation_of none
        _derivative_function := registry.derivative_of none } := by
  simp [configure_neuron_with_context, sample_context_bare, get_node_with_name_and_index,
    XmlNode.children, node_get_prop, XmlNode.props]

/-- Configuring from a tree with a `backprop` node that gives no attribute
sets the learning rate to `1.2`, the momentum to `0` and leaves the
parameters of the resilient rule alone. -/
theorem configure_neuron_with_context_backprop (registry : ActivationRegistry) (nr : Neuron) :
    configure_neuron_with_context registry (some nr) sample_context_backprop =
      some { nr with
        _learning_function := some LearningFunc.update_neuron_using_backpropagation
        _backprop_learning_rate := 12 / 10
        _backprop_momemtum := 0
        _activation_function := registry.activation_of none
        _derivative_function := registry.derivative_of none } := by
  simp [configure_neuron_with_context, sample_context_backprop, get_node_with_name_and_index,
    XmlNode.children, XmlNode.name, node_get_prop, XmlNode.props, node_get_double,
    XmlNode.numbers, get_learning_function]

/-- C20 does not hold on the code.  A neuron built by `new_neuron` and
configured from a tree without a `training` node, which supplies none of
the six parameters, ends with the learning rate `1.12` and eta-plus `1.2`
of `new_neuron`, not with `1.2` and `1.25`; the other four parameters have
the documented values.  Configured from a tree whose `backprop` node gives
no attribute, the same neuron ends with the learning rate `1.2`, and still
with eta-plus `1.2`. -/
theorem configure_neuron_with_context_new_neuron_defaults
    (sigmoid sigmoid_derivative : ActivationPtrFunc)
    (rand : Nat → BrainReal → BrainReal → BrainReal) (registry : ActivationRegistry)
    (input : BrainSignal) (n : Nat) (slot : BrainReal) (errors : BrainSignal) :
    ∃ nr a b,
      new_neuron sigmoid sigmoid_derivative rand input (n + 1) (some slot) errors = some nr ∧
      configure_neuron_with_context registry (some nr) sample_context_bare = some a ∧
      a._backprop_learning_rate = 112 / 100 ∧ a._backprop_learning_rate ≠ 12 / 10 ∧
      a._rprop_eta_plus = 12 / 10 ∧ a._rprop_eta_plus ≠ 125 / 100 ∧
      a._backprop_momemtum = 0 ∧ a._rprop_eta_minus = 95 / 100 ∧
      a._rprop_delta_max = 50 ∧ a._rprop_delta_min = 1 / 1000000 ∧
      configure_neuron_with_context registry (some nr) sample_context_backprop = some b ∧
      b._backprop_learning_rate = 12 / 10 ∧ b._rprop_eta_plus = 12 / 10 := by
  obtain ⟨nr, hnr, h1, h2, h3, h4, h5, h6⟩ :=
    new_neuron_parameters sigmoid sigmoid_derivative rand input n slot errors
  refine ⟨nr, _, _, hnr, configure_neuron_with_context_bare registry nr, ?_, ?_, ?_, ?_, ?_, ?_,
    ?_, ?_, configure_neuron_with_context_backprop registry nr, ?_, ?_⟩
  · exact h1
  · show nr._backprop_learning_rate ≠ 12 / 10
    rw [h1]
    norm_num
  · exact h3
  · show nr._rprop_eta_plus ≠ 125 / 100
    rw [h3]
    norm_num
  · exact h2
  · exact h4
  · exact h5
  · exact h6
  · rfl
  · exact h3

/-! ## The learning call of a neuron -/

/-- The loop of the momentum rule writes the weights and the upstream
errors and nothing else. -/
theorem backpropagation_loop_eq (lr m g : BrainReal) (s : Neuron) (k : Nat) :
    ∃ w e, for_loop (backpropagation_body lr m g) k s = { s with _w := w, _errors := e } := by
  induction k with
  | zero => exact ⟨s._w, s._errors, rfl⟩
  | succ k ih =>
    obtain ⟨w, e, h⟩ := ih
    simp only [for_loop, h, backpropagation_body_eq]
    exact ⟨_, _, rfl⟩

/-- The loop of the resilient rule writes the weights, the steps, the
stored gradients and the upstream errors and nothing else. -/
theorem resilient_loop_eq (ep em dmin dmax g : BrainReal) (s : Neuron) (k : Nat) :
    ∃ w d gr e, for_loop (resilient_body ep em dmin dmax g) k s =
      { s with _w := w, _deltas := d, _gradients := gr, _errors := e } := by
  induction k with
  | zero => exact ⟨s._w, s._deltas, s._gradients, s._errors, rfl⟩
  | succ k ih =>
    obtain ⟨w, d, gr, e, h⟩ := ih
    simp only [for_loop, h, resilient_body_eq]
    exact ⟨_, _, _, _, rfl⟩

/-- The loop of the momentum rule, started after the bias was updated. -/
theorem backpropagation_loop_after_bias (lr m g : BrainReal) (nr s : Neuron) (k : Nat)
    (hs : ∃ b, s = { nr with _bias := b }) :
    ∃ b w e, some (for_loop (backpropagation_body lr m g) k s) =
      some { nr with _bias := b, _w := w, _errors := e } := by
  obtain ⟨b, hs⟩ := hs
  obtain ⟨w, e, h⟩ := backpropagation_loop_eq lr m g s k
  rw [h, hs]
  exact ⟨_, _, _, rfl⟩

/-- Function `update_neuron_using_backpropagation` writes the bias, the
weights and the upstream errors and nothing else. -/
theorem update_neuron_using_backpropagation_frame (nr : Neuron) (loss : BrainReal) :
    ∃ b w e, update_neuron_using_backpropagation (some nr) loss =
      some { nr with _bias := b, _w := w, _errors := e } := by
  simp only [update_neuron_using_backpropagation]
  split
  · exact ⟨_, _, _, rfl⟩
  · exact backpropagation_loop_after_bias _ _ _ nr _ _ ⟨_, rfl⟩

/-- The loop of the resilient rule, started after the bias was updated. -/
theorem resilient_loop_after_bias (ep em dmin dmax g : BrainReal) (nr s : Neuron) (k : Nat)
    (hs : ∃ b bd bg, s = { nr with _bias := b, _bias_delta := bd, _bias_gradient := bg }) :
    ∃ b bd bg w d gr e, some (for_loop (resilient_body ep em dmin dmax g) k s) =
      some { nr with
        _bias := b, _bias_delta := bd, _bias_gradient := bg
        _w := w, _deltas := d, _gradients := gr, _errors := e } := by
  obtain ⟨b, bd, bg, hs⟩ := hs
  obtain ⟨w, d, gr, e, h⟩ := resilient_loop_eq ep em dmin dmax g s k
  rw [h, hs]
  exact ⟨_, _, _, _, _, _, _, rfl⟩

/-- Function `update_neuron_using_resilient` writes the bias, the weights,
the state of the rule and the upstream errors and nothing else. -/
theorem update_neuron_using_resilient_frame (nr : Neuron) (loss : BrainReal) :
    ∃ b bd bg w d gr e, update_neuron_using_resilient (some nr) loss =
      some { nr with
        _bias := b, _bias_delta := bd, _bias_gradient := bg
        _w := w, _deltas := d, _gradients := gr, _errors := e } := by
  simp only [update_neuron_using_resilient]
  split
  · exact ⟨_, _, _, _, _, _, _, rfl⟩
  · exact resilient_loop_after_bias _ _ _ _ _ nr _ _ ⟨_, _, _, rfl⟩

/-- Function `neuron_learning` writes the bias, the weights, the state of
the resilient rule and the upstream errors of a neuron and nothing else. -/
theorem neuron_learning_frame (nr : Neuron) (loss : BrainReal) :
    ∃ b bd bg w d gr e, neuron_learning (some nr) loss =
      some { nr with
        _bias := b, _bias_delta := bd, _bias_gradient := bg
        _w := w, _deltas := d, _gradients := gr, _errors := e } := by
  simp only [neuron_learning]
  split
  · exact ⟨_, _, _, _, _, _, _, rfl⟩
  · rename_i f hf
    cases f with
    | update_neuron_using_backpropagation =>
      obtain ⟨b, w, e, h⟩ := update_neuron_using_backpropagation_frame nr loss
      simp only [call_learning_function, h]
      exact ⟨_, _, _, _, _, _, _, rfl⟩
    | update_neuron_using_resilient =>
      simp only [call_learning_function]
      exact update_neuron_using_resilient_frame nr loss

/-! ## The backward pass of a layer -/

/-- Writing back what a slot holds changes nothing. -/
theorem BrainSignal.wr_rd_self (s : BrainSignal) (i : Nat) : s.wr i (s.rd i) = s := by
  apply BrainSignal.ext_rd
  · rw [BrainSignal.isSome_wr]
  · rw [BrainSignal.len_wr]
  · intro j
    rw [BrainSignal.rd_wr]
    split_ifs with h
    · rw [h.1]
    · rfl

/-- One learning call of a layer on its neuron `i`: the neuron is replaced
by the state `neuron_learning` returns, the upstream errors are those the
neuron leaves, and the rest of the layer is kept. -/
theorem learning_step_spec (s : Layer) (i : Nat) (loss : BrainReal) :
    (s.detach i (neuron_learning (s.attach i) loss))._in = s._in ∧
    (s.detach i (neuron_learning (s.attach i) loss))._out = s._out ∧
    (s.detach i (neuron_learning (s.attach i) loss))._in_errors = s._in_errors ∧
    (s.detach i (neuron_learning (s.attach i) loss))._number_of_neuron = s._number_of_neuron ∧
    (s.detach i (neuron_learning (s.attach i) loss))._cost_function_derivative =
      s._cost_function_derivative ∧
    (s.detach i (neuron_learning (s.attach i) loss))._neurons.length = s._neurons.length ∧
    (∀ j, (s.detach i (neuron_learning (s.attach i) loss))._neurons.getD j none =
      if j = i then neuron_learning (s.attach i) loss else s._neurons.getD j none) ∧
    (s.detach i (neuron_learning (s.attach i) loss))._out_errors =
      (match neuron_learning (s.attach i) loss with
        | some r => r._errors
        | none => s._out_errors) := by
  cases hn : s._neurons.getD i none with
  | none =>
    have ha : s.attach i = none := by simp only [Layer.attach, hn]
    rw [ha]
    refine ⟨rfl, rfl, rfl, rfl, rfl, rfl, ?_, rfl⟩
    intro j
    show s._neurons.getD j none = _
    by_cases hji : j = i
    · subst hji
      rw [if_pos rfl, hn]
      rfl
    · rw [if_neg hji]
  | some nr =>
    have hlt : i < s._neurons.length := lt_length_of_getD_some _ _ _ hn
    have ha : s.attach i =
        some { nr with _in := s._in, _out := s._out.rd i, _errors := s._out_errors } := by
      simp only [Layer.attach, hn]
    obtain ⟨b, bd, bg, w, d, gr, e, hl⟩ := neuron_learning_frame
      { nr with _in := s._in, _out := s._out.rd i, _errors := s._out_errors } loss
    rw [ha, hl]
    refine ⟨rfl, ?_, rfl, rfl, rfl, ?_, ?_, rfl⟩
    · exact BrainSignal.wr_rd_self _ _
    · exact List.length_set _ _ _
    · intro j
      simp only [Layer.detach, getD_set_neuron, hlt, and_true]

/-- Inside the layer the loop body of `backpropagate_hidden_layer` is one
learning call with the loss `_in_errors[i]`. -/
theorem backpropagate_hidden_layer_body_eq (s : Layer) (i : Nat) :
    backpropagate_hidden_layer_body s i =
      s.detach i (neuron_learning (s.attach i) (s._in_errors.rd i)) := by
  simp only [backpropagate_hidden_layer_body]
  split
  · rename_i h
    rw [h]
    rfl
  · rfl

/-- Inside the layer the loop body of `backpropagate_output_layer` is one
learning call with the loss `cost_derivative(output[i], desired[i])`. -/
theorem backpropagate_output_layer_body_eq (cd : BrainReal → BrainReal → BrainReal)
    (desired : BrainSignal) (s : Layer) (i : Nat) (hi : i < s._number_of_neuron) :
    backpropagate_output_layer_body cd desired s i =
      s.detach i (neuron_learning (s.attach i) (cd (s._out.rd i) (desired.rd i))) := by
  simp only [backpropagate_output_layer_body, get_layer_neuron, get_layer_output, hi, if_true]
  split
  · rename_i h
    rw [h]
    rfl
  · rfl

/-- A loop of learning calls over the neurons of a layer.  After `k` rounds
neuron `j < k` is the state its learning call returned, the call being made
on the layer as the first `j` rounds left it, and the neurons from `k` on,
the input, the output and the error accumulator are as they were. -/
theorem learning_loop (body : Layer → Nat → Layer) (lossfn : Layer → Nat → BrainReal)
    (hbody : ∀ s i, i < s._number_of_neuron →
      body s i = s.detach i (neuron_learning (s.attach i) (lossfn s i)))
    (l : Layer) (k : Nat) (hk : k ≤ l._number_of_neuron) :
    (for_loop body k l)._in = l._in ∧
    (for_loop body k l)._out = l._out ∧
    (for_loop body k l)._in_errors = l._in_errors ∧
    (for_loop body k l)._number_of_neuron = l._number_of_neuron ∧
    (for_loop body k l)._cost_function_derivative = l._cost_function_derivative ∧
    (for_loop body k l)._neurons.length = l._neurons.length ∧
    ∀ j, (for_loop body k l)._neurons.getD j none =
      if j < k then
        neuron_learning ((for_loop body j l).attach j) (lossfn (for_loop body j l) j)
      else l._neurons.getD j none := by
  induction k with
  | zero => simp [for_loop]
  | succ k ih =>
    obtain ⟨h1, h2, h3, h4, h5, h6, hN⟩ := ih (Nat.le_of_succ_le hk)
    have hlt : k < (for_loop body k l)._number_of_neuron := by
      rw [h4]
      exact hk
    obtain ⟨b1, b2, b3, b4, b5, b6, bN, -⟩ :=
      learning_step_spec (for_loop body k l) k (lossfn (for_loop body k l) k)
    simp only [for_loop]
    rw [hbody _ _ hlt]
    refine ⟨b1.trans h1, b2.trans h2, b3.trans h3, b4.trans h4, b5.trans h5, b6.trans h6, ?_⟩
    intro j
    rw [bN j, hN j]
    by_cases hjk : j = k
    · subst hjk
      simp
    · have hlt2 : j < k + 1 ↔ j < k := by omega
      simp [hjk, hlt2]

/-- C15: `backpropagate_hidden_layer` leaves the error accumulator
`_in_errors` of the layer as it was, and for every `i < number_of_neuron`
neuron `i` is, after the pass, the state one `neuron_learning` call returns
for it with the loss `_in_errors[i]`: the call is made on the layer as the
rounds `0 .. i-1` left it, in which neuron `i` is still the neuron the pass
started with and `_in_errors[i]` still holds its value. -/
theorem backpropagate_hidden_layer_calls (l : Layer) :
    ∃ l', backpropagate_hidden_layer (some l) = some l' ∧
      l'._in_errors = l._in_errors ∧
      ∀ i, i < l._number_of_neuron →
        (for_loop backpropagate_hidden_layer_body i l)._neurons.getD i none =
          l._neurons.getD i none ∧
        (for_loop backpropagate_hidden_layer_body i l)._in_errors.rd i = l._in_errors.rd i ∧
        l'._neurons.getD i none =
          neuron_learning ((for_loop backpropagate_hidden_layer_body i l).attach i)
            (l._in_errors.rd i) := by
  have hbody : ∀ s i, i < s._number_of_neuron → backpropagate_hidden_layer_body s i =
      s.detach i (neuron_learning (s.attach i) ((fun (t : Layer) (j : Nat) => t._in_errors.rd j)
        s i)) := fun s i _ => backpropagate_hidden_layer_body_eq s i
  refine ⟨_, rfl, ?_, ?_⟩
  · exact (learning_loop _ _ hbody l l._number_of_neuron (Nat.le_refl _)).2.2.1
  · intro i hi
    obtain ⟨-, -, h3, -, -, -, hN⟩ := learning_loop _ _ hbody l i (Nat.le_of_lt hi)
    obtain ⟨-, -, -, -, -, -, hF⟩ := learning_loop _ _ hbody l l._number_of_neuron (Nat.le_refl _)
    refine ⟨?_, ?_, ?_⟩
    · rw [hN i, if_neg (Nat.lt_irrefl i)]
    · rw [h3]
    · rw [hF i, if_pos hi, h3]

/-- The learning call of a neuron that uses the momentum rule and has a
derivative function: the gradient is `loss * derivative(sum)`. -/
theorem neuron_learning_backpropagation (nr : Neuron) (loss : BrainReal)
    (d : BrainReal → BrainReal)
    (hf : nr._learning_function = some LearningFunc.update_neuron_using_backpropagation)
    (hd : nr._derivative_function = some d) :
    ∃ r, neuron_learning (some nr) loss = some r ∧
      r._bias = nr._bias -
        (nr._backprop_learning_rate * (loss * d nr._sum) - nr._backprop_momemtum * nr._bias) ∧
      (∀ j, r._w.rd j =
        if j < nr._number_of_input ∧ j < nr._w.len then
          nr._w.rd j - (nr._backprop_learning_rate * (loss * d nr._sum) * nr._in.rd j -
            nr._backprop_momemtum * nr._w.rd j)
        else nr._w.rd j) ∧
      (∀ j, r._errors.rd j =
        if j < nr._number_of_input ∧ j < nr._errors.len then
          nr._errors.rd j + loss * d nr._sum * nr._w.rd j
        else nr._errors.rd j) ∧
      r._errors.len = nr._errors.len ∧
      r._errors.isSome = nr._errors.isSome := by
  simp only [neuron_learning, hf, call_learning_function, update_neuron_using_backpropagation,
    hd]
  refine ⟨_, rfl, ?_, ?_, ?_, ?_, ?_⟩
  · exact (backpropagation_loop_frame _ _ _ _ _).2.1
  · intro j
    exact backpropagation_loop_w _ _ _ _ _ j
  · intro j
    exact backpropagation_loop_errors _ _ _ _ _ j
  · exact (backpropagation_loop_frame _ _ _ _ _).2.2.2.1
  · exact (backpropagation_loop_frame _ _ _ _ _).2.2.2.2

/-- Function `backpropagate_output_layer` on a layer with a cost function,
given as many desired values as the layer has neurons. -/
theorem backpropagate_output_layer_eq (l : Layer) (cd : BrainReal → BrainReal → BrainReal)
    (desired : BrainSignal) (hcd : l._cost_function_derivative = some cd)
    (hdes : desired.isSome = true) :
    backpropagate_output_layer (some l) l._number_of_neuron desired =
      some (for_loop (backpropagate_output_layer_body cd desired) l._number_of_neuron l) := by
  simp only [backpropagate_output_layer, hdes, if_true, hcd]

/-- C13 as the code has it: in `backpropagate_output_layer` with
`number_of_output` equal to the neuron count, the loss handed to the
learning call of neuron `i` is `cost_derivative(output[i], desired[i])`,
not yet multiplied by the derivative of the activation; the update
multiplies it by the derivative at the stored sum, so that a neuron that
uses the momentum rule gets the bias
`bias - (learning_rate * (cost_derivative(output[i], desired[i]) * derivative(sum)) - momentum * bias)`. -/
theorem backpropagate_output_layer_loss (l : Layer) (cd : BrainReal → BrainReal → BrainReal)
    (desired : BrainSignal) (hcd : l._cost_function_derivative = some cd)
    (hdes : desired.isSome = true) :
    ∃ l', backpropagate_output_layer (some l) l._number_of_neuron desired = some l' ∧
      ∀ i, i < l._number_of_neuron →
        (for_loop (backpropagate_output_layer_body cd desired) i l)._neurons.getD i none =
          l._neurons.getD i none ∧
        l'._neurons.getD i none =
          neuron_learning
            ((for_loop (backpropagate_output_layer_body cd desired) i l).attach i)
            (cd (l._out.rd i) (desired.rd i)) ∧
        ∀ nr d, l._neurons.getD i none = some nr →
          nr._learning_function = some LearningFunc.update_neuron_using_backpropagation →
          nr._derivative_function = some d →
          ∃ r, l'._neurons.getD i none = some r ∧
            r._bias = nr._bias -
              (nr._backprop_learning_rate * (cd (l._out.rd i) (desired.rd i) * d nr._sum) -
                nr._backprop_momemtum * nr._bias) := by
  have hbody : ∀ s i, i < s._number_of_neuron → backpropagate_output_layer_body cd desired s i =
      s.detach i (neuron_learning (s.attach i)
        ((fun (t : Layer) (j : Nat) => cd (t._out.rd j) (desired.rd j)) s i)) :=
    fun s i hi => backpropagate_output_layer_body_eq cd desired s i hi
  refine ⟨_, backpropagate_output_layer_eq l cd desired hcd hdes, ?_⟩
  intro i hi
  obtain ⟨h1, h2, -, -, -, -, hN⟩ := learning_loop _ _ hbody l i (Nat.le_of_lt hi)
  obtain ⟨-, -, -, -, -, -, hF⟩ := learning_loop _ _ hbody l l._number_of_neuron (Nat.le_refl _)
  have hNi := hN i
  rw [if_neg (Nat.lt_irrefl i)] at hNi
  have hFi := hF i
  rw [if_pos hi, h2] at hFi
  refine ⟨hNi, hFi, ?_⟩
  intro nr d hnr hf hd
  have hatt : (for_loop (backpropagate_output_layer_body cd desired) i l).attach i =
      some { nr with
        _in := l._in, _out := l._out.rd i
        _errors := (for_loop (backpropagate_output_layer_body cd desired) i l)._out_errors } := by
    simp only [Layer.attach, hNi, hnr, h1, h2]
  obtain ⟨r, hr, hb, -⟩ := neuron_learning_backpropagation
    { nr with
      _in := l._in, _out := l._out.rd i
      _errors := (for_loop (backpropagate_output_layer_body cd desired) i l)._out_errors }
    (cd (l._out.rd i) (desired.rd i)) d hf hd
  exact ⟨r, by rw [hFi, hatt, hr], hb⟩

/-- Witness of the amended C13 on `sample_output_layer` with the desired
value `1`. -/
theorem backpropagate_output_layer_loss_witness :
    sample_output_layer._cost_function_derivative = some sample_cost_derivative ∧
    Option.isSome (some [(1 : BrainReal)]) = true ∧
    ∃ l', backpropagate_output_layer (some sample_output_layer)
        sample_output_layer._number_of_neuron (some [1]) = some l' ∧
      ∀ i, i < sample_output_layer._number_of_neuron →
        (for_loop (backpropagate_output_layer_body sample_cost_derivative (some [1])) i
          sample_output_layer)._neurons.getD i none =
          sample_output_layer._neurons.getD i none ∧
        l'._neurons.getD i none =
          neuron_learning
            ((for_loop (backpropagate_output_layer_body sample_cost_derivative (some [1])) i
              sample_output_layer).attach i)
            (sample_cost_derivative (sample_output_layer._out.rd i)
              (BrainSignal.rd (some [1]) i)) ∧
        ∀ nr d, sample_output_layer._neurons.getD i none = some nr →
          nr._learning_function = some LearningFunc.update_neuron_using_backpropagation →
          nr._derivative_function = some d →
          ∃ r, l'._neurons.getD i none = some r ∧
            r._bias = nr._bias -
              (nr._backprop_learning_rate *
                  (sample_cost_derivative (sample_output_layer._out.rd i)
                    (BrainSignal.rd (some [1]) i) * d nr._sum) -
                nr._backprop_momemtum * nr._bias) :=
  ⟨rfl, rfl,
    backpropagate_output_layer_loss sample_output_layer sample_cost_derivative (some [1]) rfl rfl⟩

/-- C13 does not hold as stated.  On `sample_output_layer` with the desired
value `1` the cost derivative is `-9 - 1 = -10` and the derivative of the
activation at the stored sum is `2`.  The code hands the loss `-10` to the
learning call, which gives the bias `1 + 1.12 * 20 = 117/5`; a learning
call with the loss `-10 * 2` gives the bias `229/5`. -/
theorem backpropagate_output_layer_loss_not_scaled :
    ∃ l' r r2,
      backpropagate_output_layer (some sample_output_layer) 1 (some [1]) = some l' ∧
      l'._neurons.getD 0 none = some r ∧ r._bias = 117 / 5 ∧
      neuron_learning (sample_output_layer.attach 0)
        (sample_cost_derivative (sample_output_layer._out.rd 0) 1 * 2) = some r2 ∧
      r2._bias = 229 / 5 ∧
      l'._neurons.getD 0 none ≠
        neuron_learning (sample_output_layer.attach 0)
          (sample_cost_derivative (sample_output_layer._out.rd 0) 1 * 2) := by
  have h1 : ∃ l' r, backpropagate_output_layer (some sample_output_layer) 1 (some [1]) = some l' ∧
      l'._neurons.getD 0 none = some r ∧ r._bias = 117 / 5 := by
    refine ⟨_, _, rfl, rfl, ?_⟩
    simp [sample_output_layer, sample_output_neuron, sample_neuron, sample_cost_derivative,
      for_loop, backpropagate_output_layer_body, get_layer_neuron, get_layer_output,
      Layer.attach, Layer.detach, neuron_learning, call_learning_function,
      update_neuron_using_backpropagation, backpropagation_body, BrainSignal.rd, BrainSignal.wr]
    norm_num
  have h2 : ∃ r2, neuron_learning (sample_output_layer.attach 0)
      (sample_cost_derivative (sample_output_layer._out.rd 0) 1 * 2) = some r2 ∧
      r2._bias = 229 / 5 := by
    refine ⟨_, rfl, ?_⟩
    simp [sample_output_layer, sample_output_neuron, sample_neuron, sample_cost_derivative,
      for_loop, Layer.attach, neuron_learning, call_learning_function,
      update_neuron_using_backpropagation, backpropagation_body, BrainSignal.rd, BrainSignal.wr]
    norm_num
  obtain ⟨l', r, hl, hr, hb⟩ := h1
  obtain ⟨r2, hr2, hb2⟩ := h2
  refine ⟨l', r, r2, hl, hr, hb, hr2, hb2, ?_⟩
  rw [hr, hr2]
  intro e
  have e2 : r = r2 := Option.some.inj e
  rw [e2, hb2] at hb
  norm_num at hb

/-- The upstream errors after `k` rounds of the loop of
`backpropagate_output_layer`, when the neurons use the momentum rule: every
neuron `i < k` has added `cost_derivative(output[i], desired[i]) *
derivative(sum_i) * w_i[j]` to slot `j`, with the weights it had before the
pass. -/
theorem backpropagate_output_layer_errors_loop (l : Layer)
    (cd : BrainReal → BrainReal → BrainReal) (desired : BrainSignal)
    (nr : Nat → Neuron) (d : Nat → BrainReal → BrainReal)
    (hneur : ∀ i, i < l._number_of_neuron →
      l._neurons.getD i none = some (nr i) ∧
      (nr i)._learning_function = some LearningFunc.update_neuron_using_backpropagation ∧
      (nr i)._derivative_function = some (d i))
    (k : Nat) (hk : k ≤ l._number_of_neuron) :
    (for_loop (backpropagate_output_layer_body cd desired) k l)._out_errors.len =
      l._out_errors.len ∧
    ∀ j, (for_loop (backpropagate_output_layer_body cd desired) k l)._out_errors.rd j =
      l._out_errors.rd j + ∑ i in Finset.range k,
        (if j < (nr i)._number_of_input ∧ j < l._out_errors.len then
          cd (l._out.rd i) (desired.rd i) * d i (nr i)._sum * (nr i)._w.rd j
        else 0) := by
  have hbody : ∀ s i, i < s._number_of_neuron → backpropagate_output_layer_body cd desired s i =
      s.detach i (neuron_learning (s.attach i)
        ((fun (t : Layer) (j : Nat) => cd (t._out.rd j) (desired.rd j)) s i)) :=
    fun s i hi => backpropagate_output_layer_body_eq cd desired s i hi
  induction k with
  | zero => simp [for_loop]
  | succ k ih =>
    obtain ⟨hlen, hE⟩ := ih (Nat.le_of_succ_le hk)
    have hk2 : k < l._number_of_neuron := hk
    obtain ⟨h1, h2, -, h4, -, -, hN⟩ := learning_loop _ _ hbody l k (Nat.le_of_succ_le hk)
    have hNk := hN k
    rw [if_neg (Nat.lt_irrefl k)] at hNk
    obtain ⟨hnr, hf, hd⟩ := hneur k hk2
    have hatt : (for_loop (backpropagate_output_layer_body cd desired) k l).attach k =
        some { nr k with
          _in := l._in, _out := l._out.rd k
          _errors := (for_loop (backpropagate_output_layer_body cd desired) k l)._out_errors } := by
      simp only [Layer.attach, hNk, hnr, h1, h2]
    obtain ⟨r, hr, -, -, he, helen, -⟩ := neuron_learning_backpropagation
      { nr k with
        _in := l._in, _out := l._out.rd k
        _errors := (for_loop (backpropagate_output_layer_body cd desired) k l)._out_errors }
      (cd (l._out.rd k) (desired.rd k)) (d k) hf hd
    have hstep := (learning_step_spec (for_loop (backpropagate_output_layer_body cd desired) k l)
      k (cd (l._out.rd k) (desired.rd k))).2.2.2.2.2.2.2
    rw [hatt, hr] at hstep
    have hlt : k < (for_loop (backpropagate_output_layer_body cd desired) k l)._number_of_neuron := by
      rw [h4]
      exact hk2
    have hnext : for_loop (backpropagate_output_layer_body cd desired) (k + 1) l =
        (for_loop (backpropagate_output_layer_body cd desired) k l).detach k
          (neuron_learning (some { nr k with
            _in := l._in, _out := l._out.rd k
            _errors := (for_loop (backpropagate_output_layer_body cd desired) k l)._out_errors })
            (cd (l._out.rd k) (desired.rd k))) := by
      show backpropagate_output_layer_body cd desired
        (for_loop (backpropagate_output_layer_body cd desired) k l) k = _
      rw [hbody _ _ hlt, hatt]
      simp only [h2]
    have herr : (for_loop (backpropagate_output_layer_body cd desired) (k + 1) l)._out_errors =
        r._errors := by
      rw [hnext, hr]
      exact hstep
    rw [herr]
    refine ⟨helen.trans hlen, ?_⟩
    intro j
    rw [he j, Finset.sum_range_succ]
    simp only [hE j, hlen]
    split_ifs <;> ring

/-- C14: on an output layer whose neurons all use the momentum rule, have a
derivative function and `m` inputs, and for a desired vector of as many
entries as the layer has neurons, `backpropagate_output_layer` updates every
neuron `i` once with the gradient
`delta_i = derivative(sum_i) * cost_derivative(output[i], desired[i])`
(its bias and weights follow the momentum rule with that gradient), and
afterwards every upstream error slot `j < m` holds its previous value plus
the sum over the neurons `i` of `delta_i * w_i_old[j]`, the weights being
those before the update; the other slots keep their value. -/
theorem backpropagate_output_layer_momentum (l : Layer)
    (cd : BrainReal → BrainReal → BrainReal) (desired : BrainSignal)
    (nr : Nat → Neuron) (d : Nat → BrainReal → BrainReal) (m : Nat)
    (hcd : l._cost_function_derivative = some cd)
    (hdes : desired.isSome = true)
    (_hlen : desired.len = l._number_of_neuron)
    (hneur : ∀ i, i < l._number_of_neuron →
      l._neurons.getD i none = some (nr i) ∧
      (nr i)._learning_function = some LearningFunc.update_neuron_using_backpropagation ∧
      (nr i)._derivative_function = some (d i) ∧
      (nr i)._number_of_input = m ∧ m ≤ (nr i)._w.len)
    (herr : m ≤ l._out_errors.len) :
    ∃ l', backpropagate_output_layer (some l) l._number_of_neuron desired = some l' ∧
      (∀ j, j < m → l'._out_errors.rd j =
        l._out_errors.rd j + ∑ i in Finset.range l._number_of_neuron,
          d i (nr i)._sum * cd (l._out.rd i) (desired.rd i) * (nr i)._w.rd j) ∧
      (∀ j, m ≤ j → l'._out_errors.rd j = l._out_errors.rd j) ∧
      ∀ i, i < l._number_of_neuron → ∃ r, l'._neurons.getD i none = some r ∧
        r._bias = (nr i)._bias -
          ((nr i)._backprop_learning_rate *
              (d i (nr i)._sum * cd (l._out.rd i) (desired.rd i)) -
            (nr i)._backprop_momemtum * (nr i)._bias) ∧
        ∀ j, j < m → r._w.rd j = (nr i)._w.rd j -
          ((nr i)._backprop_learning_rate *
              (d i (nr i)._sum * cd (l._out.rd i) (desired.rd i)) * l._in.rd j -
            (nr i)._backprop_momemtum * (nr i)._w.rd j) := by
  have hbody : ∀ s i, i < s._number_of_neuron → backpropagate_output_layer_body cd desired s i =
      s.detach i (neuron_learning (s.attach i)
        ((fun (t : Layer) (j : Nat) => cd (t._out.rd j) (desired.rd j)) s i)) :=
    fun s i hi => backpropagate_output_layer_body_eq cd desired s i hi
  have hneur2 : ∀ i, i < l._number_of_neuron →
      l._neurons.getD i none = some (nr i) ∧
      (nr i)._learning_function = some LearningFunc.update_neuron_using_backpropagation ∧
      (nr i)._derivative_function = some (d i) :=
    fun i hi => ⟨(hneur i hi).1, (hneur i hi).2.1, (hneur i hi).2.2.1⟩
  obtain ⟨-, hE⟩ := backpropagate_output_layer_errors_loop l cd desired nr d hneur2
    l._number_of_neuron (Nat.le_refl _)
  refine ⟨_, backpropagate_output_layer_eq l cd desired hcd hdes, ?_, ?_, ?_⟩
  · intro j hj
    rw [hE j]
    congr 1
    apply Finset.sum_congr rfl
    intro i hi
    have hin : (nr i)._number_of_input = m := (hneur i (Finset.mem_range.mp hi)).2.2.2.1
    have hj2 : j < (nr i)._number_of_input ∧ j < l._out_errors.len :=
      ⟨by rw [hin]; exact hj, Nat.lt_of_lt_of_le hj herr⟩
    rw [if_pos hj2]
    ring
  · intro j hj
    rw [hE j]
    have hz : ∑ i in Finset.range l._number_of_neuron,
        (if j < (nr i)._number_of_input ∧ j < l._out_errors.len then
          cd (l._out.rd i) (desired.rd i) * d i (nr i)._sum * (nr i)._w.rd j
        else 0) = 0 := by
      apply Finset.sum_eq_zero
      intro i hi
      have hin : (nr i)._number_of_input = m := (hneur i (Finset.mem_range.mp hi)).2.2.2.1
      have hj2 : ¬ (j < (nr i)._number_of_input ∧ j < l._out_errors.len) := by
        rw [hin]
        intro h
        exact Nat.not_lt.mpr hj h.1
      rw [if_neg hj2]
    rw [hz, add_zero]
  · intro i hi
    obtain ⟨hnr, hf, hd, hin, hwl⟩ := hneur i hi
    obtain ⟨h1, h2, -, -, -, -, hN⟩ := learning_loop _ _ hbody l i (Nat.le_of_lt hi)
    obtain ⟨-, -, -, -, -, -, hF⟩ := learning_loop _ _ hbody l l._number_of_neuron (Nat.le_refl _)
    have hNi := hN i
    rw [if_neg (Nat.lt_irrefl i)] at hNi
    have hFi := hF i
    rw [if_pos hi, h2] at hFi
    have hatt : (for_loop (backpropagate_output_layer_body cd desired) i l).attach i =
        some { nr i with
          _in := l._in, _out := l._out.rd i
          _errors := (for_loop (backpropagate_output_layer_body cd desired) i l)._out_errors } := by
      simp only [Layer.attach, hNi, hnr, h1, h2]
    obtain ⟨r, hr, hb, hw, -⟩ := neuron_learning_backpropagation
      { nr i with
        _in := l._in, _out := l._out.rd i
        _errors := (for_loop (backpropagate_output_layer_body cd desired) i l)._out_errors }
      (cd (l._out.rd i) (desired.rd i)) (d i) hf hd
    refine ⟨r, by rw [hFi, hatt, hr], ?_, ?_⟩
    · rw [hb]
      show (nr i)._bias - ((nr i)._backprop_learning_rate *
        (cd (l._out.rd i) (desired.rd i) * d i (nr i)._sum) -
        (nr i)._backprop_momemtum * (nr i)._bias) = _
      ring
    · intro j hj
      rw [hw j]
      have hj2 : j < (nr i)._number_of_input ∧ j < (nr i)._w.len :=
        ⟨by rw [hin]; exact hj, Nat.lt_of_lt_of_le hj hwl⟩
      show (if j < (nr i)._number_of_input ∧ j < (nr i)._w.len then
        (nr i)._w.rd j - ((nr i)._backprop_learning_rate *
          (cd (l._out.rd i) (desired.rd i) * d i (nr i)._sum) * l._in.rd j -
          (nr i)._backprop_momemtum * (nr i)._w.rd j)
        else (nr i)._w.rd j) = _
      rw [if_pos hj2]
      ring

/-- Witness of C14 on `sample_output_layer` with the desired value `1`. -/
theorem backpropagate_output_layer_momentum_witness :
    ∃ l', backpropagate_output_layer (some sample_output_layer)
        sample_output_layer._number_of_neuron (some [1]) = some l' ∧
      (∀ j, j < 3 → l'._out_errors.rd j =
        sample_output_layer._out_errors.rd j +
          ∑ i in Finset.range sample_output_layer._number_of_neuron,
            2 * sample_cost_derivative (sample_output_layer._out.rd i)
                (BrainSignal.rd (some [1]) i) *
              sample_output_neuron._w.rd j) ∧
      (∀ j, 3 ≤ j → l'._out_errors.rd j = sample_output_layer._out_errors.rd j) ∧
      ∀ i, i < sample_output_layer._number_of_neuron →
        ∃ r, l'._neurons.getD i none = some r ∧
          r._bias = sample_output_neuron._bias -
            (sample_output_neuron._backprop_learning_rate *
                (2 * sample_cost_derivative (sample_output_layer._out.rd i)
                  (BrainSignal.rd (some [1]) i)) -
              sample_output_neuron._backprop_momemtum * sample_output_neuron._bias) ∧
          ∀ j, j < 3 → r._w.rd j = sample_output_neuron._w.rd j -
            (sample_output_neuron._backprop_learning_rate *
                (2 * sample_cost_derivative (sample_output_layer._out.rd i)
                  (BrainSignal.rd (some [1]) i)) *
                sample_output_layer._in.rd j -
              sample_output_neuron._backprop_momemtum * sample_output_neuron._w.rd j) :=
  backpropagate_output_layer_momentum sample_output_layer sample_cost_derivative (some [1])
    (fun _ => sample_output_neuron) (fun _ _ => 2) 3 rfl rfl rfl
    (fun i hi => by
      have h0 : i = 0 := Nat.lt_one_iff.mp hi
      subst h0
      exact ⟨rfl, rfl, rfl, rfl, by decide⟩)
    (by decide)

/-! ## Claims on a suppressed neuron -/

/-- The bias after `update_neuron_using_resilient`, in terms of the neuron
before the call. -/
theorem update_neuron_using_resilient_bias (nr : Neuron) (loss : BrainReal)
    (derivative : BrainReal → BrainReal)
    (hd : nr._derivative_function = some derivative) :
    ∃ nr', update_neuron_using_resilient (some nr) loss = some nr' ∧
      nr'._bias = nr._bias +
        (rprop_locals nr._rprop_eta_plus nr._rprop_eta_minus nr._rprop_delta_min
          nr._rprop_delta_max nr._bias_gradient nr._bias_delta
          (loss * derivative nr._sum)).2.1 := by
  unfold update_neuron_using_resilient
  simp only [hd]
  refine ⟨_, rfl, ?_⟩
  rw [(resilient_loop_frame _ _ _ _ _ _ _).2.1]
  rfl

/-- Function `neuron_learning` calls the learning function of the neuron. -/
theorem neuron_learning_eq_call (nr : Neuron) (f : LearningFunc) (loss : BrainReal)
    (hf : nr._learning_function = some f) :
    neuron_learning (some nr) loss = call_learning_function f (some nr) loss := by
  simp only [neuron_learning, hf]

/-- C11 does not hold as stated.  `sample_output_neuron` uses the momentum
rule: suppressed and then given the loss `1`, its bias goes from `1` to
`-31/25` and its first weight from `3` to `19/25`.  `sample_neuron` uses the
resilient rule: suppressed and then given the loss `1`, its bias goes from
`1` to `1/2`. -/
theorem neuron_learning_after_suppression_changes :
    (∃ s r, activate_neuron (some sample_output_neuron) false = some s ∧
      neuron_learning (some s) 1 = some r ∧
      sample_output_neuron._bias = 1 ∧ r._bias = -31 / 25 ∧
      sample_output_neuron._w.rd 0 = 3 ∧ r._w.rd 0 = 19 / 25) ∧
    (∃ s r, activate_neuron (some sample_neuron) false = some s ∧
      neuron_learning (some s) 1 = some r ∧
      sample_neuron._bias = 1 ∧ r._bias = 1 / 2) := by
  refine ⟨?_, ?_⟩
  · refine ⟨_, _, activate_neuron_false_eq sample_output_neuron, rfl, rfl, ?_, ?_, ?_⟩
    · simp [sample_output_neuron, sample_neuron, for_loop, neuron_learning,
        call_learning_function, update_neuron_using_backpropagation, backpropagation_body,
        BrainSignal.rd, BrainSignal.wr]
      norm_num
    · simp [sample_output_neuron, sample_neuron, BrainSignal.rd]
    · simp [sample_output_neuron, sample_neuron, for_loop, neuron_learning,
        call_learning_function, update_neuron_using_backpropagation, backpropagation_body,
        BrainSignal.rd, BrainSignal.wr]
      norm_num
  · obtain ⟨r, hr, hb⟩ := update_neuron_using_resilient_bias
      { sample_neuron with _out := 0, _sum := 0 } 1 (fun _ => 1) rfl
    refine ⟨_, r, activate_neuron_false_eq sample_neuron, hr, rfl, ?_⟩
    rw [hb, rprop_locals_zero _ _ _ _ _ _ _ (by simp [sample_neuron])]
    simp [sample_neuron]
    norm_num

/-- C11 as the code has it: after `activate_neuron` with `is_activated`
false the stored sum is `0` and the following `neuron_learning` call is the
update at that sum.  It leaves every weight and the bias of the neuron
unchanged when the gradient `loss * derivative(0)` is zero (or the neuron
has no derivative function) and, for the momentum rule, the momentum is
zero, or, for the resilient rule, the stored steps `deltas[i]` and
`bias_delta` are zero. -/
theorem neuron_learning_after_suppression (nr : Neuron) (loss : BrainReal)
    (hg : ∀ d, nr._derivative_function = some d → loss * d 0 = 0)
    (hm : nr._learning_function = some LearningFunc.update_neuron_using_backpropagation →
      nr._backprop_momemtum = 0)
    (hz : nr._learning_function = some LearningFunc.update_neuron_using_resilient →
      (∀ i, nr._deltas.rd i = 0) ∧ nr._bias_delta = 0) :
    ∃ s r, activate_neuron (some nr) false = some s ∧ s._sum = 0 ∧
      neuron_learning (some s) loss = some r ∧
      (∀ i, r._w.rd i = nr._w.rd i) ∧ r._bias = nr._bias := by
  obtain hf | ⟨f, hf⟩ := Option.eq_none_or_eq_some nr._learning_function
  · refine ⟨_, { nr with _out := 0, _sum := 0 }, activate_neuron_false_eq nr, rfl, ?_,
      fun _ => rfl, rfl⟩
    simp only [neuron_learning, hf]
  · obtain hd | ⟨d, hd⟩ := Option.eq_none_or_eq_some nr._derivative_function
    · refine ⟨_, { nr with _out := 0, _sum := 0 }, activate_neuron_false_eq nr, rfl, ?_,
        fun _ => rfl, rfl⟩
      cases f with
      | update_neuron_using_backpropagation =>
        simp only [neuron_learning, hf, call_learning_function,
          update_neuron_using_backpropagation, hd]
      | update_neuron_using_resilient =>
        simp only [neuron_learning, hf, call_learning_function,
          update_neuron_using_resilient, hd]
    · have hg0 : loss * d 0 = 0 := hg d hd
      cases f with
      | update_neuron_using_backpropagation =>
        have hmom : nr._backprop_momemtum = 0 := hm hf
        obtain ⟨r, hr, hb, hw, -⟩ := neuron_learning_backpropagation
          { nr with _out := 0, _sum := 0 } loss d hf hd
        refine ⟨_, r, activate_neuron_false_eq nr, rfl, hr, ?_, ?_⟩
        · intro i
          rw [hw i]
          show (if i < nr._number_of_input ∧ i < nr._w.len then
            nr._w.rd i - (nr._backprop_learning_rate * (loss * d 0) * nr._in.rd i -
              nr._backprop_momemtum * nr._w.rd i)
            else nr._w.rd i) = nr._w.rd i
          rw [hg0, hmom]
          split_ifs <;> ring
        · rw [hb]
          show nr._bias - (nr._backprop_learning_rate * (loss * d 0) -
            nr._backprop_momemtum * nr._bias) = nr._bias
          rw [hg0, hmom]
          ring
      | update_neuron_using_resilient =>
        obtain ⟨hdz, hbz⟩ := hz hf
        obtain ⟨r, hr, hs, -⟩ := update_neuron_using_resilient_slots
          { nr with _out := 0, _sum := 0 } loss d hd
        obtain ⟨r2, hr2, hb⟩ := update_neuron_using_resilient_bias
          { nr with _out := 0, _sum := 0 } loss d hd
        have hsame : r2 = r := Option.some.inj (hr2.symm.trans hr)
        subst hsame
        have hl : neuron_learning (some { nr with _out := 0, _sum := 0 }) loss = some r2 := (neuron_learning_eq_call { nr with _out := 0, _sum := 0 } _ loss hf).trans hr
        refine ⟨_, r2, activate_neuron_false_eq nr, rfl, hl, ?_, ?_⟩
        · intro i
          rw [(hs i).1]
          show (if i < nr._number_of_input ∧ i < nr._w.len then
            nr._w.rd i + (rprop_locals nr._rprop_eta_plus nr._rprop_eta_minus
              nr._rprop_delta_min nr._rprop_delta_max (nr._gradients.rd i) (nr._deltas.rd i)
              (loss * d 0 * nr._in.rd i)).2.1
            else nr._w.rd i) = nr._w.rd i
          rw [rprop_locals_zero _ _ _ _ _ _ _ (by rw [hg0, zero_mul, mul_zero]), hdz i]
          split_ifs <;> simp
        · rw [hb]
          show nr._bias + (rprop_locals nr._rprop_eta_plus nr._rprop_eta_minus
            nr._rprop_delta_min nr._rprop_delta_max nr._bias_gradient nr._bias_delta
            (loss * d 0)).2.1 = nr._bias
          rw [rprop_locals_zero _ _ _ _ _ _ _ (by rw [hg0, mul_zero]), hbz]
          split_ifs <;> simp

/-- Witness of the amended C11 on `sample_fresh_neuron` with the loss `1`:
the derivative is `0` at `0` and the steps of the resilient rule are zero. -/
theorem neuron_learning_after_suppression_witness :
    ∃ s r, activate_neuron (some sample_fresh_neuron) false = some s ∧ s._sum = 0 ∧
      neuron_learning (some s) 1 = some r ∧
      (∀ i, r._w.rd i = sample_fresh_neuron._w.rd i) ∧ r._bias = sample_fresh_neuron._bias :=
  neuron_learning_after_suppression sample_fresh_neuron 1
    (fun d hd => by
      have hd2 : d = fun x => x * (1 - x) := (Option.some.inj hd).symm
      rw [hd2]
      norm_num)
    (fun h => by cases h)
    (fun _ => ⟨fun i => BrainSignal.rd_replicate_zero 3 i, rfl⟩)

/-! ## Claims on the learning registry -/

/-- C21: `get_learning_function` always returns a learning function: the
momentum update for the tag `BackPropagation`, the resilient update for the
tag `Resilient`, and the momentum update for every other tag. -/
theorem get_learning_function_total :
    get_learning_function BrainLearningType.BackPropagation =
      some LearningFunc.update_neuron_using_backpropagation ∧
    get_learning_function BrainLearningType.Resilient =
      some LearningFunc.update_neuron_using_resilient ∧
    (∀ tag, get_learning_function (BrainLearningType.Other tag) =
      some LearningFunc.update_neuron_using_backpropagation) ∧
    (∀ learning_type, (get_learning_function learning_type).isSome = true) ∧
    (∀ learning_type neuron loss,
      learning_type ≠ BrainLearningType.Resilient →
      ∃ f, get_learning_function learning_type = some f ∧
        call_learning_function f neuron loss =
          update_neuron_using_backpropagation neuron loss) := by
  refine ⟨rfl, rfl, fun _ => rfl, ?_, ?_⟩
  · intro learning_type
    cases learning_type <;> rfl
  · intro learning_type neuron loss h
    cases learning_type with
    | BackPropagation => exact ⟨_, rfl, rfl⟩
    | Resilient => exact absurd rfl h
    | Other tag => exact ⟨_, rfl, rfl⟩

/-! ## Claims on the initial weights -/

/-- The weights and the bias after `k` rounds of the loop of `new_neuron`
that draws the weights. -/
theorem new_neuron_loop_w (f : Nat → BrainReal) (s : Neuron) (k : Nat) :
    (for_loop (fun (s : Neuron) (index : Nat) => { s with _w := s._w.wr index (f index) })
      k s)._bias = s._bias ∧
    ∀ j, (for_loop (fun (s : Neuron) (index : Nat) => { s with _w := s._w.wr index (f index) })
      k s)._w.rd j = if j < k ∧ j < s._w.len then f j else s._w.rd j := by
  induction k with
  | zero => simp [for_loop]
  | succ k ih =>
    obtain ⟨h1, h2⟩ := ih
    have hlen := (new_neuron_loop_size f s k).2
    simp only [for_loop]
    refine ⟨h1, ?_⟩
    intro j
    rw [BrainSignal.rd_wr, hlen, h2 j]
    by_cases hjk : j = k
    · subst hjk
      by_cases hl : j < s._w.len
      · simp [hl]
      · simp [hl]
    · have hlt : j < k + 1 ↔ j < k := by omega
      simp [hjk, hlt]

/-- The bias and the weights `new_neuron` draws: the generator is asked for
the range from `-number_of_inputs` to `number_of_inputs`. -/
theorem new_neuron_values (sigmoid sigmoid_derivative : ActivationPtrFunc)
    (rand : Nat → BrainReal → BrainReal → BrainReal) (input : BrainSignal) (n : Nat)
    (slot : BrainReal) (errors : BrainSignal) :
    ∃ nr, new_neuron sigmoid sigmoid_derivative rand input (n + 1) (some slot) errors = some nr ∧
      nr._bias = rand 0 (-((n + 1 : Nat) : BrainReal)) ((n + 1 : Nat) : BrainReal) ∧
      ∀ i, i < n + 1 →
        nr._w.rd i = rand (i + 1) (-((n + 1 : Nat) : BrainReal)) ((n + 1 : Nat) : BrainReal) := by
  unfold new_neuron
  simp only [ne_eq, Nat.succ_ne_zero, not_false_eq_true, if_true]
  refine ⟨_, rfl, ?_, ?_⟩
  · rw [(new_neuron_loop_w _ _ _).1]
  · intro i hi
    rw [(new_neuron_loop_w _ _ _).2 i]
    simp [hi, BrainSignal.len]

/-- C23 on the code: `new_neuron` asks the generator for the range from
`-number_of_inputs` to `number_of_inputs`, so a generator that stays inside
the range it is asked for gives a bias and weights between
`-number_of_inputs` and `number_of_inputs`; with two inputs or more and the
generator that returns the upper end of the range, the bias and every
weight are `number_of_inputs`, above `1 / number_of_inputs`. -/
theorem new_neuron_random_limit (sigmoid sigmoid_derivative : ActivationPtrFunc)
    (input : BrainSignal) (n : Nat) (slot : BrainReal) (errors : BrainSignal) :
    (∀ rand : Nat → BrainReal → BrainReal → BrainReal,
      (∀ k lo hi, lo ≤ hi → lo ≤ rand k lo hi ∧ rand k lo hi ≤ hi) →
      ∃ nr, new_neuron sigmoid sigmoid_derivative rand input (n + 1) (some slot) errors =
          some nr ∧
        -((n + 1 : Nat) : BrainReal) ≤ nr._bias ∧ nr._bias ≤ ((n + 1 : Nat) : BrainReal) ∧
        ∀ i, i < n + 1 → -((n + 1 : Nat) : BrainReal) ≤ nr._w.rd i ∧
          nr._w.rd i ≤ ((n + 1 : Nat) : BrainReal)) ∧
    (∃ nr, new_neuron sigmoid sigmoid_derivative sample_rand_upper input (n + 2) (some slot)
        errors = some nr ∧
      nr._bias = ((n + 2 : Nat) : BrainReal) ∧
      (∀ i, i < n + 2 → nr._w.rd i = ((n + 2 : Nat) : BrainReal)) ∧
      1 / ((n + 2 : Nat) : BrainReal) < nr._bias) := by
  refine ⟨?_, ?_⟩
  · intro rand hrand
    obtain ⟨nr, hnr, hb, hw⟩ :=
      new_neuron_values sigmoid sigmoid_derivative rand input n slot errors
    have hle : -((n + 1 : Nat) : BrainReal) ≤ ((n + 1 : Nat) : BrainReal) := by
      have h0 : (0 : BrainReal) ≤ ((n + 1 : Nat) : BrainReal) := Nat.cast_nonneg _
      linarith
    refine ⟨nr, hnr, ?_, ?_, ?_⟩
    · rw [hb]
      exact (hrand 0 _ _ hle).1
    · rw [hb]
      exact (hrand 0 _ _ hle).2
    · intro i hi
      rw [hw i hi]
      exact hrand (i + 1) _ _ hle
  · obtain ⟨nr, hnr, hb, hw⟩ :=
      new_neuron_values sigmoid sigmoid_derivative sample_rand_upper input (n + 1) slot errors
    have hb2 : nr._bias = ((n + 2 : Nat) : BrainReal) := hb
    refine ⟨nr, hnr, hb2, fun i hi => hw i hi, ?_⟩
    rw [hb2]
    have h2 : (2 : BrainReal) ≤ ((n + 2 : Nat) : BrainReal) := by
      push_cast
      have h0 : (0 : BrainReal) ≤ (n : BrainReal) := Nat.cast_nonneg _
      linarith
    have hpos : (0 : BrainReal) < ((n + 2 : Nat) : BrainReal) := by linarith
    rw [div_lt_iff₀ hpos]
    nlinarith

/-! ## Claims on the builder neuron -/

/-- What the loop of the builder `update_neuron` leaves alone. -/
theorem Builder.update_neuron_loop_frame (s : Builder.Neuron) (k : Nat) :
    (for_loop Builder.update_neuron_body k s)._in = s._in ∧
    (for_loop Builder.update_neuron_body k s)._learning_rate = s._learning_rate ∧
    (for_loop Builder.update_neuron_body k s)._inertial_factor = s._inertial_factor ∧
    (for_loop Builder.update_neuron_body k s)._delta = s._delta ∧
    (for_loop Builder.update_neuron_body k s)._out = s._out ∧
    (for_loop Builder.update_neuron_body k s)._number_of_input = s._number_of_input ∧
    (for_loop Builder.update_neuron_body k s)._w.len = s._w.len ∧
    (for_loop Builder.update_neuron_body k s)._correction.len = s._correction.len := by
  induction k with
  | zero => simp [for_loop]
  | succ k ih =>
    obtain ⟨h1, h2, h3, h4, h5, h6, h7, h8⟩ := ih
    simp [for_loop, Builder.update_neuron_body, BrainSignal.len_wr, h1, h2, h3, h4, h5, h6, h7,
      h8]

/-- The weights and the corrections after `k` rounds of the loop of the
builder `update_neuron`. -/
theorem Builder.update_neuron_loop_slots (s : Builder.Neuron) (k : Nat) :
    ∀ j,
      ((for_loop Builder.update_neuron_body k s)._w.rd j =
        if j < k ∧ j < s._w.len then
          s._w.rd j + (-s._learning_rate * s._delta * s._in.rd j +
            s._inertial_factor * s._correction.rd j)
        else s._w.rd j) ∧
      ((for_loop Builder.update_neuron_body k s)._correction.rd j =
        if j < k ∧ j < s._correction.len then
          -s._learning_rate * s._delta * s._in.rd j + s._inertial_factor * s._correction.rd j
        else s._correction.rd j) := by
  induction k with
  | zero => intro j; simp [for_loop]
  | succ k ih =>
    intro j
    obtain ⟨h1, h2, h3, h4, -, -, h7, h8⟩ := Builder.update_neuron_loop_frame s k
    obtain ⟨kw, kc⟩ := ih k
    simp only [Nat.lt_irrefl, false_and, if_false] at kw kc
    obtain ⟨jw, jc⟩ := ih j
    simp only [for_loop, Builder.update_neuron_body, BrainSignal.rd_wr, h1, h2, h3, h4, h7, h8,
      kw, kc]
    by_cases hjk : j = k
    · subst hjk
      refine ⟨?_, ?_⟩
      · by_cases hl : j < s._w.len <;> simp [hl, kw]
      · by_cases hl : j < s._correction.len <;> simp [hl, kc]
    · have hlt : j < k + 1 ↔ j < k := by omega
      rw [jw, jc]
      simp [hjk, hlt]

/-- C24: the builder `update_neuron` adds to every weight `w[i]`, for `i`
from `0` to `number_of_input` inclusive, the correction
`-learning_rate * delta * in[i] + inertial_factor * correction[i]`, where
`correction[i]` is the correction of the call before, and stores that
correction in `correction[i]`; the delta, the inputs and the two factors
are kept. -/
theorem builder_update_neuron_rule (nr : Builder.Neuron)
    (hw : (nr._number_of_input + 1).toNat ≤ nr._w.len)
    (hc : (nr._number_of_input + 1).toNat ≤ nr._correction.len) :
    ∃ r, Builder.update_neuron (some nr) = some r ∧
      (∀ i : Nat, (i : Int) ≤ nr._number_of_input →
        r._w.rd i = nr._w.rd i +
          (-nr._learning_rate * nr._delta * nr._in.rd i +
            nr._inertial_factor * nr._correction.rd i) ∧
        r._correction.rd i =
          -nr._learning_rate * nr._delta * nr._in.rd i +
            nr._inertial_factor * nr._correction.rd i) ∧
      (∀ i : Nat, nr._number_of_input < (i : Int) →
        r._w.rd i = nr._w.rd i ∧ r._correction.rd i = nr._correction.rd i) ∧
      r._delta = nr._delta ∧ r._in = nr._in ∧
      r._learning_rate = nr._learning_rate ∧ r._inertial_factor = nr._inertial_factor := by
  obtain ⟨h1, h2, h3, h4, -⟩ :=
    Builder.update_neuron_loop_frame nr (nr._number_of_input + 1).toNat
  refine ⟨_, rfl, ?_, ?_, h4, h1, h2, h3⟩
  · intro i hi
    have hlt : i < (nr._number_of_input + 1).toNat := by omega
    obtain ⟨sw, sc⟩ := Builder.update_neuron_loop_slots nr (nr._number_of_input + 1).toNat i
    rw [sw, sc, if_pos ⟨hlt, Nat.lt_of_lt_of_le hlt hw⟩, if_pos ⟨hlt, Nat.lt_of_lt_of_le hlt hc⟩]
    exact ⟨rfl, rfl⟩
  · intro i hi
    have hlt : ¬ i < (nr._number_of_input + 1).toNat := by omega
    obtain ⟨sw, sc⟩ := Builder.update_neuron_loop_slots nr (nr._number_of_input + 1).toNat i
    rw [sw, sc]
    simp [hlt]

/-- Witness of C24 on `sample_builder_neuron`. -/
theorem builder_update_neuron_rule_witness :
    (sample_builder_neuron._number_of_input + 1).toNat ≤ sample_builder_neuron._w.len ∧
    (sample_builder_neuron._number_of_input + 1).toNat ≤ sample_builder_neuron._correction.len ∧
    ∃ r, Builder.update_neuron (some sample_builder_neuron) = some r ∧
      (∀ i : Nat, (i : Int) ≤ sample_builder_neuron._number_of_input →
        r._w.rd i = sample_builder_neuron._w.rd i +
          (-sample_builder_neuron._learning_rate * sample_builder_neuron._delta *
              sample_builder_neuron._in.rd i +
            sample_builder_neuron._inertial_factor * sample_builder_neuron._correction.rd i) ∧
        r._correction.rd i =
          -sample_builder_neuron._learning_rate * sample_builder_neuron._delta *
              sample_builder_neuron._in.rd i +
            sample_builder_neuron._inertial_factor * sample_builder_neuron._correction.rd i) ∧
      (∀ i : Nat, sample_builder_neuron._number_of_input < (i : Int) →
        r._w.rd i = sample_builder_neuron._w.rd i ∧
        r._correction.rd i = sample_builder_neuron._correction.rd i) ∧
      r._delta = sample_builder_neuron._delta ∧ r._in = sample_builder_neuron._in ∧
      r._learning_rate = sample_builder_neuron._learning_rate ∧
      r._inertial_factor = sample_builder_neuron._inertial_factor :=
  ⟨by decide, by decide,
    builder_update_neuron_rule sample_builder_neuron (by decide) (by decide)⟩

/-! ## Relations on the resilient rule -/

/-- The locals `new_delta` and `new_correction` of the resilient rule depend
on the gradient of the round through its sign only. -/
theorem rprop_locals_scale (ep em dmin dmax prev step g c : BrainReal) (hc : 0 < c) :
    (rprop_locals ep em dmin dmax prev step (c * g)).1 =
      (rprop_locals ep em dmin dmax prev step g).1 ∧
    (rprop_locals ep em dmin dmax prev step (c * g)).2.1 =
      (rprop_locals ep em dmin dmax prev step g).2.1 := by
  have hprod : prev * (c * g) = c * (prev * g) := by ring
  have hg : 0 < c * g ↔ 0 < g := by
    constructor
    · intro h
      by_contra hng
      have : c * g ≤ 0 := mul_nonpos_of_nonneg_of_nonpos (le_of_lt hc) (not_lt.mp hng)
      linarith
    · intro h
      exact mul_pos hc h
  rcases lt_trichotomy (prev * g) 0 with hneg | hzero | hpos
  · have h2 : prev * (c * g) < 0 := by
      rw [hprod]
      exact mul_neg_of_pos_of_neg hc hneg
    rw [rprop_locals_neg _ _ _ _ _ _ _ h2, rprop_locals_neg _ _ _ _ _ _ _ hneg]
    exact ⟨rfl, rfl⟩
  · have h2 : prev * (c * g) = 0 := by
      rw [hprod, hzero, mul_zero]
    rw [rprop_locals_zero _ _ _ _ _ _ _ h2, rprop_locals_zero _ _ _ _ _ _ _ hzero]
    refine ⟨rfl, ?_⟩
    by_cases h : 0 < g
    · simp [h, hg.mpr h]
    · have h3 : ¬ 0 < c * g := fun e => h (hg.mp e)
      simp [h, h3]
  · have h2 : 0 < prev * (c * g) := by
      rw [hprod]
      exact mul_pos hc hpos
    rw [rprop_locals_pos _ _ _ _ _ _ _ h2, rprop_locals_pos _ _ _ _ _ _ _ hpos]
    refine ⟨rfl, ?_⟩
    by_cases h : 0 < g
    · simp [h, hg.mpr h]
    · have h3 : ¬ 0 < c * g := fun e => h (hg.mp e)
      simp [h, h3]

/-- The loop of the resilient rule keeps the four buffers allocated or
null as they were. -/
theorem resilient_loop_isSome (ep em dmin dmax g : BrainReal) (s : Neuron) (k : Nat) :
    (for_loop (resilient_body ep em dmin dmax g) k s)._w.isSome = s._w.isSome ∧
    (for_loop (resilient_body ep em dmin dmax g) k s)._deltas.isSome = s._deltas.isSome ∧
    (for_loop (resilient_body ep em dmin dmax g) k s)._gradients.isSome =
      s._gradients.isSome := by
  induction k with
  | zero => simp [for_loop]
  | succ k ih =>
    obtain ⟨h1, h2, h3⟩ := ih
    simp [for_loop, resilient_body_eq, BrainSignal.isSome_wr, h1, h2, h3]

/-- The sizes of the weights and of the steps after
`update_neuron_using_resilient`. -/
theorem update_neuron_using_resilient_sizes (nr : Neuron) (loss : BrainReal)
    (derivative : BrainReal → BrainReal)
    (hd : nr._derivative_function = some derivative) :
    ∃ nr', update_neuron_using_resilient (some nr) loss = some nr' ∧
      nr'._w.len = nr._w.len ∧ nr'._w.isSome = nr._w.isSome ∧
      nr'._deltas.len = nr._deltas.len ∧ nr'._deltas.isSome = nr._deltas.isSome := by
  unfold update_neuron_using_resilient
  simp only [hd]
  refine ⟨_, rfl, ?_, ?_, ?_, ?_⟩
  · exact (resilient_loop_frame _ _ _ _ _ _ _).2.2.2.2.1
  · exact (resilient_loop_isSome _ _ _ _ _ _ _).1
  · exact (resilient_loop_frame _ _ _ _ _ _ _).2.2.2.2.2.1
  · exact (resilient_loop_isSome _ _ _ _ _ _ _).2.1

/-- The update of the resilient rule without a derivative function does
nothing. -/
theorem update_neuron_using_resilient_null (nr : Neuron) (loss : BrainReal)
    (hd : nr._derivative_function = none) :
    update_neuron_using_resilient (some nr) loss = some nr := by
  simp only [update_neuron_using_resilient, hd]

/-- In exact arithmetic, where no product is rounded or underflows: for
every neuron state, every loss `l` and every factor `c > 0`,
`update_neuron_using_resilient` run with the loss `l` and with the loss
`c * l` from the same state gives the same weights, the same bias and the
same step sizes `deltas` and `bias_delta`.  The update in rounded arithmetic
is `update_neuron_using_resilient_rounded`. -/
theorem update_neuron_using_resilient_scale (nr : Neuron) (l c : BrainReal) (hc : 0 < c) :
    ∃ a b, update_neuron_using_resilient (some nr) l = some a ∧
      update_neuron_using_resilient (some nr) (c * l) = some b ∧
      a._w = b._w ∧ a._bias = b._bias ∧ a._deltas = b._deltas ∧
      a._bias_delta = b._bias_delta := by
  obtain hd | ⟨d, hd⟩ := Option.eq_none_or_eq_some nr._derivative_function
  · exact ⟨nr, nr, update_neuron_using_resilient_null nr l hd,
      update_neuron_using_resilient_null nr (c * l) hd, rfl, rfl, rfl, rfl⟩
  · obtain ⟨a, ha, hsa, -⟩ := update_neuron_using_resilient_slots nr l d hd
    obtain ⟨b, hb, hsb, -⟩ := update_neuron_using_resilient_slots nr (c * l) d hd
    obtain ⟨a1, ha1, hab⟩ := update_neuron_using_resilient_bias nr l d hd
    obtain ⟨b1, hb1, hbb⟩ := update_neuron_using_resilient_bias nr (c * l) d hd
    obtain ⟨a2, ha2, had, -⟩ := update_neuron_using_resilient_bias_delta nr l d hd
    obtain ⟨b2, hb2, hbd, -⟩ := update_neuron_using_resilient_bias_delta nr (c * l) d hd
    obtain ⟨a3, ha3, awl, aws, adl, ads⟩ := update_neuron_using_resilient_sizes nr l d hd
    obtain ⟨b3, hb3, bwl, bws, bdl, bds⟩ := update_neuron_using_resilient_sizes nr (c * l) d hd
    have e1 : a1 = a := Option.some.inj (ha1.symm.trans ha)
    have e2 : a2 = a := Option.some.inj (ha2.symm.trans ha)
    have e3 : a3 = a := Option.some.inj (ha3.symm.trans ha)
    have f1 : b1 = b := Option.some.inj (hb1.symm.trans hb)
    have f2 : b2 = b := Option.some.inj (hb2.symm.trans hb)
    have f3 : b3 = b := Option.some.inj (hb3.symm.trans hb)
    subst e1 e2 e3 f1 f2 f3
    have hgb : c * l * d nr._sum = c * (l * d nr._sum) := by ring
    have hgw : ∀ j, c * l * d nr._sum * nr._in.rd j = c * (l * d nr._sum * nr._in.rd j) := by
      intro j
      ring
    refine ⟨a3, b3, ha, hb, ?_, ?_, ?_, ?_⟩
    · apply BrainSignal.ext_rd
      · rw [aws, bws]
      · rw [awl, bwl]
      · intro j
        rw [(hsa j).1, (hsb j).1, hgw j, (rprop_locals_scale _ _ _ _ _ _ _ c hc).2]
    · rw [hab, hbb, hgb, (rprop_locals_scale _ _ _ _ _ _ _ c hc).2]
    · apply BrainSignal.ext_rd
      · rw [ads, bds]
      · rw [adl, bdl]
      · intro j
        rw [(hsa j).2.1, (hsb j).2.1, hgw j, (rprop_locals_scale _ _ _ _ _ _ _ c hc).1]
    · rw [had, hbd, hgb, (rprop_locals_scale _ _ _ _ _ _ _ c hc).1]

/-- The stored bias gradient after `update_neuron_using_resilient`, in terms
of the neuron before the call. -/
theorem update_neuron_using_resilient_bias_gradient (nr : Neuron) (loss : BrainReal)
    (derivative : BrainReal → BrainReal)
    (hd : nr._derivative_function = some derivative) :
    ∃ nr', update_neuron_using_resilient (some nr) loss = some nr' ∧
      nr'._bias_gradient =
        (rprop_locals nr._rprop_eta_plus nr._rprop_eta_minus nr._rprop_delta_min
          nr._rprop_delta_max nr._bias_gradient nr._bias_delta
          (loss * derivative nr._sum)).2.2 := by
  unfold update_neuron_using_resilient
  simp only [hd]
  refine ⟨_, rfl, ?_⟩
  rw [(resilient_loop_frame _ _ _ _ _ _ _).2.2.2.1]
  rfl

/-- C28: in `update_neuron_using_resilient` the bias follows the rule of a
weight whose input is `1`: the new bias, `bias_delta` and `bias_gradient`
are the weight, the step and the stored gradient that the same update gives
to the only weight of `bias_as_weight`, a weight with the value `bias`, the
step `bias_delta`, the stored gradient `bias_gradient` and the input `1`. -/
theorem update_neuron_using_resilient_bias_as_weight (nr : Neuron) (loss : BrainReal)
    (derivative : BrainReal → BrainReal)
    (hd : nr._derivative_function = some derivative) :
    ∃ r p, update_neuron_using_resilient (some nr) loss = some r ∧
      update_neuron_using_resilient (some (bias_as_weight nr)) loss = some p ∧
      r._bias = p._w.rd 0 ∧ r._bias_delta = p._deltas.rd 0 ∧
      r._bias_gradient = p._gradients.rd 0 := by
  obtain ⟨r, hr, hb⟩ := update_neuron_using_resilient_bias nr loss derivative hd
  obtain ⟨r2, hr2, hbd, -⟩ := update_neuron_using_resilient_bias_delta nr loss derivative hd
  obtain ⟨r3, hr3, hbg⟩ := update_neuron_using_resilient_bias_gradient nr loss derivative hd
  have e2 : r2 = r := Option.some.inj (hr2.symm.trans hr)
  have e3 : r3 = r := Option.some.inj (hr3.symm.trans hr)
  subst e2 e3
  have hdp : (bias_as_weight nr)._derivative_function = some derivative := hd
  obtain ⟨p, hp, hs, -⟩ := update_neuron_using_resilient_slots (bias_as_weight nr) loss
    derivative hdp
  obtain ⟨sw, sd, sg, -⟩ := hs 0
  have h1 : (bias_as_weight nr)._in.rd 0 = 1 := rfl
  have h2 : (bias_as_weight nr)._w.rd 0 = nr._bias := rfl
  have h3 : (bias_as_weight nr)._deltas.rd 0 = nr._bias_delta := rfl
  have h4 : (bias_as_weight nr)._gradients.rd 0 = nr._bias_gradient := rfl
  have h5 : (bias_as_weight nr)._sum = nr._sum := rfl
  have hlt : 0 < (bias_as_weight nr)._number_of_input := Nat.one_pos
  have hw : 0 < (bias_as_weight nr)._w.len := Nat.one_pos
  have hdl : 0 < (bias_as_weight nr)._deltas.len := Nat.one_pos
  have hgl : 0 < (bias_as_weight nr)._gradients.len := Nat.one_pos
  rw [if_pos ⟨hlt, hw⟩, h1, h2, h3, h4, h5, mul_one] at sw
  rw [if_pos ⟨hlt, hdl⟩, h1, h3, h4, h5, mul_one] at sd
  rw [if_pos ⟨hlt, hgl⟩, h1, h3, h4, h5, mul_one] at sg
  refine ⟨r3, p, hr, hp, ?_, ?_, ?_⟩
  · rw [hb, sw]
    rfl
  · rw [hbd, sd]
    rfl
  · rw [hbg, sg]
    rfl

/-- Witness of C28 on `sample_neuron` with the loss `1`. -/
theorem update_neuron_using_resilient_bias_as_weight_witness :
    sample_neuron._derivative_function = some (fun _ => 1) ∧
    ∃ r p, update_neuron_using_resilient (some sample_neuron) 1 = some r ∧
      update_neuron_using_resilient (some (bias_as_weight sample_neuron)) 1 = some p ∧
      r._bias = p._w.rd 0 ∧ r._bias_delta = p._deltas.rd 0 ∧
      r._bias_gradient = p._gradients.rd 0 :=
  ⟨rfl, update_neuron_using_resilient_bias_as_weight sample_neuron 1 (fun _ => 1) rfl⟩

/-- C29 does not hold as stated.  In `sample_negative_step_neuron`
`eta_plus = 2 ≥ 1`, `0 ≤ eta_minus = 1/2 ≤ 1` and both steps are `-1`,
between `delta_min = -10` and `delta_max = 50`.  With the loss `1` the
gradients of weight `0` agree in sign and its step goes down to `-2`; the
gradients of weight `1` disagree in sign and its step goes up to `-1/2`. -/
theorem update_neuron_using_resilient_negative_step :
    ∃ r, update_neuron_using_resilient (some sample_negative_step_neuron) 1 = some r ∧
      (1 : BrainReal) ≤ sample_negative_step_neuron._rprop_eta_plus ∧
      0 ≤ sample_negative_step_neuron._rprop_eta_minus ∧
      sample_negative_step_neuron._rprop_eta_minus ≤ 1 ∧
      (∀ i, i < 2 →
        sample_negative_step_neuron._rprop_delta_min ≤
          sample_negative_step_neuron._deltas.rd i ∧
        sample_negative_step_neuron._deltas.rd i ≤
          sample_negative_step_neuron._rprop_delta_max) ∧
      0 < sample_negative_step_neuron._gradients.rd 0 *
        (1 * (fun _ => 1) sample_negative_step_neuron._sum *
          sample_negative_step_neuron._in.rd 0) ∧
      r._deltas.rd 0 = -2 ∧ r._deltas.rd 0 < sample_negative_step_neuron._deltas.rd 0 ∧
      sample_negative_step_neuron._gradients.rd 1 *
        (1 * (fun _ => 1) sample_negative_step_neuron._sum *
          sample_negative_step_neuron._in.rd 1) < 0 ∧
      r._deltas.rd 1 = -1 / 2 ∧ sample_negative_step_neuron._deltas.rd 1 < r._deltas.rd 1 := by
  obtain ⟨r, hr, hs, -⟩ := update_neuron_using_resilient_slots sample_negative_step_neuron 1
    (fun _ => 1) rfl
  have hp0 : 0 < sample_negative_step_neuron._gradients.rd 0 *
      (1 * (fun _ => 1) sample_negative_step_neuron._sum *
        sample_negative_step_neuron._in.rd 0) := by
    norm_num [sample_negative_step_neuron, sample_neuron, BrainSignal.rd]
  have hp1 : sample_negative_step_neuron._gradients.rd 1 *
      (1 * (fun _ => 1) sample_negative_step_neuron._sum *
        sample_negative_step_neuron._in.rd 1) < 0 := by
    norm_num [sample_negative_step_neuron, sample_neuron, BrainSignal.rd]
  have hd0 : r._deltas.rd 0 = -2 := by
    rw [(hs 0).2.1, rprop_locals_pos _ _ _ _ _ _ _ hp0]
    norm_num [sample_negative_step_neuron, sample_neuron, BrainSignal.rd, BrainSignal.len, MIN]
  have hd1 : r._deltas.rd 1 = -1 / 2 := by
    rw [(hs 1).2.1, rprop_locals_neg _ _ _ _ _ _ _ hp1]
    norm_num [sample_negative_step_neuron, sample_neuron, BrainSignal.rd, BrainSignal.len, MAX]
  refine ⟨r, hr, ?_, ?_, ?_, ?_, hp0, hd0, ?_, hp1, hd1, ?_⟩
  · norm_num [sample_negative_step_neuron]
  · norm_num [sample_negative_step_neuron]
  · norm_num [sample_negative_step_neuron]
  · intro i hi
    have hcases : i = 0 ∨ i = 1 := by omega
    rcases hcases with h | h <;> subst h <;>
      norm_num [sample_negative_step_neuron, sample_neuron, BrainSignal.rd]
  · rw [hd0]
    norm_num [sample_negative_step_neuron, sample_neuron, BrainSignal.rd]
  · rw [hd1]
    norm_num [sample_negative_step_neuron, sample_neuron, BrainSignal.rd]

/-- The step the resilient rule stores, against the step it found, when the
step it found is not negative. -/
theorem rprop_locals_step_monotone (ep em dmin dmax prev step g : BrainReal)
    (hep : 1 ≤ ep) (hem1 : em ≤ 1) (h0 : 0 ≤ step) (hmin : dmin ≤ step) (hmax : step ≤ dmax) :
    (0 < prev * g → step ≤ (rprop_locals ep em dmin dmax prev step g).1) ∧
    (prev * g < 0 → (rprop_locals ep em dmin dmax prev step g).1 ≤ step) := by
  refine ⟨?_, ?_⟩
  · intro hp
    rw [rprop_locals_pos _ _ _ _ _ _ _ hp, MIN_eq_min]
    apply le_min _ hmax
    nlinarith
  · intro hp
    rw [rprop_locals_neg _ _ _ _ _ _ _ hp, MAX_eq_max]
    apply max_le _ hmin
    nlinarith

/-- C29 as the code has it: under `eta_plus ≥ 1`, `0 ≤ eta_minus ≤ 1` and,
for the stored step of a parameter, `delta_min ≤ step ≤ delta_max` and
`0 ≤ step`, one `update_neuron_using_resilient` call does not decrease the
step when the stored and the new gradient agree in sign (`prev * g > 0`)
and does not increase it when they disagree (`prev * g < 0`).  The
parameter is a weight `i < number_of_input` or the bias. -/
theorem update_neuron_using_resilient_step_monotone (nr : Neuron) (loss : BrainReal)
    (derivative : BrainReal → BrainReal)
    (hd : nr._derivative_function = some derivative)
    (hep : 1 ≤ nr._rprop_eta_plus) (_hem0 : 0 ≤ nr._rprop_eta_minus)
    (hem1 : nr._rprop_eta_minus ≤ 1) :
    ∃ r, update_neuron_using_resilient (some nr) loss = some r ∧
      (∀ i, i < nr._number_of_input → i < nr._deltas.len →
        0 ≤ nr._deltas.rd i → nr._rprop_delta_min ≤ nr._deltas.rd i →
        nr._deltas.rd i ≤ nr._rprop_delta_max →
        (0 < nr._gradients.rd i * (loss * derivative nr._sum * nr._in.rd i) →
          nr._deltas.rd i ≤ r._deltas.rd i) ∧
        (nr._gradients.rd i * (loss * derivative nr._sum * nr._in.rd i) < 0 →
          r._deltas.rd i ≤ nr._deltas.rd i)) ∧
      (0 ≤ nr._bias_delta → nr._rprop_delta_min ≤ nr._bias_delta →
        nr._bias_delta ≤ nr._rprop_delta_max →
        (0 < nr._bias_gradient * (loss * derivative nr._sum) →
          nr._bias_delta ≤ r._bias_delta) ∧
        (nr._bias_gradient * (loss * derivative nr._sum) < 0 →
          r._bias_delta ≤ nr._bias_delta)) := by
  obtain ⟨r, hr, hs, -⟩ := update_neuron_using_resilient_slots nr loss derivative hd
  obtain ⟨r2, hr2, hbd, -⟩ := update_neuron_using_resilient_bias_delta nr loss derivative hd
  have e2 : r2 = r := Option.some.inj (hr2.symm.trans hr)
  subst e2
  refine ⟨r2, hr, ?_, ?_⟩
  · intro i hi hil h0 hmin hmax
    rw [(hs i).2.1, if_pos ⟨hi, hil⟩]
    exact rprop_locals_step_monotone _ _ _ _ _ _ _ hep hem1 h0 hmin hmax
  · intro h0 hmin hmax
    rw [hbd]
    exact rprop_locals_step_monotone _ _ _ _ _ _ _ hep hem1 h0 hmin hmax

/-- Witness of the amended C29 on `sample_neuron` with the loss `1`. -/
theorem update_neuron_using_resilient_step_monotone_witness :
    ∃ r, update_neuron_using_resilient (some sample_neuron) 1 = some r ∧
      (∀ i, i < sample_neuron._number_of_input → i < sample_neuron._deltas.len →
        0 ≤ sample_neuron._deltas.rd i →
        sample_neuron._rprop_delta_min ≤ sample_neuron._deltas.rd i →
        sample_neuron._deltas.rd i ≤ sample_neuron._rprop_delta_max →
        (0 < sample_neuron._gradients.rd i *
            (1 * (fun _ => 1) sample_neuron._sum * sample_neuron._in.rd i) →
          sample_neuron._deltas.rd i ≤ r._deltas.rd i) ∧
        (sample_neuron._gradients.rd i *
            (1 * (fun _ => 1) sample_neuron._sum * sample_neuron._in.rd i) < 0 →
          r._deltas.rd i ≤ sample_neuron._deltas.rd i)) ∧
      (0 ≤ sample_neuron._bias_delta →
        sample_neuron._rprop_delta_min ≤ sample_neuron._bias_delta →
        sample_neuron._bias_delta ≤ sample_neuron._rprop_delta_max →
        (0 < sample_neuron._bias_gradient * (1 * (fun _ => 1) sample_neuron._sum) →
          sample_neuron._bias_delta ≤ r._bias_delta) ∧
        (sample_neuron._bias_gradient * (1 * (fun _ => 1) sample_neuron._sum) < 0 →
          r._bias_delta ≤ sample_neuron._bias_delta)) :=
  update_neuron_using_resilient_step_monotone sample_neuron 1 (fun _ => 1) rfl
    (by norm_num [sample_neuron]) (by norm_num [sample_neuron]) (by norm_num [sample_neuron])

/-- The step the resilient rule stores stays between `0` and `delta_max`. -/
theorem rprop_locals_step_bounds (ep em dmin dmax prev step g : BrainReal)
    (h0 : 0 ≤ dmin) (h1 : dmin ≤ dmax) (hep : 0 ≤ ep) (hem0 : 0 ≤ em) (hem1 : em ≤ 1)
    (hs0 : 0 ≤ step) (hs1 : step ≤ dmax) :
    0 ≤ (rprop_locals ep em dmin dmax prev step g).1 ∧
    (rprop_locals ep em dmin dmax prev step g).1 ≤ dmax := by
  have hd0 : 0 ≤ dmax := le_trans h0 h1
  rcases lt_trichotomy (prev * g) 0 with hneg | hzero | hpos
  · rw [rprop_locals_neg _ _ _ _ _ _ _ hneg, MAX_eq_max]
    refine ⟨le_max_of_le_right h0, max_le ?_ h1⟩
    nlinarith
  · rw [rprop_locals_zero _ _ _ _ _ _ _ hzero]
    exact ⟨le_refl 0, hd0⟩
  · rw [rprop_locals_pos _ _ _ _ _ _ _ hpos, MIN_eq_min]
    exact ⟨le_min (mul_nonneg hs0 hep) hd0, min_le_right _ _⟩

/-- C30: whenever `0 ≤ delta_min ≤ delta_max`, `eta_plus ≥ 0` and
`0 ≤ eta_minus ≤ 1`, if every step `deltas[i]` and the bias step
`bias_delta` of a neuron lie between `0` and `delta_max`, they still do
after `update_neuron_using_resilient`, which keeps the four parameters; and
the steps and the parameters of a neuron built by `new_neuron` meet all
these conditions. -/
theorem update_neuron_using_resilient_step_invariant (nr : Neuron) (loss : BrainReal)
    (h0 : 0 ≤ nr._rprop_delta_min) (h1 : nr._rprop_delta_min ≤ nr._rprop_delta_max)
    (hep : 0 ≤ nr._rprop_eta_plus) (hem0 : 0 ≤ nr._rprop_eta_minus)
    (hem1 : nr._rprop_eta_minus ≤ 1)
    (hinv : ∀ i, 0 ≤ nr._deltas.rd i ∧ nr._deltas.rd i ≤ nr._rprop_delta_max)
    (hb : 0 ≤ nr._bias_delta ∧ nr._bias_delta ≤ nr._rprop_delta_max) :
    (∃ r, update_neuron_using_resilient (some nr) loss = some r ∧
      r._rprop_delta_min = nr._rprop_delta_min ∧ r._rprop_delta_max = nr._rprop_delta_max ∧
      r._rprop_eta_plus = nr._rprop_eta_plus ∧ r._rprop_eta_minus = nr._rprop_eta_minus ∧
      (∀ i, 0 ≤ r._deltas.rd i ∧ r._deltas.rd i ≤ r._rprop_delta_max) ∧
      0 ≤ r._bias_delta ∧ r._bias_delta ≤ r._rprop_delta_max) ∧
    (∀ (sigmoid sigmoid_derivative : ActivationPtrFunc)
      (rand : Nat → BrainReal → BrainReal → BrainReal) (input : BrainSignal) (n : Nat)
      (slot : BrainReal) (errors : BrainSignal),
      ∃ fresh, new_neuron sigmoid sigmoid_derivative rand input (n + 1) (some slot) errors =
          some fresh ∧
        0 ≤ fresh._rprop_delta_min ∧ fresh._rprop_delta_min ≤ fresh._rprop_delta_max ∧
        0 ≤ fresh._rprop_eta_plus ∧ 0 ≤ fresh._rprop_eta_minus ∧
        fresh._rprop_eta_minus ≤ 1 ∧
        (∀ i, 0 ≤ fresh._deltas.rd i ∧ fresh._deltas.rd i ≤ fresh._rprop_delta_max) ∧
        0 ≤ fresh._bias_delta ∧ fresh._bias_delta ≤ fresh._rprop_delta_max) := by
  refine ⟨?_, ?_⟩
  · obtain hd | ⟨d, hd⟩ := Option.eq_none_or_eq_some nr._derivative_function
    · exact ⟨nr, update_neuron_using_resilient_null nr loss hd, rfl, rfl, rfl, rfl, hinv,
        hb.1, hb.2⟩
    · obtain ⟨b, bd, bg, w, dl, gr, e, hfr⟩ := update_neuron_using_resilient_frame nr loss
      obtain ⟨r, hr, hs, -⟩ := update_neuron_using_resilient_slots nr loss d hd
      obtain ⟨r2, hr2, hbd, hmin, hmax⟩ :=
        update_neuron_using_resilient_bias_delta nr loss d hd
      have e2 : r2 = r := Option.some.inj (hr2.symm.trans hr)
      subst e2
      have hfr2 : r2 = { nr with
          _bias := b, _bias_delta := bd, _bias_gradient := bg
          _w := w, _deltas := dl, _gradients := gr, _errors := e } :=
        Option.some.inj (hr.symm.trans hfr)
      have hep2 : r2._rprop_eta_plus = nr._rprop_eta_plus := by rw [hfr2]
      have hem2 : r2._rprop_eta_minus = nr._rprop_eta_minus := by rw [hfr2]
      refine ⟨r2, hr, hmin, hmax, hep2, hem2, ?_, ?_, ?_⟩
      · intro i
        rw [(hs i).2.1, hmax]
        split_ifs
        · exact rprop_locals_step_bounds _ _ _ _ _ _ _ h0 h1 hep hem0 hem1 (hinv i).1 (hinv i).2
        · exact hinv i
      · rw [hbd]
        exact (rprop_locals_step_bounds _ _ _ _ _ _ _ h0 h1 hep hem0 hem1 hb.1 hb.2).1
      · rw [hbd, hmax]
        exact (rprop_locals_step_bounds _ _ _ _ _ _ _ h0 h1 hep hem0 hem1 hb.1 hb.2).2
  · intro sigmoid sigmoid_derivative rand input n slot errors
    obtain ⟨fresh, hf, hde, -, hbd, -, hmin, hmax, -, -⟩ :=
      new_neuron_resilient_state sigmoid sigmoid_derivative rand input n slot errors
    obtain ⟨f2, hf2, -, -, hepl, hemi, -, -⟩ :=
      new_neuron_parameters sigmoid sigmoid_derivative rand input n slot errors
    have e2 : f2 = fresh := Option.some.inj (hf2.symm.trans hf)
    subst e2
    refine ⟨f2, hf, ?_, ?_, ?_, ?_, ?_, ?_, ?_, ?_⟩
    · rw [hmin]; norm_num
    · rw [hmin, hmax]; norm_num
    · rw [hepl]; norm_num
    · rw [hemi]; norm_num
    · rw [hemi]; norm_num
    · intro i
      rw [hde, BrainSignal.rd_replicate_zero, hmax]
      norm_num
    · rw [hbd]
    · rw [hbd, hmax]; norm_num

/-- Witness of C30 on `sample_neuron` with the loss `1`. -/
theorem update_neuron_using_resilient_step_invariant_witness :
    (∃ r, update_neuron_using_resilient (some sample_neuron) 1 = some r ∧
      r._rprop_delta_min = sample_neuron._rprop_delta_min ∧
      r._rprop_delta_max = sample_neuron._rprop_delta_max ∧
      r._rprop_eta_plus = sample_neuron._rprop_eta_plus ∧
      r._rprop_eta_minus = sample_neuron._rprop_eta_minus ∧
      (∀ i, 0 ≤ r._deltas.rd i ∧ r._deltas.rd i ≤ r._rprop_delta_max) ∧
      0 ≤ r._bias_delta ∧ r._bias_delta ≤ r._rprop_delta_max) ∧
    (∀ (sigmoid sigmoid_derivative : ActivationPtrFunc)
      (rand : Nat → BrainReal → BrainReal → BrainReal) (input : BrainSignal) (n : Nat)
      (slot : BrainReal) (errors : BrainSignal),
      ∃ fresh, new_neuron sigmoid sigmoid_derivative rand input (n + 1) (some slot) errors =
          some fresh ∧
        0 ≤ fresh._rprop_delta_min ∧ fresh._rprop_delta_min ≤ fresh._rprop_delta_max ∧
        0 ≤ fresh._rprop_eta_plus ∧ 0 ≤ fresh._rprop_eta_minus ∧
        fresh._rprop_eta_minus ≤ 1 ∧
        (∀ i, 0 ≤ fresh._deltas.rd i ∧ fresh._deltas.rd i ≤ fresh._rprop_delta_max) ∧
        0 ≤ fresh._bias_delta ∧ fresh._bias_delta ≤ fresh._rprop_delta_max) :=
  update_neuron_using_resilient_step_invariant sample_neuron 1
    (by norm_num [sample_neuron]) (by norm_num [sample_neuron]) (by norm_num [sample_neuron])
    (by norm_num [sample_neuron]) (by norm_num [sample_neuron])
    (fun i => by
      have h : sample_neuron._deltas.rd i = 0 ∨ sample_neuron._deltas.rd i = 1 / 2 := by
        rcases Nat.lt_or_ge i 3 with hlt | hge
        · right
          have hcases : i = 0 ∨ i = 1 ∨ i = 2 := by omega
          rcases hcases with h | h | h <;> subst h <;> rfl
        · left
          exact List.getD_eq_default _ _ hge
      rcases h with h | h <;> rw [h] <;> norm_num [sample_neuron])
    (by norm_num [sample_neuron])

/-! ## Relations on the forward pass -/

/-- C27: `activate_layer` changes no learned state.  For every layer and
both values of the flag it returns a layer with as many neurons; a missing
neuron stays missing, and every neuron keeps its weights, bias, per-weight
steps, stored gradients, bias step, bias gradient, the six training
parameters, its three functions and its number of inputs. -/
theorem activate_layer_keeps_learned_state (l : Layer) (flag : Bool) :
    ∃ l1, activate_layer (some l) flag = some l1 ∧
      l1._neurons.length = l._neurons.length ∧
      l1._number_of_neuron = l._number_of_neuron ∧
      ∀ j, (l._neurons.getD j none = none → l1._neurons.getD j none = none) ∧
        ∀ nr, l._neurons.getD j none = some nr →
          ∃ nr1, l1._neurons.getD j none = some nr1 ∧
            nr1._w = nr._w ∧ nr1._bias = nr._bias ∧
            nr1._deltas = nr._deltas ∧ nr1._gradients = nr._gradients ∧
            nr1._bias_delta = nr._bias_delta ∧ nr1._bias_gradient = nr._bias_gradient ∧
            nr1._backprop_learning_rate = nr._backprop_learning_rate ∧
            nr1._backprop_momemtum = nr._backprop_momemtum ∧
            nr1._rprop_eta_plus = nr._rprop_eta_plus ∧
            nr1._rprop_eta_minus = nr._rprop_eta_minus ∧
            nr1._rprop_delta_min = nr._rprop_delta_min ∧
            nr1._rprop_delta_max = nr._rprop_delta_max ∧
            nr1._activation_function = nr._activation_function ∧
            nr1._derivative_function = nr._derivative_function ∧
            nr1._learning_function = nr._learning_function ∧
            nr1._number_of_input = nr._number_of_input := by
  obtain ⟨-, -, -, h4, h5, -, hN, -⟩ := activate_layer_loop flag
    { l with _in_errors := memset_zero l._in_errors l._number_of_neuron } l._number_of_neuron
  refine ⟨_, rfl, h5, h4, ?_⟩
  intro j
  refine ⟨?_, ?_⟩
  · intro hn
    rw [hN j]
    split_ifs
    · have ha : Layer.attach
          { l with _in_errors := memset_zero l._in_errors l._number_of_neuron } j = none := by
        simp only [Layer.attach, hn]
      rw [ha]
      rfl
    · exact hn
  · intro nr hn
    rw [hN j]
    split_ifs
    · have ha : Layer.attach
          { l with _in_errors := memset_zero l._in_errors l._number_of_neuron } j =
          some { nr with _in := l._in, _out := l._out.rd j, _errors := l._out_errors } := by
        simp only [Layer.attach, hn]
      obtain ⟨o, sm, hact⟩ := activate_neuron_frame
        { nr with _in := l._in, _out := l._out.rd j, _errors := l._out_errors } flag
      rw [ha, hact]
      exact ⟨_, rfl, rfl, rfl, rfl, rfl, rfl, rfl, rfl, rfl, rfl, rfl, rfl, rfl, rfl, rfl, rfl,
        rfl⟩
    · exact ⟨nr, hn, rfl, rfl, rfl, rfl, rfl, rfl, rfl, rfl, rfl, rfl, rfl, rfl, rfl, rfl, rfl,
        rfl⟩

/-- Function `activate_neuron` reads neither the output slot nor the stored
sum of the neuron: it overwrites both first. -/
theorem activate_neuron_ignores_out_sum (nr : Neuron) (o s : BrainReal) (flag : Bool) :
    activate_neuron (some { nr with _out := o, _sum := s }) flag =
      activate_neuron (some nr) flag := rfl

/-- Two layers with the same fields are the same layer. -/
theorem Layer.eq_of_fields (a b : Layer)
    (h1 : a._number_of_neuron = b._number_of_neuron) (h2 : a._neurons = b._neurons)
    (h3 : a._in = b._in) (h4 : a._in_errors = b._in_errors) (h5 : a._out = b._out)
    (h6 : a._out_errors = b._out_errors)
    (h7 : a._cost_function_derivative = b._cost_function_derivative) : a = b := by
  cases a
  cases b
  simp only at h1 h2 h3 h4 h5 h6 h7
  subst h1 h2 h3 h4 h5 h6 h7
  rfl

/-- Two arrays of neurons of the same length with the same entries are the
same array. -/
theorem neurons_ext (xs ys : List BrainNeuron) (hl : xs.length = ys.length)
    (h : ∀ j, xs.getD j none = ys.getD j none) : xs = ys := by
  apply List.ext_getElem hl
  intro n h1 h2
  have := h n
  simpa [List.getD_eq_getElem?_getD, h1, h2] using this

/-- The loop of `activate_layer` keeps the cost function of the layer and
does not allocate or free the output vector. -/
theorem activate_layer_loop_frame (flag : Bool) (l : Layer) (k : Nat) :
    (for_loop (activate_layer_body flag) k l)._cost_function_derivative =
      l._cost_function_derivative ∧
    (for_loop (activate_layer_body flag) k l)._out.isSome = l._out.isSome := by
  induction k with
  | zero => exact ⟨rfl, rfl⟩
  | succ k ih =>
    simp only [for_loop, activate_layer_body, Layer.detach]
    split
    · exact ih
    · exact ⟨ih.1, (BrainSignal.isSome_wr _ _ _).trans ih.2⟩

/-- Clearing a buffer twice is clearing it once. -/
theorem memset_zero_twice (s : BrainSignal) (n : Nat) :
    memset_zero (memset_zero s n) n = memset_zero s n := by
  obtain ⟨a1, a2, a3⟩ := memset_zero_spec s n
  obtain ⟨b1, b2, b3⟩ := memset_zero_spec (memset_zero s n) n
  apply BrainSignal.ext_rd b2 b1
  intro j
  rw [b3 j, a1, a3 j]
  split_ifs <;> rfl

/-- A neuron of a layer the forward pass has gone through, wired again to
the same input and error vectors, is activated to the state it is in,
whatever its output slot holds. -/
theorem activate_layer_attach_again (flag : Bool) (l0 l1 : Layer) (n j : Nat) (hj : j < n)
    (hN : l1._neurons = (for_loop (activate_layer_body flag) n l0)._neurons)
    (hI : l1._in = l0._in) (hE : l1._out_errors = l0._out_errors) :
    activate_neuron (l1.attach j) flag = activate_neuron (l0.attach j) flag ∧
    l1._neurons.getD j none = activate_neuron (l0.attach j) flag := by
  have hNj := (activate_layer_loop flag l0 n).2.2.2.2.2.2.1 j
  rw [if_pos hj] at hNj
  rcases Option.eq_none_or_eq_some (l0._neurons.getD j none) with hn | ⟨nr, hn⟩
  · have ha0 : l0.attach j = none := by simp only [Layer.attach, hn]
    rw [ha0] at hNj ⊢
    have hNj2 : (for_loop (activate_layer_body flag) n l0)._neurons.getD j none = none := hNj
    have ha1 : l1.attach j = none := by simp only [Layer.attach, hN, hNj2]
    rw [ha1, hN]
    exact ⟨rfl, hNj⟩
  · have ha0 : l0.attach j =
        some { nr with _in := l0._in, _out := l0._out.rd j, _errors := l0._out_errors } := by
      simp only [Layer.attach, hn]
    obtain ⟨o, sm, hact⟩ := activate_neuron_frame
      { nr with _in := l0._in, _out := l0._out.rd j, _errors := l0._out_errors } flag
    rw [ha0, hact] at hNj
    have ha1 : l1.attach j =
        some { nr with
          _in := l0._in, _out := l1._out.rd j, _errors := l0._out_errors, _sum := sm } := by
      simp only [Layer.attach, hN, hNj, hI, hE]
    rw [ha1, ha0, hN]
    exact ⟨(activate_neuron_ignores_out_sum
      { nr with _in := l0._in, _out := l0._out.rd j, _errors := l0._out_errors }
      (l1._out.rd j) sm flag).trans rfl, hNj.trans hact.symm⟩

/-- C26: the forward pass of a layer is idempotent.  For every layer and
both values of the flag, `activate_layer` run on the layer `activate_layer`
returned, with the same flag, returns that layer again: the same outputs,
stored sums and error accumulator, and the same everything else. -/
theorem activate_layer_idempotent (layer : BrainLayer) (flag : Bool) :
    activate_layer (activate_layer layer flag) flag = activate_layer layer flag := by
  cases layer with
  | none => rfl
  | some l =>
    obtain ⟨a1, a2, a3, a4, a5, a6, aN, aO⟩ := activate_layer_loop flag
      { l with _in_errors := memset_zero l._in_errors l._number_of_neuron } l._number_of_neuron
    obtain ⟨a7, a8⟩ := activate_layer_loop_frame flag
      { l with _in_errors := memset_zero l._in_errors l._number_of_neuron } l._number_of_neuron
    generalize hl1 : for_loop (activate_layer_body flag) l._number_of_neuron
      { l with _in_errors := memset_zero l._in_errors l._number_of_neuron } = l1
      at a1 a2 a3 a4 a5 a6 a7 a8 aN aO
    have e1 : activate_layer (some l) flag = some l1 := by rw [← hl1]; rfl
    rw [e1]
    obtain ⟨b1, b2, b3, b4, b5, b6, bN, bO⟩ := activate_layer_loop flag
      { l1 with _in_errors := memset_zero l1._in_errors l1._number_of_neuron }
      l1._number_of_neuron
    obtain ⟨b7, b8⟩ := activate_layer_loop_frame flag
      { l1 with _in_errors := memset_zero l1._in_errors l1._number_of_neuron }
      l1._number_of_neuron
    have key : ∀ j, j < l1._number_of_neuron →
        activate_neuron (Layer.attach
          { l1 with _in_errors := memset_zero l1._in_errors l1._number_of_neuron } j) flag =
          activate_neuron (Layer.attach
            { l with _in_errors := memset_zero l._in_errors l._number_of_neuron } j) flag ∧
        l1._neurons.getD j none =
          activate_neuron (Layer.attach
            { l with _in_errors := memset_zero l._in_errors l._number_of_neuron } j) flag := by
      intro j hj
      rw [a4] at hj
      exact activate_layer_attach_again flag
        { l with _in_errors := memset_zero l._in_errors l._number_of_neuron }
        { l1 with _in_errors := memset_zero l1._in_errors l1._number_of_neuron }
        l._number_of_neuron j hj (by rw [hl1]) a1 a2
    show some (for_loop (activate_layer_body flag) l1._number_of_neuron
      { l1 with _in_errors := memset_zero l1._in_errors l1._number_of_neuron }) = some l1
    congr 1
    apply Layer.eq_of_fields
    · exact b4
    · apply neurons_ext _ _ b5
      intro j
      rw [bN j]
      split_ifs with hj
      · rw [(key j hj).1, (key j hj).2]
      · rfl
    · exact b1
    · rw [b3]
      show memset_zero l1._in_errors l1._number_of_neuron = l1._in_errors
      rw [a3, a4]
      exact memset_zero_twice _ _
    · apply BrainSignal.ext_rd b8 b6
      intro j
      rw [bO j]
      split_ifs with hj
      · rw [(key j hj.1).1, ← (key j hj.1).2]
        rcases Option.eq_none_or_eq_some (l1._neurons.getD j none) with hn | ⟨nr, hn⟩
        · rw [hn]
        · rw [hn]
          show nr._out = l1._out.rd j
          have hO := aO j
          rw [← (key j hj.1).2, hn] at hO
          have hj2 : j < l._number_of_neuron ∧ j < l._out.len := by
            refine ⟨by rw [← a4]; exact hj.1, ?_⟩
            have := hj.2
            rw [show (Layer._out
              { l1 with _in_errors := memset_zero l1._in_errors l1._number_of_neuron }).len =
              l1._out.len from rfl, a6] at this
            exact this
          rw [if_pos hj2] at hO
          exact hO.symm
      · rfl
    · exact b2
    · exact b7

/-! ## Claims on the persisted form of a neuron -/

/-- The loop of `serialize_neuron`: `m` rounds append the elements
`weight` of the indices `0`, .., `m - 1`, in that order, to the children of
the innermost open element. -/
theorem serialize_neuron_loop (f : Nat → BrainReal) (s : XmlWriter) (n : String)
    (ns : List (String × BrainReal)) (ps : List (String × String)) (cs : List XmlNode)
    (c : Option BrainReal) (rest : List XmlNode)
    (h : s.opened = XmlNode.mk n ns ps cs c :: rest) (m : Nat) :
    for_loop (fun (t : XmlWriter) (k : Nat) => write_element t "weight" (f k)) m s =
      { s with
        opened := XmlNode.mk n ns ps
          (cs ++ (List.range m).map (fun k => XmlNode.mk "weight" [] [] [] (some (f k)))) c ::
          rest } := by
  induction m with
  | zero =>
    cases s
    simp only at h
    subst h
    simp [for_loop]
  | succ m ih =>
    show write_element
      (for_loop (fun (t : XmlWriter) (k : Nat) => write_element t "weight" (f k)) m s)
      "weight" (f m) = _
    rw [ih]
    simp only [write_element, List.range_succ, List.map_append, List.map_cons,
      List.map_nil, List.append_assoc]

/-- The loop of `deserialize_neuron`: `m` rounds store the values of the
indices `0`, .., `m - 1` in the weights the vector has and touch nothing
else. -/
theorem deserialize_neuron_loop (g : Nat → BrainReal) (s : Neuron) (m : Nat) :
    ∃ w, for_loop (fun (t : Neuron) (k : Nat) => { t with _w := t._w.wr k (g k) }) m s =
        { s with _w := w } ∧
      w.len = s._w.len ∧
      ∀ k, w.rd k = if k < m ∧ k < s._w.len then g k else s._w.rd k := by
  induction m with
  | zero => exact ⟨s._w, rfl, rfl, fun k => by simp⟩
  | succ m ih =>
    obtain ⟨w, hw, hl, hr⟩ := ih
    refine ⟨w.wr m (g m), ?_, ?_, ?_⟩
    · simp only [for_loop, hw]
    · rw [BrainSignal.len_wr, hl]
    · intro k
      rw [BrainSignal.rd_wr, hl, hr k]
      by_cases hkm : k = m
      · subst hkm
        by_cases hlt : k < s._w.len
        · simp [hlt]
        · simp [hlt]
      · have hlt : k < m + 1 ↔ k < m := by omega
        simp [hkm, hlt]

/-- The elements `weight` that `serialize_neuron` writes are all found by
their name, at the position they were written at. -/
theorem weight_children_filter (f : Nat → BrainReal) (m : Nat) :
    ((List.range m).map (fun k => XmlNode.mk "weight" [] [] [] (some (f k)))).filter
        (fun c => c.name == "weight") =
      (List.range m).map (fun k => XmlNode.mk "weight" [] [] [] (some (f k))) := by
  rw [List.filter_eq_self]
  intro a ha
  rw [List.mem_map] at ha
  obtain ⟨k, -, rfl⟩ := ha
  simp [XmlNode.name]

/-- What `serialize_neuron` writes for a neuron with weights to a writer
that has not failed: one element `neuron` with the attribute `bias` and the
elements `weight` of the indices below `number_of_input` in their order. -/
theorem serialize_neuron_eq (text : BrainReal → BrainReal) (nr : Neuron) (w : XmlWriter)
    (hb : w.broken = false) (hw : nr._w.isSome = true) :
    serialize_neuron text (some nr) (some w) =
      some (stop_element
        { w with
          opened := XmlNode.mk "neuron" [("bias", text nr._bias)] []
            ((List.range nr._number_of_input).map
              (fun k => XmlNode.mk "weight" [] [] [] (some (text (nr._w.rd k))))) none ::
            w.opened }) := by
  have hs : start_element w "neuron" =
      ({ w with opened := XmlNode.mk "neuron" [] [] [] none :: w.opened }, true) := by
    simp [start_element, hb]
  have hloop := serialize_neuron_loop (fun k => text (nr._w.rd k))
    (add_attribute { w with opened := XmlNode.mk "neuron" [] [] [] none :: w.opened } "bias"
      (text nr._bias))
    "neuron" [("bias", text nr._bias)] [] [] none w.opened rfl nr._number_of_input
  simp only [serialize_neuron, hs, if_true, hw, get_neuron_number_of_input, hloop]
  rfl

/-- Reading the attribute `bias` and the `k`-th element `weight` of the
element `serialize_neuron` writes. -/
theorem serialized_neuron_read (b : BrainReal) (f : Nat → BrainReal) (m : Nat) :
    node_get_double
        (some (XmlNode.mk "neuron" [("bias", b)] []
          ((List.range m).map (fun k => XmlNode.mk "weight" [] [] [] (some (f k)))) none))
        "bias" 0 = b ∧
    get_number_of_node_with_name
        (some (XmlNode.mk "neuron" [("bias", b)] []
          ((List.range m).map (fun k => XmlNode.mk "weight" [] [] [] (some (f k)))) none))
        "weight" = m ∧
    ∀ k, k < m →
      node_get_content_as_double
        (get_node_with_name_and_index
          (some (XmlNode.mk "neuron" [("bias", b)] []
            ((List.range m).map (fun k => XmlNode.mk "weight" [] [] [] (some (f k)))) none))
          "weight" k) = f k := by
  refine ⟨?_, ?_, ?_⟩
  · simp [node_get_double, XmlNode.numbers, List.lookup]
  · simp only [get_number_of_node_with_name, XmlNode.children, weight_children_filter]
    simp
  · intro k hk
    simp only [get_node_with_name_and_index, XmlNode.children, weight_children_filter]
    simp [List.getElem?_range hk, node_get_content_as_double, XmlNode.content, hk]

/-- C22: for a neuron with weights and a writer that has not failed,
`serialize_neuron` opens one element `neuron`, gives it the attribute
`bias` and then the `number_of_input` elements `weight` of the indices `0`,
.., `number_of_input - 1` in that order, and closes it (on a writer with no
open element it becomes the last finished element).  Run on that element
and a neuron with the same number of inputs, `deserialize_neuron` stores the
attribute `bias` as the bias and the `k`-th element `weight` as `w[k]`, so
the bias and every weight come back at the same index, as the numbers
`text` their written form reads back as. -/
theorem serialize_deserialize_neuron (text : BrainReal → BrainReal) (nr target : Neuron)
    (w : XmlWriter) (hb : w.broken = false) (hw : nr._w.isSome = true)
    (hn : target._number_of_input = nr._number_of_input)
    (hl : target._number_of_input ≤ target._w.len) :
    ∃ node r,
      node = XmlNode.mk "neuron" [("bias", text nr._bias)] []
        ((List.range nr._number_of_input).map
          (fun k => XmlNode.mk "weight" [] [] [] (some (text (nr._w.rd k))))) none ∧
      serialize_neuron text (some nr) (some w) =
        some (stop_element { w with opened := node :: w.opened }) ∧
      (w.opened = [] →
        serialize_neuron text (some nr) (some w) =
          some { w with finished := w.finished ++ [node] }) ∧
      deserialize_neuron (some target) (some node) = some r ∧
      r._bias = text nr._bias ∧
      r._w.len = target._w.len ∧
      (∀ k, k < nr._number_of_input → r._w.rd k = text (nr._w.rd k)) ∧
      (∀ k, nr._number_of_input ≤ k → r._w.rd k = target._w.rd k) := by
  obtain ⟨r1, r2, r3⟩ := serialized_neuron_read (text nr._bias) (fun k => text (nr._w.rd k))
    nr._number_of_input
  obtain ⟨w1, hw1, hlen, hrd⟩ := deserialize_neuron_loop
    (fun k => node_get_content_as_double
      (get_node_with_name_and_index
        (some (XmlNode.mk "neuron" [("bias", text nr._bias)] []
          ((List.range nr._number_of_input).map
            (fun k => XmlNode.mk "weight" [] [] [] (some (text (nr._w.rd k))))) none))
        "weight" k))
    { target with _bias := text nr._bias } nr._number_of_input
  refine ⟨_, { target with _bias := text nr._bias, _w := w1 }, rfl,
    serialize_neuron_eq text nr w hb hw, ?_, ?_, rfl, hlen, ?_, ?_⟩
  · intro ho
    rw [serialize_neuron_eq text nr w hb hw]
    cases w
    simp only at ho
    subst ho
    rfl
  · simp only [deserialize_neuron, r1, r2]
    rw [hw1]
  · intro k hk
    have hk2 : k < target._w.len := by omega
    rw [show (BrainSignal.rd ({ target with _bias := text nr._bias, _w := w1 } : Neuron)._w k) =
      w1.rd k from rfl, hrd k]
    rw [if_pos ⟨hk, hk2⟩]
    exact r3 k hk
  · intro k hk
    rw [show (BrainSignal.rd ({ target with _bias := text nr._bias, _w := w1 } : Neuron)._w k) =
      w1.rd k from rfl, hrd k]
    have hnk : ¬ (k < nr._number_of_input ∧
        k < ({ target with _bias := text nr._bias } : Neuron)._w.len) := by
      intro h
      omega
    rw [if_neg hnk]

/-- Witness of C22: `sample_neuron` written to `sample_writer` and read back
into `sample_target_neuron`, with a written form that reads back exactly. -/
theorem serialize_deserialize_neuron_witness :
    sample_writer.broken = false ∧ sample_neuron._w.isSome = true ∧
    sample_target_neuron._number_of_input = sample_neuron._number_of_input ∧
    sample_target_neuron._number_of_input ≤ sample_target_neuron._w.len ∧
    ∃ node r,
      node = XmlNode.mk "neuron" [("bias", id sample_neuron._bias)] []
        ((List.range sample_neuron._number_of_input).map
          (fun k => XmlNode.mk "weight" [] [] [] (some (id (sample_neuron._w.rd k))))) none ∧
      serialize_neuron id (some sample_neuron) (some sample_writer) =
        some (stop_element { sample_writer with opened := node :: sample_writer.opened }) ∧
      (sample_writer.opened = [] →
        serialize_neuron id (some sample_neuron) (some sample_writer) =
          some { sample_writer with finished := sample_writer.finished ++ [node] }) ∧
      deserialize_neuron (some sample_target_neuron) (some node) = some r ∧
      r._bias = id sample_neuron._bias ∧
      r._w.len = sample_target_neuron._w.len ∧
      (∀ k, k < sample_neuron._number_of_input → r._w.rd k = id (sample_neuron._w.rd k)) ∧
      (∀ k, sample_neuron._number_of_input ≤ k → r._w.rd k = sample_target_neuron._w.rd k) :=
  ⟨rfl, rfl, rfl, by decide,
    serialize_deserialize_neuron id sample_neuron sample_target_neuron sample_writer rfl rfl rfl
      (by decide)⟩

/-! ## Claims on the steps of the resilient rule at a zero product -/

/-- C32: in `update_neuron_using_resilient`, for every weight `i` below
`number_of_input` whose product `gradients[i] * g`, with
`g = gradient * in[i]`, is zero at the call, the step `deltas[i]` is `0`
after the call, and when `bias_gradient * gradient` is zero the bias step
`bias_delta` is `0` after the call, whatever the steps were before. -/
theorem update_neuron_using_resilient_zero_product_step (nr : Neuron) (loss : BrainReal)
    (derivative : BrainReal → BrainReal)
    (hd : nr._derivative_function = some derivative) :
    ∃ r, update_neuron_using_resilient (some nr) loss = some r ∧
      (∀ i, i < nr._number_of_input → i < nr._deltas.len →
        nr._gradients.rd i * (loss * derivative nr._sum * nr._in.rd i) = 0 →
        r._deltas.rd i = 0) ∧
      (nr._bias_gradient * (loss * derivative nr._sum) = 0 → r._bias_delta = 0) := by
  obtain ⟨r, hr, hs, -⟩ := update_neuron_using_resilient_slots nr loss derivative hd
  obtain ⟨r2, hr2, hbd, -⟩ := update_neuron_using_resilient_bias_delta nr loss derivative hd
  have e2 : r2 = r := Option.some.inj (hr2.symm.trans hr)
  subst e2
  refine ⟨r2, hr, ?_, ?_⟩
  · intro i hi hil hp
    rw [(hs i).2.1, if_pos ⟨hi, hil⟩, rprop_locals_zero _ _ _ _ _ _ _ hp]
  · intro hp
    rw [hbd, rprop_locals_zero _ _ _ _ _ _ _ hp]

/-- Witness of C32 on `sample_neuron` with the loss `1`: the stored
gradient of weight `2` and of the bias is `0`, and both steps go from `1/2`
to `0`. -/
theorem update_neuron_using_resilient_zero_product_step_witness :
    sample_neuron._derivative_function = some (fun _ => 1) ∧
    sample_neuron._deltas.rd 2 = 1 / 2 ∧ sample_neuron._bias_delta = 1 / 2 ∧
    ∃ r, update_neuron_using_resilient (some sample_neuron) 1 = some r ∧
      (∀ i, i < sample_neuron._number_of_input → i < sample_neuron._deltas.len →
        sample_neuron._gradients.rd i *
          (1 * (fun _ => 1) sample_neuron._sum * sample_neuron._in.rd i) = 0 →
        r._deltas.rd i = 0) ∧
      (sample_neuron._bias_gradient * (1 * (fun _ => 1) sample_neuron._sum) = 0 →
        r._bias_delta = 0) :=
  ⟨rfl, rfl, rfl,
    update_neuron_using_resilient_zero_product_step sample_neuron 1 (fun _ => 1) rfl⟩

/-- The locals of the resilient rule for a step `0` and a gradient that has
the sign the stored gradient has, or any sign when the stored gradient is
`0`: the step stays `0` and the correction is `0`. -/
theorem rprop_locals_stuck (ep em dmin dmax prev g sign : BrainReal)
    (h0 : 0 ≤ dmax) (hs : sign * sign = 1) (hp : 0 ≤ sign * prev) (hg : 0 < sign * g) :
    rprop_locals ep em dmin dmax prev 0 g = (0, 0, g) := by
  have hprod : prev * g = (sign * prev) * (sign * g) := by
    have : (sign * prev) * (sign * g) = (sign * sign) * (prev * g) := by ring
    rw [this, hs, one_mul]
  have hnn : 0 ≤ prev * g := by
    rw [hprod]
    exact mul_nonneg hp (le_of_lt hg)
  rcases lt_or_eq_of_le hnn with hpos | hzero
  · rw [rprop_locals_pos _ _ _ _ _ _ _ hpos]
    have hmin : MIN (0 * ep) dmax = 0 := by
      rw [MIN_eq_min, zero_mul]
      exact min_eq_left h0
    rw [hmin]
    simp
  · rw [rprop_locals_zero _ _ _ _ _ _ _ hzero.symm]
    simp

/-- One call of `update_neuron_using_resilient` on a weight whose step is
`0` and whose gradient has the sign of the stored one: the weight and the
step stay, and the stored gradient takes the sign of the gradient. -/
theorem update_neuron_using_resilient_stuck_step (s : Neuron) (loss : BrainReal)
    (derivative : BrainReal → BrainReal) (i : Nat) (sign : BrainReal)
    (hd : s._derivative_function = some derivative)
    (h0 : 0 ≤ s._rprop_delta_max) (hs : sign * sign = 1)
    (hdl : s._deltas.rd i = 0) (hp : 0 ≤ sign * s._gradients.rd i)
    (hg : 0 < sign * (loss * derivative s._sum * s._in.rd i)) :
    ∃ r, update_neuron_using_resilient (some s) loss = some r ∧
      r._w.rd i = s._w.rd i ∧ r._deltas.rd i = 0 ∧ 0 ≤ sign * r._gradients.rd i ∧
      r._derivative_function = some derivative ∧ r._sum = s._sum ∧ r._in = s._in ∧
      r._rprop_delta_max = s._rprop_delta_max := by
  obtain ⟨r, hr, hsl, -⟩ := update_neuron_using_resilient_slots s loss derivative hd
  obtain ⟨b, bd, bg, w, dl, gr, e, hfr⟩ := update_neuron_using_resilient_frame s loss
  have hfr2 : r = { s with
      _bias := b, _bias_delta := bd, _bias_gradient := bg
      _w := w, _deltas := dl, _gradients := gr, _errors := e } :=
    Option.some.inj (hr.symm.trans hfr)
  have f1 : r._derivative_function = s._derivative_function := by rw [hfr2]
  have f2 : r._sum = s._sum := by rw [hfr2]
  have f3 : r._in = s._in := by rw [hfr2]
  have f4 : r._rprop_delta_max = s._rprop_delta_max := by rw [hfr2]
  obtain ⟨sw, sd, sg, -⟩ := hsl i
  rw [hdl, rprop_locals_stuck _ _ _ _ _ _ sign h0 hs hp hg] at sw sd sg
  refine ⟨r, hr, ?_, ?_, ?_, f1.trans hd, f2, f3, f4⟩
  · rw [sw]
    split_ifs <;> simp
  · rw [sd]
    split_ifs <;> rfl
  · rw [sg]
    split_ifs
    · exact le_of_lt hg
    · exact hp

/-- A sequence of calls of `update_neuron_using_resilient` on a weight whose
step is `0`, with gradients of one sign. -/
theorem update_neuron_using_resilient_stuck_sequence (derivative : BrainReal → BrainReal)
    (i : Nat) (sign : BrainReal) (hs : sign * sign = 1) (losses : List BrainReal) :
    ∀ s : Neuron, s._derivative_function = some derivative → 0 ≤ s._rprop_delta_max →
      s._deltas.rd i = 0 → 0 ≤ sign * s._gradients.rd i →
      (∀ l ∈ losses, 0 < sign * (l * derivative s._sum * s._in.rd i)) →
      ∃ r, losses.foldl update_neuron_using_resilient (some s) = some r ∧
        r._w.rd i = s._w.rd i ∧ r._deltas.rd i = 0 := by
  induction losses with
  | nil =>
    intro s _ _ hdl _ _
    exact ⟨s, rfl, rfl, hdl⟩
  | cons l ls ih =>
    intro s hd h0 hdl hp hg
    obtain ⟨r1, hr1, hw1, hd1, hp1, hder1, hsum1, hin1, hmax1⟩ :=
      update_neuron_using_resilient_stuck_step s l derivative i sign hd h0 hs hdl hp
        (hg l (List.mem_cons_self _ _))
    obtain ⟨r, hr, hw, hdr⟩ := ih r1 hder1 (by rw [hmax1]; exact h0) hd1 hp1
      (by
        intro l2 hl2
        rw [hsum1, hin1]
        exact hg l2 (List.mem_cons_of_mem _ hl2))
    refine ⟨r, ?_, hw.trans hw1, hdr⟩
    rw [List.foldl_cons, hr1]
    exact hr

/-- C31: take a neuron with a derivative function, `delta_max ≥ 0`, and the
step `deltas[i]` and the stored gradient `gradients[i]` of weight `i` both
`0`, and a sequence of losses for which `g = gradient * in[i]` is strictly
positive at every call, or strictly negative at every call.  After every
call of the sequence of `update_neuron_using_resilient` calls, `w[i]` has its
initial value and `deltas[i]` is `0`.  A neuron built by `new_neuron` has
all steps and stored gradients `0` and `delta_max = 50`. -/
theorem update_neuron_using_resilient_zero_step_stuck (nr : Neuron)
    (derivative : BrainReal → BrainReal) (i : Nat) (losses : List BrainReal)
    (hd : nr._derivative_function = some derivative)
    (h0 : 0 ≤ nr._rprop_delta_max)
    (hdl : nr._deltas.rd i = 0) (hgr : nr._gradients.rd i = 0)
    (hsign : (∀ l ∈ losses, 0 < l * derivative nr._sum * nr._in.rd i) ∨
      (∀ l ∈ losses, l * derivative nr._sum * nr._in.rd i < 0)) :
    (∀ k, ∃ r, (losses.take k).foldl update_neuron_using_resilient (some nr) = some r ∧
      r._w.rd i = nr._w.rd i ∧ r._deltas.rd i = 0) ∧
    (∀ (sigmoid sigmoid_derivative : ActivationPtrFunc)
      (rand : Nat → BrainReal → BrainReal → BrainReal) (input : BrainSignal) (n : Nat)
      (slot : BrainReal) (errors : BrainSignal),
      ∃ fresh, new_neuron sigmoid sigmoid_derivative rand input (n + 1) (some slot) errors =
          some fresh ∧
        (∀ j, fresh._deltas.rd j = 0 ∧ fresh._gradients.rd j = 0) ∧
        0 ≤ fresh._rprop_delta_max) := by
  refine ⟨?_, ?_⟩
  · intro k
    rcases hsign with hpos | hneg
    · refine update_neuron_using_resilient_stuck_sequence derivative i 1 (by norm_num)
        (losses.take k) nr hd h0 hdl (by rw [hgr]; norm_num) ?_
      intro l hl
      rw [one_mul]
      exact hpos l (List.mem_of_mem_take hl)
    · refine update_neuron_using_resilient_stuck_sequence derivative i (-1) (by norm_num)
        (losses.take k) nr hd h0 hdl (by rw [hgr]; norm_num) ?_
      intro l hl
      have := hneg l (List.mem_of_mem_take hl)
      linarith
  · intro sigmoid sigmoid_derivative rand input n slot errors
    obtain ⟨fresh, hf, hde, hgrad, -, -, -, hmax, -, -⟩ :=
      new_neuron_resilient_state sigmoid sigmoid_derivative rand input n slot errors
    refine ⟨fresh, hf, ?_, ?_⟩
    · intro j
      rw [hde, hgrad, BrainSignal.rd_replicate_zero]
      exact ⟨rfl, rfl⟩
    · rw [hmax]
      norm_num

/-- Witness of C31 on `sample_zero_step_neuron`, weight `0`, whose input is
`1`, with the losses `1`, `2` and `3`. -/
theorem update_neuron_using_resilient_zero_step_stuck_witness :
    (∀ k, ∃ r, (([1, 2, 3] : List BrainReal).take k).foldl update_neuron_using_resilient
        (some sample_zero_step_neuron) = some r ∧
      r._w.rd 0 = sample_zero_step_neuron._w.rd 0 ∧ r._deltas.rd 0 = 0) ∧
    (∀ (sigmoid sigmoid_derivative : ActivationPtrFunc)
      (rand : Nat → BrainReal → BrainReal → BrainReal) (input : BrainSignal) (n : Nat)
      (slot : BrainReal) (errors : BrainSignal),
      ∃ fresh, new_neuron sigmoid sigmoid_derivative rand input (n + 1) (some slot) errors =
          some fresh ∧
        (∀ j, fresh._deltas.rd j = 0 ∧ fresh._gradients.rd j = 0) ∧
        0 ≤ fresh._rprop_delta_max) :=
  update_neuron_using_resilient_zero_step_stuck sample_zero_step_neuron (fun _ => 1) 0
    [1, 2, 3] rfl (by norm_num [sample_zero_step_neuron, sample_neuron]) rfl rfl
    (Or.inl (by
      intro l hl
      simp only [List.mem_cons, List.mem_singleton, List.not_mem_nil, or_false] at hl
      rcases hl with h | h | h <;> subst h <;>
        norm_num [sample_zero_step_neuron, sample_neuron, BrainSignal.rd]))

/-! ## Claims on the bounds of the persisted weights -/

/-- The indices a loop of `k` rounds collects are `0`, .., `k - 1`. -/
theorem for_loop_collect (k : Nat) :
    for_loop (fun (written : List Nat) (index : Nat) => written ++ [index]) k [] =
      List.range k := by
  induction k with
  | zero => rfl
  | succ k ih =>
    show for_loop (fun (written : List Nat) (index : Nat) => written ++ [index]) k [] ++ [k] = _
    rw [ih, List.range_succ]

/-- C33 on the code: `deserialize_neuron` writes `w[index]` for every
`index` below the number of elements `weight` of the tree, whatever the
number of inputs of the neuron is.  For `sample_one_input_neuron`, whose
weight vector has one entry, and `sample_two_weight_context` it writes the
indices `0` and `1`, and `1` is not below `number_of_input`. -/
theorem deserialize_neuron_writes_unbounded :
    (∀ (nr : Neuron) (node : XmlNode),
      deserialize_neuron_writes (some nr) (some node) =
        List.range (get_number_of_node_with_name (some node) "weight")) ∧
    sample_one_input_neuron._number_of_input = 1 ∧
    sample_one_input_neuron._w.len = 1 ∧
    get_number_of_node_with_name (some sample_two_weight_context) "weight" = 2 ∧
    deserialize_neuron_writes (some sample_one_input_neuron)
      (some sample_two_weight_context) = [0, 1] ∧
    ¬ (∀ index ∈ deserialize_neuron_writes (some sample_one_input_neuron)
        (some sample_two_weight_context),
      index < sample_one_input_neuron._number_of_input) := by
  have hn : get_number_of_node_with_name (some sample_two_weight_context) "weight" = 2 := by
    simp [get_number_of_node_with_name, sample_two_weight_context, XmlNode.children,
      XmlNode.name]
  have hw : deserialize_neuron_writes (some sample_one_input_neuron)
      (some sample_two_weight_context) = [0, 1] := by
    simp only [deserialize_neuron_writes, hn]
    rfl
  refine ⟨?_, rfl, rfl, hn, hw, ?_⟩
  · intro nr node
    simp only [deserialize_neuron_writes]
    exact for_loop_collect _
  · intro h
    have h1 := h 1 (by rw [hw]; simp)
    exact absurd h1 (by decide)

/-! ## Claims on the accessors of the builder neuron -/

/-- C34 does not hold as stated.  In `sample_builder_neuron`, which has two
inputs, `set_neuron_weight` accepts the index `2 = number_of_input` and
stores the value `7` in `w[2]`, and `get_neuron_weight` called right after
with the index `2` returns `0`, not `7`. -/
theorem builder_get_neuron_weight_bias_slot :
    sample_builder_neuron._number_of_input = 2 ∧
    (∃ r, Builder.set_neuron_weight (some sample_builder_neuron) 2 7 = some r ∧
      r._w = some [1 / 2, -1 / 2, 7]) ∧
    Builder.get_neuron_weight (Builder.set_neuron_weight (some sample_builder_neuron) 2 7) 2 =
      0 ∧
    Builder.get_neuron_weight (Builder.set_neuron_weight (some sample_builder_neuron) 2 7) 2 ≠
      7 := by
  have h : Builder.get_neuron_weight
      (Builder.set_neuron_weight (some sample_builder_neuron) 2 7) 2 = 0 := by
    simp [Builder.get_neuron_weight, Builder.set_neuron_weight, sample_builder_neuron]
  refine ⟨rfl, ⟨_, rfl, ?_⟩, h, ?_⟩
  · simp [sample_builder_neuron, BrainSignal.wr]
  · rw [h]
    norm_num

/-- C34 as the code has it: in the builder neuron, for every index `i` with
`0 ≤ i < number_of_input` and every value `v`, `get_neuron_weight` called
right after `set_neuron_weight(neuron, i, v)` returns `v`; and for every index
`set_neuron_weight` accepts, `0 ≤ i ≤ number_of_input`, the weight `w[i]` holds
`v` after the call and every other weight is unchanged. -/
theorem builder_set_get_neuron_weight (nr : Builder.Neuron) (v : BrainReal)
    (hw : (nr._number_of_input + 1).toNat ≤ nr._w.len) :
    (∀ i : Int, 0 ≤ i → i < nr._number_of_input →
      Builder.get_neuron_weight (Builder.set_neuron_weight (some nr) i v) i = v) ∧
    (∀ i : Int, 0 ≤ i → i ≤ nr._number_of_input →
      ∃ r, Builder.set_neuron_weight (some nr) i v = some r ∧
        r._w.rd i.toNat = v ∧ r._w.len = nr._w.len ∧
        ∀ j : Nat, j ≠ i.toNat → r._w.rd j = nr._w.rd j) := by
  refine ⟨?_, ?_⟩
  · intro i h0 h1
    have hset : 0 ≤ i ∧ i < nr._number_of_input + 1 := ⟨h0, by omega⟩
    have hlen : i.toNat < nr._w.len := by omega
    simp only [Builder.set_neuron_weight, if_pos hset, Builder.get_neuron_weight]
    rw [if_pos ⟨h0, h1⟩, BrainSignal.rd_wr]
    simp [hlen]
  · intro i h0 h1
    have hset : 0 ≤ i ∧ i < nr._number_of_input + 1 := ⟨h0, by omega⟩
    have hlen : i.toNat < nr._w.len := by omega
    simp only [Builder.set_neuron_weight, if_pos hset]
    refine ⟨_, rfl, ?_, BrainSignal.len_wr _ _ _, ?_⟩
    · show (nr._w.wr i.toNat v).rd i.toNat = v
      rw [BrainSignal.rd_wr]
      simp [hlen]
    · intro j hj
      show (nr._w.wr i.toNat v).rd j = nr._w.rd j
      rw [BrainSignal.rd_wr]
      simp [hj]

/-- Witness of the amended C34 on `sample_builder_neuron` and the value `7`. -/
theorem builder_set_get_neuron_weight_witness :
    (sample_builder_neuron._number_of_input + 1).toNat ≤ sample_builder_neuron._w.len ∧
    (∀ i : Int, 0 ≤ i → i < sample_builder_neuron._number_of_input →
      Builder.get_neuron_weight (Builder.set_neuron_weight (some sample_builder_neuron) i 7) i =
        7) ∧
    (∀ i : Int, 0 ≤ i → i ≤ sample_builder_neuron._number_of_input →
      ∃ r, Builder.set_neuron_weight (some sample_builder_neuron) i 7 = some r ∧
        r._w.rd i.toNat = 7 ∧ r._w.len = sample_builder_neuron._w.len ∧
        ∀ j : Nat, j ≠ i.toNat → r._w.rd j = sample_builder_neuron._w.rd j) :=
  ⟨by decide, builder_set_get_neuron_weight sample_builder_neuron 7 (by decide)⟩

/-! ## Claims on the forward and backward steps of the builder neuron -/

/-- The loop of the builder `activate_neuron` adds the products
`in[j] * w[j]`, `j < k`, to the sum. -/
theorem Builder.activate_sum_loop (nr : Builder.Neuron) (k : Nat) (s : BrainReal) :
    for_loop (fun (sum : BrainReal) (j : Nat) => sum + nr._in.rd j * nr._w.rd j) k s =
      s + ∑ j in Finset.range k, nr._in.rd j * nr._w.rd j := by
  induction k with
  | zero => simp [for_loop]
  | succ k ih =>
    show for_loop (fun (sum : BrainReal) (j : Nat) => sum + nr._in.rd j * nr._w.rd j) k s +
      nr._in.rd k * nr._w.rd k = _
    rw [ih, Finset.sum_range_succ]
    ring

/-- The state the builder `activate_neuron` returns for a neuron with an
activation function. -/
theorem Builder.activate_neuron_eq (nr : Builder.Neuron) (activation : BrainReal → BrainReal)
    (ha : nr._activation = some activation) :
    Builder.activate_neuron (some nr) =
      some (some { nr with
        _out :=
          (if activation (∑ j in Finset.range (nr._number_of_input + 1).toNat,
              nr._in.rd j * nr._w.rd j) > 0 then 1 else 0) -
          (if activation (∑ j in Finset.range (nr._number_of_input + 1).toNat,
              nr._in.rd j * nr._w.rd j) < 0 then 1 else 0)
        _delta := 0 }) := by
  simp only [Builder.activate_neuron, ha, Builder.activate_sum_loop, zero_add]

/-- C36: for a builder neuron with an activation function, after
`activate_neuron` the value `get_neuron_output` returns is the sign of
`activation(Σ j ≤ number_of_input, in[j] * w[j])`, one of `-1`, `0` and `1`,
and the accumulated delta is `0`; nothing else of the neuron changes. -/
theorem builder_activate_neuron_sign (nr : Builder.Neuron)
    (activation : BrainReal → BrainReal) (ha : nr._activation = some activation) :
    ∃ r, Builder.activate_neuron (some nr) = some (some r) ∧
      Builder.get_neuron_output (some r) =
        (if 0 < activation (∑ j in Finset.range (nr._number_of_input + 1).toNat,
            nr._in.rd j * nr._w.rd j) then 1
          else if activation (∑ j in Finset.range (nr._number_of_input + 1).toNat,
            nr._in.rd j * nr._w.rd j) < 0 then -1
          else 0) ∧
      (Builder.get_neuron_output (some r) = -1 ∨ Builder.get_neuron_output (some r) = 0 ∨
        Builder.get_neuron_output (some r) = 1) ∧
      r._delta = 0 ∧
      r = { nr with _out := Builder.get_neuron_output (some r), _delta := 0 } := by
  refine ⟨_, Builder.activate_neuron_eq nr activation ha, ?_, ?_, rfl, rfl⟩
  · simp only [Builder.get_neuron_output, gt_iff_lt]
    rcases lt_trichotomy
      (activation (∑ j in Finset.range (nr._number_of_input + 1).toNat,
        nr._in.rd j * nr._w.rd j)) 0 with h | h | h
    · have h2 : ¬ 0 < activation (∑ j in Finset.range (nr._number_of_input + 1).toNat,
          nr._in.rd j * nr._w.rd j) := not_lt.mpr (le_of_lt h)
      simp [h, h2]
    · simp [h]
    · have h2 : ¬ activation (∑ j in Finset.range (nr._number_of_input + 1).toNat,
          nr._in.rd j * nr._w.rd j) < 0 := not_lt.mpr (le_of_lt h)
      simp [h, h2]
  · simp only [Builder.get_neuron_output, gt_iff_lt]
    rcases lt_trichotomy
      (activation (∑ j in Finset.range (nr._number_of_input + 1).toNat,
        nr._in.rd j * nr._w.rd j)) 0 with h | h | h
    · have h2 : ¬ 0 < activation (∑ j in Finset.range (nr._number_of_input + 1).toNat,
          nr._in.rd j * nr._w.rd j) := not_lt.mpr (le_of_lt h)
      left
      simp [h, h2]
    · right; left
      simp [h]
    · have h2 : ¬ activation (∑ j in Finset.range (nr._number_of_input + 1).toNat,
          nr._in.rd j * nr._w.rd j) < 0 := not_lt.mpr (le_of_lt h)
      right; right
      simp [h, h2]

/-- Witness of C36 on `sample_builder_neuron`, whose activation is the
identity. -/
theorem builder_activate_neuron_sign_witness :
    sample_builder_neuron._activation = some (fun x => x) ∧
    ∃ r, Builder.activate_neuron (some sample_builder_neuron) = some (some r) ∧
      Builder.get_neuron_output (some r) =
        (if 0 < (fun (x : BrainReal) => x)
            (∑ j in Finset.range (sample_builder_neuron._number_of_input + 1).toNat,
              sample_builder_neuron._in.rd j * sample_builder_neuron._w.rd j) then 1
          else if (fun (x : BrainReal) => x)
            (∑ j in Finset.range (sample_builder_neuron._number_of_input + 1).toNat,
              sample_builder_neuron._in.rd j * sample_builder_neuron._w.rd j) < 0 then -1
          else 0) ∧
      (Builder.get_neuron_output (some r) = -1 ∨ Builder.get_neuron_output (some r) = 0 ∨
        Builder.get_neuron_output (some r) = 1) ∧
      r._delta = 0 ∧
      r = { sample_builder_neuron with
        _out := Builder.get_neuron_output (some r), _delta := 0 } :=
  ⟨rfl, builder_activate_neuron_sign sample_builder_neuron (fun x => x) rfl⟩

/-- A sequence of `append_neuron_delta` calls on a builder neuron with a
derivative function: every call returns, the output is kept, and the delta
grows by `derivative(out)` times the sum of the values. -/
theorem Builder.append_neuron_delta_sequence (derivative : BrainReal → BrainReal)
    (ds : List BrainReal) :
    ∀ s : Builder.Neuron, s._derivative = some derivative →
      ds.foldlM Builder.append_neuron_delta (some s) =
        some (some { s with _delta := s._delta + derivative s._out * ds.sum }) := by
  induction ds with
  | nil =>
    intro s _
    simp
  | cons d ds ih =>
    intro s hd
    have h1 : Builder.append_neuron_delta (some s) d =
        some (some { s with _delta := s._delta + derivative s._out * d }) := by
      simp only [Builder.append_neuron_delta, hd]
    rw [List.foldlM_cons, h1]
    show ds.foldlM Builder.append_neuron_delta
      (some { s with _delta := s._delta + derivative s._out * d }) = _
    rw [ih { s with _delta := s._delta + derivative s._out * d } hd]
    simp only [List.sum_cons]
    congr 3
    ring

/-- In exact arithmetic, where no sum or product is rounded: for a builder
neuron with an activation and a derivative function, after `activate_neuron`
followed by the `append_neuron_delta` calls with the values of `ds`, the
output is the one `activate_neuron` left, the delta is `derivative(out)` times
the sum of the values, `get_neuron_weighted_delta` returns that delta times
`w[index]` for `0 ≤ index < number_of_input` and `0` for every other index,
and the calls in any other order leave the same neuron.  The functions in
rounded arithmetic are `Builder.activate_neuron_rounded` and
`Builder.append_neuron_delta_rounded`. -/
theorem builder_append_neuron_delta_sum (nr : Builder.Neuron)
    (activation derivative : BrainReal → BrainReal)
    (ha : nr._activation = some activation) (hd : nr._derivative = some derivative)
    (ds : List BrainReal) :
    ∃ a r, Builder.activate_neuron (some nr) = some (some a) ∧
      ds.foldlM Builder.append_neuron_delta (some a) = some (some r) ∧
      r._out = a._out ∧
      r._delta = derivative a._out * ds.sum ∧
      (∀ index : Int, Builder.get_neuron_weighted_delta (some r) index =
        if 0 ≤ index ∧ index < nr._number_of_input then
          derivative a._out * ds.sum * nr._w.rd index.toNat
        else 0) ∧
      (∀ ds2 : List BrainReal, ds2.Perm ds →
        ds2.foldlM Builder.append_neuron_delta (some a) = some (some r)) := by
  obtain ⟨a, hact, hda, hwa, hna, hza⟩ : ∃ a : Builder.Neuron,
      Builder.activate_neuron (some nr) = some (some a) ∧ a._derivative = some derivative ∧
      a._w = nr._w ∧ a._number_of_input = nr._number_of_input ∧ a._delta = 0 :=
    ⟨_, Builder.activate_neuron_eq nr activation ha, hd, rfl, rfl, rfl⟩
  have hseq := fun (l : List BrainReal) => Builder.append_neuron_delta_sequence derivative l a hda
  refine ⟨a, _, hact, hseq ds, rfl, ?_, ?_, ?_⟩
  · show a._delta + derivative a._out * ds.sum = _
    rw [hza, zero_add]
  · intro index
    simp only [Builder.get_neuron_weighted_delta, hza, zero_add, hwa, hna]
  · intro ds2 hp
    rw [hseq ds2, hp.sum_eq]

/-! ## Claims on the bias input of the builder neuron -/

/-- The loop of `set_neuron_input`: `m` rounds copy the entries `0`, ..,
`m - 1` of the signal into the input buffer and touch nothing else. -/
theorem Builder.set_neuron_input_loop (input : BrainSignal) (s : Builder.Neuron) (m : Nat) :
    ∃ b, for_loop
        (fun (t : Builder.Neuron) (k : Nat) => { t with _in := t._in.wr k (input.rd k) })
        m s = { s with _in := b } ∧
      b.len = s._in.len ∧
      ∀ j, b.rd j = if j < m ∧ j < s._in.len then input.rd j else s._in.rd j := by
  induction m with
  | zero => exact ⟨s._in, rfl, rfl, fun j => by simp⟩
  | succ m ih =>
    obtain ⟨b, hb, hl, hr⟩ := ih
    refine ⟨b.wr m (input.rd m), ?_, ?_, ?_⟩
    · show (fun (t : Builder.Neuron) (k : Nat) => { t with _in := t._in.wr k (input.rd k) })
        (for_loop
          (fun (t : Builder.Neuron) (k : Nat) => { t with _in := t._in.wr k (input.rd k) })
          m s) m = _
      rw [hb]
    · rw [BrainSignal.len_wr, hl]
    · intro j
      rw [BrainSignal.rd_wr, hl, hr j]
      by_cases hjm : j = m
      · subst hjm
        by_cases hlt : j < s._in.len
        · simp [hlt]
        · simp [hlt]
      · have hlt : j < m + 1 ↔ j < m := by omega
        simp [hjm, hlt]

/-- The loop of the builder `update_neuron` keeps the two function
pointers. -/
theorem Builder.update_neuron_loop_pointers (s : Builder.Neuron) (k : Nat) :
    (for_loop Builder.update_neuron_body k s)._activation = s._activation ∧
    (for_loop Builder.update_neuron_body k s)._derivative = s._derivative := by
  induction k with
  | zero => exact ⟨rfl, rfl⟩
  | succ k ih => exact ih

/-- The loop of `new_neuron_from_context` that draws the weights keeps the
inputs, the number of inputs and the two function pointers. -/
theorem Builder.new_neuron_from_context_loop (f : Nat → BrainReal) (s : Builder.Neuron)
    (k : Nat) :
    (for_loop
      (fun (t : Builder.Neuron) (index : Nat) => { t with _w := t._w.wr index (f index) })
      k s)._in = s._in ∧
    (for_loop
      (fun (t : Builder.Neuron) (index : Nat) => { t with _w := t._w.wr index (f index) })
      k s)._number_of_input = s._number_of_input := by
  induction k with
  | zero => exact ⟨rfl, rfl⟩
  | succ k ih => exact ih

/-- The neuron `new_neuron_from_context` builds from a node `neuron`: its
bias input is `-1`. -/
theorem Builder.new_neuron_from_context_bias_input (get_activation_type : Option String → Nat)
    (activation derivative : Nat → ActivationPtrFunc) (rand : Nat → BrainReal)
    (junk : Nat → Nat → BrainReal) (node : XmlNode) (hname : node.name = "neuron")
    (h0 : 0 ≤ node_get_int (some node) "input" 0) :
    ∃ fresh, Builder.new_neuron_from_context get_activation_type activation derivative rand
        junk (some node) = some fresh ∧
      fresh._number_of_input = node_get_int (some node) "input" 0 ∧
      fresh._in.len = (fresh._number_of_input + 1).toNat ∧
      fresh._in.rd fresh._number_of_input.toNat = -1 := by
  have hn : is_node_with_name (some node) "neuron" = true := by
    simp [is_node_with_name, hname]
  unfold Builder.new_neuron_from_context
  simp only [Option.isSome_some, Bool.not_true, hn, Bool.or_self, Bool.false_eq_true, if_false]
  refine ⟨_, rfl, ?_, ?_, ?_⟩
  · rw [(Builder.new_neuron_from_context_loop _ _ _).2]
  · rw [(Builder.new_neuron_from_context_loop _ _ _).1,
      (Builder.new_neuron_from_context_loop _ _ _).2]
    show (BrainSignal.wr
      (some ((List.range (node_get_int (some node) "input" 0 + 1).toNat).map (junk 0)))
      (node_get_int (some node) "input" 0).toNat (-1)).len =
        (node_get_int (some node) "input" 0 + 1).toNat
    rw [BrainSignal.len_wr]
    simp only [BrainSignal.len, List.length_map, List.length_range]
  · rw [(Builder.new_neuron_from_context_loop _ _ _).1,
      (Builder.new_neuron_from_context_loop _ _ _).2]
    show (BrainSignal.wr
      (some ((List.range (node_get_int (some node) "input" 0 + 1).toNat).map (junk 0)))
      (node_get_int (some node) "input" 0).toNat (-1)).rd
        (node_get_int (some node) "input" 0).toNat = -1
    rw [BrainSignal.rd_wr]
    have hlt : (node_get_int (some node) "input" 0).toNat <
        BrainSignal.len
          (some ((List.range (node_get_int (some node) "input" 0 + 1).toNat).map (junk 0))) := by
      simp only [BrainSignal.len, List.length_map, List.length_range]
      omega
    simp [hlt]

/-- C35: in the builder neuron the bias input `in[number_of_input]` is `-1`
after `new_neuron_from_context` (for a node `neuron` with a number of inputs
that is not negative), and for a neuron with an activation and a derivative
function whose bias input is `-1`, each of `propagate_neuron`,
`set_neuron_input`, `activate_neuron`, `append_neuron_delta`, `update_neuron`
and `set_neuron_weight` returns a neuron with the same number of inputs, the
same two functions and the bias input `-1`; `propagate_neuron` with an index
out of range and `set_neuron_input` with another length change nothing. -/
theorem builder_bias_input_kept (nr : Builder.Neuron)
    (activation derivative : BrainReal → BrainReal)
    (ha : nr._activation = some activation) (hd : nr._derivative = some derivative)
    (h0 : 0 ≤ nr._number_of_input)
    (hb : nr._in.rd nr._number_of_input.toNat = -1) :
    (∀ (out : BrainReal) (input_index : Int),
      ∃ r, Builder.propagate_neuron (some nr) out input_index = some r ∧
        r._number_of_input = nr._number_of_input ∧
        r._in.rd nr._number_of_input.toNat = -1 ∧
        r._activation = nr._activation ∧ r._derivative = nr._derivative) ∧
    (∀ (number_of_inputs : Int) (input : BrainSignal),
      ∃ r, Builder.set_neuron_input (some nr) number_of_inputs input = some (some r) ∧
        r._number_of_input = nr._number_of_input ∧
        r._in.rd nr._number_of_input.toNat = -1 ∧
        r._activation = nr._activation ∧ r._derivative = nr._derivative) ∧
    (∃ r, Builder.activate_neuron (some nr) = some (some r) ∧
      r._number_of_input = nr._number_of_input ∧
      r._in.rd nr._number_of_input.toNat = -1 ∧
      r._activation = nr._activation ∧ r._derivative = nr._derivative) ∧
    (∀ delta : BrainReal,
      ∃ r, Builder.append_neuron_delta (some nr) delta = some (some r) ∧
        r._number_of_input = nr._number_of_input ∧
        r._in.rd nr._number_of_input.toNat = -1 ∧
        r._activation = nr._activation ∧ r._derivative = nr._derivative) ∧
    (∃ r, Builder.update_neuron (some nr) = some r ∧
      r._number_of_input = nr._number_of_input ∧
      r._in.rd nr._number_of_input.toNat = -1 ∧
      r._activation = nr._activation ∧ r._derivative = nr._derivative) ∧
    (∀ (index : Int) (weight : BrainReal),
      ∃ r, Builder.set_neuron_weight (some nr) index weight = some r ∧
        r._number_of_input = nr._number_of_input ∧
        r._in.rd nr._number_of_input.toNat = -1 ∧
        r._activation = nr._activation ∧ r._derivative = nr._derivative) ∧
    (∀ (out : BrainReal) (input_index : Int),
      ¬ (0 ≤ input_index ∧ input_index < nr._number_of_input) →
      Builder.propagate_neuron (some nr) out input_index = some nr) ∧
    (∀ (number_of_inputs : Int) (input : BrainSignal),
      number_of_inputs ≠ nr._number_of_input →
      Builder.set_neuron_input (some nr) number_of_inputs input = some (some nr)) ∧
    (∀ (get_activation_type : Option String → Nat)
      (activation_of derivative_of : Nat → ActivationPtrFunc) (rand : Nat → BrainReal)
      (junk : Nat → Nat → BrainReal) (node : XmlNode),
      node.name = "neuron" → 0 ≤ node_get_int (some node) "input" 0 →
      ∃ fresh, Builder.new_neuron_from_context get_activation_type activation_of
          derivative_of rand junk (some node) = some fresh ∧
        fresh._number_of_input = node_get_int (some node) "input" 0 ∧
        fresh._in.len = (fresh._number_of_input + 1).toNat ∧
        fresh._in.rd fresh._number_of_input.toNat = -1) := by
  refine ⟨?_, ?_, ?_, ?_, ?_, ?_, ?_, ?_, ?_⟩
  · intro out input_index
    by_cases hg : 0 ≤ input_index ∧ input_index < nr._number_of_input
    · simp only [Builder.propagate_neuron, if_pos hg]
      refine ⟨_, rfl, rfl, ?_, rfl, rfl⟩
      show (nr._in.wr input_index.toNat out).rd nr._number_of_input.toNat = -1
      rw [BrainSignal.rd_wr]
      have hne : ¬ nr._number_of_input.toNat = input_index.toNat := by omega
      simp only [hne, false_and, if_false]
      exact hb
    · simp only [Builder.propagate_neuron, if_neg hg]
      exact ⟨nr, rfl, rfl, hb, rfl, rfl⟩
  · intro number_of_inputs input
    by_cases hn : nr._number_of_input = number_of_inputs
    · obtain ⟨b, hloop, -, hrd⟩ :=
        Builder.set_neuron_input_loop input nr nr._number_of_input.toNat
      simp only [Builder.set_neuron_input, if_pos hn, hloop]
      have hact := Builder.activate_neuron_eq { nr with _in := b } activation ha
      refine ⟨_, hact, rfl, ?_, rfl, rfl⟩
      show b.rd nr._number_of_input.toNat = -1
      rw [hrd]
      simp only [Nat.lt_irrefl, false_and, if_false]
      exact hb
    · simp only [Builder.set_neuron_input, if_neg hn]
      exact ⟨nr, rfl, rfl, hb, rfl, rfl⟩
  · exact ⟨_, Builder.activate_neuron_eq nr activation ha, rfl, hb, rfl, rfl⟩
  · intro delta
    simp only [Builder.append_neuron_delta, hd]
    exact ⟨_, rfl, rfl, hb, rfl, rfl⟩
  · obtain ⟨h1, -, -, -, -, h6, -⟩ :=
      Builder.update_neuron_loop_frame nr (nr._number_of_input + 1).toNat
    obtain ⟨p1, p2⟩ := Builder.update_neuron_loop_pointers nr (nr._number_of_input + 1).toNat
    refine ⟨_, rfl, h6, ?_, p1, p2⟩
    rw [h1]
    exact hb
  · intro index weight
    by_cases hg : 0 ≤ index ∧ index < nr._number_of_input + 1
    · simp only [Builder.set_neuron_weight, if_pos hg]
      exact ⟨_, rfl, rfl, hb, rfl, rfl⟩
    · simp only [Builder.set_neuron_weight, if_neg hg]
      exact ⟨nr, rfl, rfl, hb, rfl, rfl⟩
  · intro out input_index hg
    simp only [Builder.propagate_neuron, if_neg hg]
  · intro number_of_inputs input hn
    have hn2 : ¬ nr._number_of_input = number_of_inputs := fun h => hn h.symm
    simp only [Builder.set_neuron_input, if_neg hn2]
  · intro get_activation_type activation_of derivative_of rand junk node hname hnn
    exact Builder.new_neuron_from_context_bias_input get_activation_type activation_of
      derivative_of rand junk node hname hnn

/-- Witness of C35 on `sample_builder_neuron`, which has two inputs and the
bias input `in[2] = -1`. -/
theorem builder_bias_input_kept_witness :
    sample_builder_neuron._activation = some (fun x => x) ∧
    sample_builder_neuron._derivative = some (fun _ => 1) ∧
    0 ≤ sample_builder_neuron._number_of_input ∧
    sample_builder_neuron._in.rd sample_builder_neuron._number_of_input.toNat = -1 ∧
    (∀ (out : BrainReal) (input_index : Int),
      ∃ r, Builder.propagate_neuron (some sample_builder_neuron) out input_index = some r ∧
        r._number_of_input = sample_builder_neuron._number_of_input ∧
        r._in.rd sample_builder_neuron._number_of_input.toNat = -1 ∧
        r._activation = sample_builder_neuron._activation ∧
        r._derivative = sample_builder_neuron._derivative) ∧
    (∀ (number_of_inputs : Int) (input : BrainSignal),
      ∃ r, Builder.set_neuron_input (some sample_builder_neuron) number_of_inputs input = some
          (some r) ∧
        r._number_of_input = sample_builder_neuron._number_of_input ∧
        r._in.rd sample_builder_neuron._number_of_input.toNat = -1 ∧
        r._activation = sample_builder_neuron._activation ∧
        r._derivative = sample_builder_neuron._derivative) ∧
    (∃ r, Builder.activate_neuron (some sample_builder_neuron) = some (some r) ∧
      r._number_of_input = sample_builder_neuron._number_of_input ∧
      r._in.rd sample_builder_neuron._number_of_input.toNat = -1 ∧
      r._activation = sample_builder_neuron._activation ∧
      r._derivative = sample_builder_neuron._derivative) ∧
    (∀ delta : BrainReal,
      ∃ r, Builder.append_neuron_delta (some sample_builder_neuron) delta = some (some r) ∧
        r._number_of_input = sample_builder_neuron._number_of_input ∧
        r._in.rd sample_builder_neuron._number_of_input.toNat = -1 ∧
        r._activation = sample_builder_neuron._activation ∧
        r._derivative = sample_builder_neuron._derivative) ∧
    (∃ r, Builder.update_neuron (some sample_builder_neuron) = some r ∧
      r._number_of_input = sample_builder_neuron._number_of_input ∧
      r._in.rd sample_builder_neuron._number_of_input.toNat = -1 ∧
      r._activation = sample_builder_neuron._activation ∧
      r._derivative = sample_builder_neuron._derivative) ∧
    (∀ (index : Int) (weight : BrainReal),
      ∃ r, Builder.set_neuron_weight (some sample_builder_neuron) index weight = some r ∧
        r._number_of_input = sample_builder_neuron._number_of_input ∧
        r._in.rd sample_builder_neuron._number_of_input.toNat = -1 ∧
        r._activation = sample_builder_neuron._activation ∧
        r._derivative = sample_builder_neuron._derivative) ∧
    (∀ (out : BrainReal) (input_index : Int),
      ¬ (0 ≤ input_index ∧ input_index < sample_builder_neuron._number_of_input) →
      Builder.propagate_neuron (some sample_builder_neuron) out input_index = some
          sample_builder_neuron) ∧
    (∀ (number_of_inputs : Int) (input : BrainSignal),
      number_of_inputs ≠ sample_builder_neuron._number_of_input →
      Builder.set_neuron_input (some sample_builder_neuron) number_of_inputs input = some (some
          sample_builder_neuron)) ∧
    (∀ (get_activation_type : Option String → Nat)
      (activation_of derivative_of : Nat → ActivationPtrFunc) (rand : Nat → BrainReal)
      (junk : Nat → Nat → BrainReal) (node : XmlNode),
      node.name = "neuron" → 0 ≤ node_get_int (some node) "input" 0 →
      ∃ fresh, Builder.new_neuron_from_context get_activation_type activation_of
          derivative_of rand junk (some node) = some fresh ∧
        fresh._number_of_input = node_get_int (some node) "input" 0 ∧
        fresh._in.len = (fresh._number_of_input + 1).toNat ∧
        fresh._in.rd fresh._number_of_input.toNat = -1) ∧
    (∃ fresh, Builder.new_neuron_from_context (fun _ => 0) (fun _ => some (fun x => x))
        (fun _ => some (fun _ => 1)) (fun _ => 1 / 2) (fun _ _ => 0)
        (some sample_builder_context) = some fresh ∧
      fresh._number_of_input = 2 ∧ fresh._in.rd 2 = -1) := by
  have hint : node_get_int (some sample_builder_context) "input" 0 = 2 := by
    simp [node_get_int, sample_builder_context, XmlNode.numbers, List.lookup]
    rfl
  have h := builder_bias_input_kept sample_builder_neuron (fun x => x) (fun _ => 1) rfl rfl
    (by decide) rfl
  refine ⟨rfl, rfl, by decide, rfl, h.1, h.2.1, h.2.2.1, h.2.2.2.1, h.2.2.2.2.1,
    h.2.2.2.2.2.1, h.2.2.2.2.2.2.1, h.2.2.2.2.2.2.2.1, h.2.2.2.2.2.2.2.2, ?_⟩
  obtain ⟨fresh, hf, hn, -, hb⟩ := h.2.2.2.2.2.2.2.2 (fun _ => 0) (fun _ => some (fun x => x))
    (fun _ => some (fun _ => 1)) (fun _ => 1 / 2) (fun _ _ => 0) sample_builder_context rfl
    (by rw [hint]; decide)
  rw [hn, hint] at hb
  exact ⟨fresh, hf, hn.trans hint, hb⟩

/-! ## The rounding of `double` -/

/-- An integer is its own nearest integer. -/
theorem round_half_even_intCast (m : Int) : round_half_even (m : BrainReal) = m := by
  simp [round_half_even]

/-- A number below `1/2` in absolute value rounds to `0`. -/
theorem round_half_even_small (y : BrainReal) (h : |y| < 1 / 2) : round_half_even y = 0 := by
  rw [abs_lt] at h
  obtain ⟨h1, h2⟩ := h
  rcases le_or_lt 0 y with hy | hy
  · have hf : ⌊y⌋ = 0 := by
      rw [Int.floor_eq_iff]
      constructor
      · simpa using hy
      · simp only [Int.cast_zero, zero_add]; linarith
    simp only [round_half_even, hf, Int.cast_zero, sub_zero, h2, if_true]
  · have hf : ⌊y⌋ = -1 := by
      rw [Int.floor_eq_iff]
      constructor
      · simp only [Int.cast_neg, Int.cast_one]; linarith
      · simp only [Int.cast_neg, Int.cast_one]; linarith
    have h3 : ¬ (y - ((-1 : Int) : BrainReal) < 1 / 2) := by
      simp only [Int.cast_neg, Int.cast_one]; intro h; linarith
    have h4 : 1 / 2 < y - ((-1 : Int) : BrainReal) := by
      simp only [Int.cast_neg, Int.cast_one]; linarith
    simp only [round_half_even, hf, h3, h4, if_true, if_false]
    norm_num

/-- The binade of a positive number. -/
theorem log_two_eq (x : BrainReal) (e : Int) (h1 : (2 : BrainReal) ^ e ≤ x)
    (h2 : x < (2 : BrainReal) ^ (e + 1)) : Int.log 2 x = e := by
  have hpos : 0 < x := lt_of_lt_of_le (by positivity) h1
  have a : e ≤ Int.log 2 x := by
    rw [← Int.zpow_le_iff_le_log (by norm_num) hpos]
    simpa using h1
  have b : Int.log 2 x < e + 1 := by
    rw [← Int.lt_zpow_iff_log_lt (by norm_num) hpos]
    simpa using h2
  omega

/-- Zero is a `double`. -/
theorem round_double_zero : round_double 0 = 0 := by
  simp [round_double, round_half_even]

/-- A number `m * 2 ^ (e - 52)` of the binade `e ≥ -1022` is a `double`:
rounding does not change it. -/
theorem round_double_exact (x : BrainReal) (m e : Int) (he : -1022 ≤ e)
    (hx : x = m * (2 : BrainReal) ^ (e - 52)) (h1 : (2 : BrainReal) ^ e ≤ |x|)
    (h2 : |x| < (2 : BrainReal) ^ (e + 1)) : round_double x = x := by
  have hlog := log_two_eq |x| e h1 h2
  have hpow : (2 : BrainReal) ^ (e - 52) ≠ 0 := by positivity
  have hdiv : x / (2 : BrainReal) ^ (e - 52) = (m : BrainReal) := by
    rw [hx]; field_simp
  simp only [round_double, hlog, max_eq_left he, hdiv, round_half_even_intCast]
  exact hx.symm

/-- Underflow: a number below `2 ^ -1075` in absolute value, half of the
smallest positive `double`, rounds to `0`. -/
theorem round_double_underflow (x : BrainReal) (h : |x| < (2 : BrainReal) ^ (-1075 : Int)) :
    round_double x = 0 := by
  rcases eq_or_ne x 0 with h0 | h0
  · rw [h0]; exact round_double_zero
  · have hpos : 0 < |x| := abs_pos.mpr h0
    have hlog : Int.log 2 |x| < -1022 := by
      rw [← Int.lt_zpow_iff_log_lt (by norm_num) hpos]
      refine lt_trans h ?_
      norm_num
    have hmax : max (Int.log 2 |x|) (-1022) = -1022 := max_eq_right (le_of_lt hlog)
    have hsmall : |x / (2 : BrainReal) ^ (-1022 - 52 : Int)| < 1 / 2 := by
      rw [abs_div, abs_of_pos (by positivity : (0 : BrainReal) < 2 ^ (-1022 - 52 : Int)),
        div_lt_iff₀ (by positivity)]
      refine lt_of_lt_of_eq h ?_
      norm_num
    simp only [round_double, hmax, round_half_even_small _ hsmall, Int.cast_zero, zero_mul]

/-- One round of the rounded loop of the resilient rule, with the locals
named. -/
theorem resilient_body_rounded_eq (fl : BrainReal → BrainReal) (ep em dmin dmax g : BrainReal)
    (nr : Neuron) (i : Nat) :
    resilient_body_rounded fl ep em dmin dmax g nr i =
      { nr with
        _errors := nr._errors.wr i (fl (nr._errors.rd i + fl (g * nr._w.rd i)))
        _w := nr._w.wr i (fl (nr._w.rd i +
          (rprop_locals_rounded fl ep em dmin dmax (nr._gradients.rd i) (nr._deltas.rd i)
            (fl (g * nr._in.rd i))).2.1))
        _deltas := nr._deltas.wr i
          (rprop_locals_rounded fl ep em dmin dmax (nr._gradients.rd i) (nr._deltas.rd i)
            (fl (g * nr._in.rd i))).1
        _gradients := nr._gradients.wr i
          (rprop_locals_rounded fl ep em dmin dmax (nr._gradients.rd i) (nr._deltas.rd i)
            (fl (g * nr._in.rd i))).2.2 } := by
  obtain ⟨af, df, lf, inp, w, gr, de, er, out, b, bd, bg, sm, ep1, em1, dmin1, dmax1, blr, bm, n⟩ := nr
  cases er <;> rfl

/-- With the identity for `fl` the rounded update is the update in exact
arithmetic. -/
theorem update_neuron_using_resilient_rounded_id (neuron : BrainNeuron) (loss : BrainReal) :
    update_neuron_using_resilient_rounded id neuron loss =
      update_neuron_using_resilient neuron loss := by
  cases neuron with
  | none => rfl
  | some nr =>
    have hbody : ∀ ep em dmin dmax g,
        resilient_body_rounded id ep em dmin dmax g = resilient_body ep em dmin dmax g := by
      intro ep em dmin dmax g
      funext s i
      obtain ⟨af, df, lf, inp, w, gr, de, er, out, b, bd, bg, sm, ep1, em1, dmin1, dmax1, blr, bm,
        n⟩ := s
      cases er <;> rfl
    simp only [update_neuron_using_resilient_rounded, update_neuron_using_resilient, hbody, id]

/-- The rounded update of a neuron with a derivative function: the bias
block, then the loop. -/
theorem update_neuron_using_resilient_rounded_eq (fl : BrainReal → BrainReal) (nr : Neuron)
    (loss : BrainReal) (derivative : BrainReal → BrainReal)
    (hd : nr._derivative_function = some derivative) :
    update_neuron_using_resilient_rounded fl (some nr) loss =
      some (for_loop
        (resilient_body_rounded fl nr._rprop_eta_plus nr._rprop_eta_minus nr._rprop_delta_min
          nr._rprop_delta_max (fl (loss * derivative nr._sum)))
        nr._number_of_input
        { nr with
          _bias := fl (nr._bias +
            (rprop_locals_rounded fl nr._rprop_eta_plus nr._rprop_eta_minus nr._rprop_delta_min
              nr._rprop_delta_max nr._bias_gradient nr._bias_delta
              (fl (loss * derivative nr._sum))).2.1)
          _bias_delta :=
            (rprop_locals_rounded fl nr._rprop_eta_plus nr._rprop_eta_minus nr._rprop_delta_min
              nr._rprop_delta_max nr._bias_gradient nr._bias_delta
              (fl (loss * derivative nr._sum))).1
          _bias_gradient :=
            (rprop_locals_rounded fl nr._rprop_eta_plus nr._rprop_eta_minus nr._rprop_delta_min
              nr._rprop_delta_max nr._bias_gradient nr._bias_delta
              (fl (loss * derivative nr._sum))).2.2 }) := by
  simp only [update_neuron_using_resilient_rounded, hd]
  rfl

/-- The rounded locals when the rounded product of the stored and the new
gradient is positive. -/
theorem rprop_locals_rounded_pos (fl : BrainReal → BrainReal)
    (ep em dmin dmax prev step g : BrainReal) (h : 0 < fl (prev * g)) :
    rprop_locals_rounded fl ep em dmin dmax prev step g =
      (MIN (fl (step * ep)) dmax,
        if 0 < g then fl (MIN (fl (step * ep)) dmax * -1) else MIN (fl (step * ep)) dmax, g) := by
  unfold rprop_locals_rounded
  simp only [h, if_true]
  split_ifs <;> rfl

/-- The rounded locals when the rounded product of the stored and the new
gradient is negative. -/
theorem rprop_locals_rounded_neg (fl : BrainReal → BrainReal)
    (ep em dmin dmax prev step g : BrainReal) (h : fl (prev * g) < 0) :
    rprop_locals_rounded fl ep em dmin dmax prev step g = (MAX (fl (step * em)) dmin, 0, 0) := by
  unfold rprop_locals_rounded
  have h1 : ¬ 0 < fl (prev * g) := not_lt.mpr (le_of_lt h)
  simp only [h1, h, if_true, if_false]

/-- The rounded locals when the rounded product of the stored and the new
gradient is zero: the step that is stored is `0`. -/
theorem rprop_locals_rounded_zero (fl : BrainReal → BrainReal)
    (ep em dmin dmax prev step g : BrainReal) (h : fl (prev * g) = 0) :
    rprop_locals_rounded fl ep em dmin dmax prev step g =
      (0, if 0 < g then fl (step * -1) else step, g) := by
  unfold rprop_locals_rounded
  have h3 : fabs 0 ≤ EPSILON := by
    unfold fabs EPSILON
    norm_num
  simp only [h, lt_irrefl, if_false, h3, if_true]
  split_ifs <;> rfl

/-- The step and the correction of the rounded locals depend on the
gradient through the sign of the gradient and of the rounded product with
the stored gradient only. -/
theorem rprop_locals_rounded_signs (fl : BrainReal → BrainReal)
    (ep em dmin dmax prev step g1 g2 : BrainReal)
    (h1 : 0 < fl (prev * g1) ↔ 0 < fl (prev * g2))
    (h2 : fl (prev * g1) < 0 ↔ fl (prev * g2) < 0)
    (h3 : 0 < g1 ↔ 0 < g2) :
    (rprop_locals_rounded fl ep em dmin dmax prev step g1).1 =
      (rprop_locals_rounded fl ep em dmin dmax prev step g2).1 ∧
    (rprop_locals_rounded fl ep em dmin dmax prev step g1).2.1 =
      (rprop_locals_rounded fl ep em dmin dmax prev step g2).2.1 := by
  rcases lt_trichotomy (fl (prev * g1)) 0 with hn | hz | hp
  · rw [rprop_locals_rounded_neg _ _ _ _ _ _ _ _ hn,
      rprop_locals_rounded_neg _ _ _ _ _ _ _ _ (h2.mp hn)]
    exact ⟨rfl, rfl⟩
  · have hz2 : fl (prev * g2) = 0 := by
      rcases lt_trichotomy (fl (prev * g2)) 0 with a | a | a
      · exact absurd (h2.mpr a) (by rw [hz]; exact lt_irrefl 0)
      · exact a
      · exact absurd (h1.mpr a) (by rw [hz]; exact lt_irrefl 0)
    rw [rprop_locals_rounded_zero _ _ _ _ _ _ _ _ hz,
      rprop_locals_rounded_zero _ _ _ _ _ _ _ _ hz2]
    refine ⟨rfl, ?_⟩
    by_cases hg : 0 < g1
    · simp only [hg, h3.mp hg, if_true]
    · have hg2 : ¬ 0 < g2 := fun a => hg (h3.mpr a)
      simp only [hg, hg2, if_false]
  · rw [rprop_locals_rounded_pos _ _ _ _ _ _ _ _ hp,
      rprop_locals_rounded_pos _ _ _ _ _ _ _ _ (h1.mp hp)]
    refine ⟨rfl, ?_⟩
    by_cases hg : 0 < g1
    · simp only [hg, h3.mp hg, if_true]
    · have hg2 : ¬ 0 < g2 := fun a => hg (h3.mpr a)
      simp only [hg, hg2, if_false]

/-- Two runs of the rounded loop of the resilient rule, with the gradients
`g1` and `g2`, from states with the same weights, steps, inputs and stored
gradients: when in every round the gradient of the weight and its rounded
product with the stored gradient have the same sign in both runs, the two
runs leave the same weights and the same steps. -/
theorem resilient_rounded_loop_simulation (fl : BrainReal → BrainReal)
    (ep em dmin dmax g1 g2 : BrainReal) (s1 s2 : Neuron)
    (hw : s1._w = s2._w) (hdl : s1._deltas = s2._deltas) (hin : s1._in = s2._in)
    (hgr : s1._gradients = s2._gradients) (n : Nat)
    (hsign : ∀ i, i < n →
      (0 < fl (s1._gradients.rd i * fl (g1 * s1._in.rd i)) ↔
        0 < fl (s1._gradients.rd i * fl (g2 * s1._in.rd i))) ∧
      (fl (s1._gradients.rd i * fl (g1 * s1._in.rd i)) < 0 ↔
        fl (s1._gradients.rd i * fl (g2 * s1._in.rd i)) < 0) ∧
      (0 < fl (g1 * s1._in.rd i) ↔ 0 < fl (g2 * s1._in.rd i)))
    (k : Nat) (hk : k ≤ n) :
    (for_loop (resilient_body_rounded fl ep em dmin dmax g1) k s1)._w =
      (for_loop (resilient_body_rounded fl ep em dmin dmax g2) k s2)._w ∧
    (for_loop (resilient_body_rounded fl ep em dmin dmax g1) k s1)._deltas =
      (for_loop (resilient_body_rounded fl ep em dmin dmax g2) k s2)._deltas ∧
    (for_loop (resilient_body_rounded fl ep em dmin dmax g1) k s1)._in = s1._in ∧
    (for_loop (resilient_body_rounded fl ep em dmin dmax g2) k s2)._in = s1._in ∧
    (for_loop (resilient_body_rounded fl ep em dmin dmax g1) k s1)._bias = s1._bias ∧
    (for_loop (resilient_body_rounded fl ep em dmin dmax g2) k s2)._bias = s2._bias ∧
    (for_loop (resilient_body_rounded fl ep em dmin dmax g1) k s1)._bias_delta =
      s1._bias_delta ∧
    (for_loop (resilient_body_rounded fl ep em dmin dmax g2) k s2)._bias_delta =
      s2._bias_delta ∧
    ∀ j, k ≤ j →
      (for_loop (resilient_body_rounded fl ep em dmin dmax g1) k s1)._gradients.rd j =
        s1._gradients.rd j ∧
      (for_loop (resilient_body_rounded fl ep em dmin dmax g2) k s2)._gradients.rd j =
        s1._gradients.rd j := by
  induction k with
  | zero =>
    refine ⟨hw, hdl, rfl, hin.symm, rfl, rfl, rfl, rfl, ?_⟩
    intro j _
    refine ⟨rfl, ?_⟩
    show s2._gradients.rd j = s1._gradients.rd j
    rw [hgr]
  | succ k ih =>
    obtain ⟨iw, id1, i1, i2, b1, b2, bd1, bd2, ig⟩ := ih (Nat.le_of_succ_le hk)
    obtain ⟨gk1, gk2⟩ := ig k (le_refl k)
    obtain ⟨c1, c2, c3⟩ := hsign k (Nat.lt_of_succ_le hk)
    obtain ⟨l1, l2⟩ := rprop_locals_rounded_signs fl ep em dmin dmax (s1._gradients.rd k)
      ((for_loop (resilient_body_rounded fl ep em dmin dmax g2) k s2)._deltas.rd k)
      (fl (g1 * s1._in.rd k)) (fl (g2 * s1._in.rd k)) c1 c2 c3
    simp only [for_loop]
    rw [resilient_body_rounded_eq, resilient_body_rounded_eq]
    refine ⟨?_, ?_, i1, i2, b1, b2, bd1, bd2, ?_⟩
    · show BrainSignal.wr _ k _ = BrainSignal.wr _ k _
      rw [iw, id1, i1, i2, gk1, gk2, l2]
    · show BrainSignal.wr _ k _ = BrainSignal.wr _ k _
      rw [id1, i1, i2, gk1, gk2, l1]
    · intro j hj
      have hne : ¬ j = k := by omega
      obtain ⟨gj1, gj2⟩ := ig j (by omega)
      refine ⟨?_, ?_⟩
      · show (BrainSignal.wr _ k _).rd j = _
        rw [BrainSignal.rd_wr]
        simp only [hne, false_and, if_false]
        exact gj1
      · show (BrainSignal.wr _ k _).rd j = _
        rw [BrainSignal.rd_wr]
        simp only [hne, false_and, if_false]
        exact gj2

/-- C25 as the code has it, in rounded arithmetic: for every neuron state
with a derivative function, every loss `l` and every factor `c > 0` such that,
for the bias and for every weight below `number_of_input`, the gradient `g`
and the product of the stored gradient with `g`, as the code computes them
with the rounding `fl`, have the same sign in the run with the loss `l` and
in the run with the loss `c * l`, the two runs of
`update_neuron_using_resilient` from that state leave the same weights, the
same bias and the same steps `deltas` and `bias_delta`. -/
theorem update_neuron_using_resilient_rounded_scale (fl : BrainReal → BrainReal) (nr : Neuron)
    (l c : BrainReal) (derivative : BrainReal → BrainReal) (_hc : 0 < c)
    (hd : nr._derivative_function = some derivative)
    (hb : (0 < fl (nr._bias_gradient * fl (l * derivative nr._sum)) ↔
        0 < fl (nr._bias_gradient * fl (c * l * derivative nr._sum))) ∧
      (fl (nr._bias_gradient * fl (l * derivative nr._sum)) < 0 ↔
        fl (nr._bias_gradient * fl (c * l * derivative nr._sum)) < 0) ∧
      (0 < fl (l * derivative nr._sum) ↔ 0 < fl (c * l * derivative nr._sum)))
    (hw : ∀ i, i < nr._number_of_input →
      (0 < fl (nr._gradients.rd i * fl (fl (l * derivative nr._sum) * nr._in.rd i)) ↔
        0 < fl (nr._gradients.rd i * fl (fl (c * l * derivative nr._sum) * nr._in.rd i))) ∧
      (fl (nr._gradients.rd i * fl (fl (l * derivative nr._sum) * nr._in.rd i)) < 0 ↔
        fl (nr._gradients.rd i * fl (fl (c * l * derivative nr._sum) * nr._in.rd i)) < 0) ∧
      (0 < fl (fl (l * derivative nr._sum) * nr._in.rd i) ↔
        0 < fl (fl (c * l * derivative nr._sum) * nr._in.rd i))) :
    ∃ r1 r2, update_neuron_using_resilient_rounded fl (some nr) l = some r1 ∧
      update_neuron_using_resilient_rounded fl (some nr) (c * l) = some r2 ∧
      r1._w = r2._w ∧ r1._bias = r2._bias ∧
      r1._deltas = r2._deltas ∧ r1._bias_delta = r2._bias_delta := by
  obtain ⟨hb1, hb2, hb3⟩ := hb
  obtain ⟨lb1, lb2⟩ := rprop_locals_rounded_signs fl nr._rprop_eta_plus nr._rprop_eta_minus
    nr._rprop_delta_min nr._rprop_delta_max nr._bias_gradient nr._bias_delta
    (fl (l * derivative nr._sum)) (fl (c * l * derivative nr._sum)) hb1 hb2 hb3
  obtain ⟨sw, sd, -, -, sb1, sb2, sbd1, sbd2, -⟩ := resilient_rounded_loop_simulation fl
    nr._rprop_eta_plus nr._rprop_eta_minus nr._rprop_delta_min nr._rprop_delta_max
    (fl (l * derivative nr._sum)) (fl (c * l * derivative nr._sum))
    { nr with
      _bias := fl (nr._bias +
        (rprop_locals_rounded fl nr._rprop_eta_plus nr._rprop_eta_minus nr._rprop_delta_min
          nr._rprop_delta_max nr._bias_gradient nr._bias_delta
          (fl (l * derivative nr._sum))).2.1)
      _bias_delta :=
        (rprop_locals_rounded fl nr._rprop_eta_plus nr._rprop_eta_minus nr._rprop_delta_min
          nr._rprop_delta_max nr._bias_gradient nr._bias_delta
          (fl (l * derivative nr._sum))).1
      _bias_gradient :=
        (rprop_locals_rounded fl nr._rprop_eta_plus nr._rprop_eta_minus nr._rprop_delta_min
          nr._rprop_delta_max nr._bias_gradient nr._bias_delta
          (fl (l * derivative nr._sum))).2.2 }
    { nr with
      _bias := fl (nr._bias +
        (rprop_locals_rounded fl nr._rprop_eta_plus nr._rprop_eta_minus nr._rprop_delta_min
          nr._rprop_delta_max nr._bias_gradient nr._bias_delta
          (fl (c * l * derivative nr._sum))).2.1)
      _bias_delta :=
        (rprop_locals_rounded fl nr._rprop_eta_plus nr._rprop_eta_minus nr._rprop_delta_min
          nr._rprop_delta_max nr._bias_gradient nr._bias_delta
          (fl (c * l * derivative nr._sum))).1
      _bias_gradient :=
        (rprop_locals_rounded fl nr._rprop_eta_plus nr._rprop_eta_minus nr._rprop_delta_min
          nr._rprop_delta_max nr._bias_gradient nr._bias_delta
          (fl (c * l * derivative nr._sum))).2.2 }
    rfl rfl rfl rfl nr._number_of_input hw nr._number_of_input (le_refl _)
  refine ⟨_, _, update_neuron_using_resilient_rounded_eq fl nr l derivative hd,
    update_neuron_using_resilient_rounded_eq fl nr (c * l) derivative hd, sw, ?_, sd, ?_⟩
  · rw [sb1, sb2]
    show fl (nr._bias + _) = fl (nr._bias + _)
    rw [lb2]
  · rw [sbd1, sbd2]
    exact lb1

/-- The weights and the steps after the rounded update of a neuron with one
input. -/
theorem update_neuron_using_resilient_rounded_one_input (fl : BrainReal → BrainReal)
    (nr : Neuron) (loss : BrainReal) (derivative : BrainReal → BrainReal)
    (hd : nr._derivative_function = some derivative) (hn : nr._number_of_input = 1) :
    ∃ r, update_neuron_using_resilient_rounded fl (some nr) loss = some r ∧
      r._w = nr._w.wr 0 (fl (nr._w.rd 0 +
        (rprop_locals_rounded fl nr._rprop_eta_plus nr._rprop_eta_minus nr._rprop_delta_min
          nr._rprop_delta_max (nr._gradients.rd 0) (nr._deltas.rd 0)
          (fl (fl (loss * derivative nr._sum) * nr._in.rd 0))).2.1)) ∧
      r._deltas = nr._deltas.wr 0
        (rprop_locals_rounded fl nr._rprop_eta_plus nr._rprop_eta_minus nr._rprop_delta_min
          nr._rprop_delta_max (nr._gradients.rd 0) (nr._deltas.rd 0)
          (fl (fl (loss * derivative nr._sum) * nr._in.rd 0))).1 := by
  rw [update_neuron_using_resilient_rounded_eq fl nr loss derivative hd, hn]
  refine ⟨_, rfl, ?_, ?_⟩
  · show (resilient_body_rounded _ _ _ _ _ _ _ 0)._w = _
    rw [resilient_body_rounded_eq]
    rfl
  · show (resilient_body_rounded _ _ _ _ _ _ _ 0)._deltas = _
    rw [resilient_body_rounded_eq]
    rfl

/-- C25 does not hold as stated.  With the rounding of `double`, in
`sample_tiny_gradient_neuron` the stored gradient of weight `0` is `2 ^ -600`.
With the loss `2 ^ -600` the product of the stored and the new gradient,
`2 ^ -1200`, underflows to `0`: the code takes the branch of a zero product,
moves the weight by the stored step from `3` to `5/2` and stores the step
`0`.  With the loss `2 ^ 200 * 2 ^ -600` the product is `2 ^ -1000 > 0`: the
code doubles the step to `1` and moves the weight from `3` to `2`. -/
theorem update_neuron_using_resilient_rounded_underflow :
    (0 : BrainReal) < 2 ^ 200 ∧
    ∃ r1 r2,
      update_neuron_using_resilient_rounded round_double (some sample_tiny_gradient_neuron)
        (2 ^ (-600 : Int)) = some r1 ∧
      update_neuron_using_resilient_rounded round_double (some sample_tiny_gradient_neuron)
        (2 ^ 200 * 2 ^ (-600 : Int)) = some r2 ∧
      r1._w = some [5 / 2] ∧ r2._w = some [2] ∧
      r1._deltas = some [0] ∧ r2._deltas = some [1] := by
  have e600 : round_double ((2 : BrainReal) ^ (-600 : Int)) = 2 ^ (-600 : Int) := by
    apply round_double_exact _ 4503599627370496 (-600) (by norm_num) <;>
      norm_num [abs_of_pos]
  have e400 : round_double ((2 : BrainReal) ^ (-400 : Int)) = 2 ^ (-400 : Int) := by
    apply round_double_exact _ 4503599627370496 (-400) (by norm_num) <;>
      norm_num [abs_of_pos]
  have hc : (2 : BrainReal) ^ 200 * 2 ^ (-600 : Int) = 2 ^ (-400 : Int) := by norm_num
  have p1 : round_double ((2 : BrainReal) ^ (-600 : Int) * 2 ^ (-600 : Int)) = 0 := by
    apply round_double_underflow
    norm_num [abs_of_pos]
  have p2 : 0 < round_double ((2 : BrainReal) ^ (-600 : Int) * 2 ^ (-400 : Int)) := by
    have : round_double ((2 : BrainReal) ^ (-600 : Int) * 2 ^ (-400 : Int)) =
        2 ^ (-600 : Int) * 2 ^ (-400 : Int) := by
      apply round_double_exact _ 4503599627370496 (-1000) (by norm_num) <;>
        norm_num [abs_of_pos]
    rw [this]
    positivity
  have n1 : round_double ((1 / 2 : BrainReal) * -1) = -1 / 2 := by
    rw [show ((1 / 2 : BrainReal) * -1) = -1 / 2 by norm_num]
    apply round_double_exact _ (-4503599627370496) (-1) (by norm_num) <;>
      norm_num [abs_of_neg]
  have n2 : round_double ((1 / 2 : BrainReal) * 2) = 1 := by
    rw [show ((1 / 2 : BrainReal) * 2) = 1 by norm_num]
    apply round_double_exact _ 4503599627370496 0 (by norm_num) <;> norm_num [abs_of_pos]
  have n3 : round_double ((1 : BrainReal) * -1) = -1 := by
    rw [show ((1 : BrainReal) * -1) = -1 by norm_num]
    apply round_double_exact _ (-4503599627370496) 0 (by norm_num) <;> norm_num [abs_of_neg]
  have n4 : round_double ((3 : BrainReal) + -1 / 2) = 5 / 2 := by
    rw [show ((3 : BrainReal) + -1 / 2) = 5 / 2 by norm_num]
    apply round_double_exact _ 5629499534213120 1 (by norm_num) <;> norm_num [abs_of_pos]
  have n5 : round_double ((3 : BrainReal) + -1) = 2 := by
    rw [show ((3 : BrainReal) + -1) = 2 by norm_num]
    apply round_double_exact _ 4503599627370496 1 (by norm_num) <;> norm_num [abs_of_pos]
  have g600 : (0 : BrainReal) < 2 ^ (-600 : Int) := by positivity
  have g400 : (0 : BrainReal) < 2 ^ (-400 : Int) := by positivity
  have hmin : MIN (1 : BrainReal) 50 = 1 := by
    unfold MIN
    norm_num
  have L1 : rprop_locals_rounded round_double 2 (1 / 2) 0 50 (2 ^ (-600 : Int)) (1 / 2)
      (2 ^ (-600 : Int)) = (0, -1 / 2, 2 ^ (-600 : Int)) := by
    rw [rprop_locals_rounded_zero _ _ _ _ _ _ _ _ p1, if_pos g600, n1]
  have L2 : rprop_locals_rounded round_double 2 (1 / 2) 0 50 (2 ^ (-600 : Int)) (1 / 2)
      (2 ^ (-400 : Int)) = (1, -1, 2 ^ (-400 : Int)) := by
    rw [rprop_locals_rounded_pos _ _ _ _ _ _ _ _ p2, if_pos g400, n2, hmin, n3]
  obtain ⟨r1, h1, w1, d1⟩ := update_neuron_using_resilient_rounded_one_input round_double
    sample_tiny_gradient_neuron (2 ^ (-600 : Int)) (fun _ => 1) rfl rfl
  obtain ⟨r2, h2, w2, d2⟩ := update_neuron_using_resilient_rounded_one_input round_double
    sample_tiny_gradient_neuron (2 ^ 200 * 2 ^ (-600 : Int)) (fun _ => 1) rfl rfl
  have w1b : r1._w = BrainSignal.wr (some [3]) 0 (round_double (3 +
      (rprop_locals_rounded round_double 2 (1 / 2) 0 50 (2 ^ (-600 : Int)) (1 / 2)
        (round_double (round_double (2 ^ (-600 : Int) * 1) * 1))).2.1)) := w1
  have d1b : r1._deltas = BrainSignal.wr (some [1 / 2]) 0
      (rprop_locals_rounded round_double 2 (1 / 2) 0 50 (2 ^ (-600 : Int)) (1 / 2)
        (round_double (round_double (2 ^ (-600 : Int) * 1) * 1))).1 := d1
  have w2b : r2._w = BrainSignal.wr (some [3]) 0 (round_double (3 +
      (rprop_locals_rounded round_double 2 (1 / 2) 0 50 (2 ^ (-600 : Int)) (1 / 2)
        (round_double (round_double (2 ^ 200 * 2 ^ (-600 : Int) * 1) * 1))).2.1)) := w2
  have d2b : r2._deltas = BrainSignal.wr (some [1 / 2]) 0
      (rprop_locals_rounded round_double 2 (1 / 2) 0 50 (2 ^ (-600 : Int)) (1 / 2)
        (round_double (round_double (2 ^ 200 * 2 ^ (-600 : Int) * 1) * 1))).1 := d2
  simp only [mul_one, e600, L1] at w1b d1b
  simp only [hc, mul_one, e400, L2] at w2b d2b
  refine ⟨by positivity, r1, r2, h1, h2, ?_, ?_, ?_, ?_⟩
  · rw [w1b]
    show BrainSignal.wr (some [3]) 0 (round_double (3 + -1 / 2)) = _
    rw [n4]
    rfl
  · rw [w2b]
    show BrainSignal.wr (some [3]) 0 (round_double (3 + -1)) = _
    rw [n5]
    rfl
  · rw [d1b]
    rfl
  · rw [d2b]
    rfl

/-- Witness of the amended C25 with the rounding of `double`, on
`sample_tiny_gradient_neuron` with the loss `1` and the factor `2`: no
product underflows, and both runs take the same branches. -/
theorem update_neuron_using_resilient_rounded_scale_witness :
    (0 : BrainReal) < 2 ∧
    sample_tiny_gradient_neuron._derivative_function = some (fun _ => 1) ∧
    ∃ r1 r2,
      update_neuron_using_resilient_rounded round_double (some sample_tiny_gradient_neuron) 1 =
        some r1 ∧
      update_neuron_using_resilient_rounded round_double (some sample_tiny_gradient_neuron)
        (2 * 1) = some r2 ∧
      r1._w = r2._w ∧ r1._bias = r2._bias ∧
      r1._deltas = r2._deltas ∧ r1._bias_delta = r2._bias_delta := by
  have e1 : round_double 1 = 1 := by
    apply round_double_exact _ 4503599627370496 0 (by norm_num) <;> norm_num [abs_of_pos]
  have e2 : round_double 2 = 2 := by
    apply round_double_exact _ 4503599627370496 1 (by norm_num) <;> norm_num [abs_of_pos]
  have e600 : round_double ((2 : BrainReal) ^ (-600 : Int)) = 2 ^ (-600 : Int) := by
    apply round_double_exact _ 4503599627370496 (-600) (by norm_num) <;>
      norm_num [abs_of_pos]
  have e599 : round_double ((2 : BrainReal) ^ (-600 : Int) * 2) = 2 ^ (-600 : Int) * 2 := by
    apply round_double_exact _ 4503599627370496 (-599) (by norm_num) <;>
      norm_num [abs_of_pos]
  have q1 : (0 : BrainReal) < 2 ^ (-600 : Int) := by positivity
  have q2 : (0 : BrainReal) < 2 ^ (-600 : Int) * 2 := by positivity
  have hb : (0 < round_double (sample_tiny_gradient_neuron._bias_gradient *
        round_double (1 * (fun (_ : BrainReal) => (1 : BrainReal))
          sample_tiny_gradient_neuron._sum)) ↔
      0 < round_double (sample_tiny_gradient_neuron._bias_gradient *
        round_double (2 * 1 * (fun (_ : BrainReal) => (1 : BrainReal))
          sample_tiny_gradient_neuron._sum))) ∧
      (round_double (sample_tiny_gradient_neuron._bias_gradient *
        round_double (1 * (fun (_ : BrainReal) => (1 : BrainReal))
          sample_tiny_gradient_neuron._sum)) < 0 ↔
      round_double (sample_tiny_gradient_neuron._bias_gradient *
        round_double (2 * 1 * (fun (_ : BrainReal) => (1 : BrainReal))
          sample_tiny_gradient_neuron._sum)) < 0) ∧
      (0 < round_double (1 * (fun (_ : BrainReal) => (1 : BrainReal))
          sample_tiny_gradient_neuron._sum) ↔
        0 < round_double (2 * 1 * (fun (_ : BrainReal) => (1 : BrainReal))
          sample_tiny_gradient_neuron._sum)) := by
    show (0 < round_double (0 * round_double (1 * 1)) ↔
        0 < round_double (0 * round_double (2 * 1 * 1))) ∧
      (round_double (0 * round_double (1 * 1)) < 0 ↔
        round_double (0 * round_double (2 * 1 * 1)) < 0) ∧
      (0 < round_double (1 * 1) ↔ 0 < round_double (2 * 1 * 1))
    simp only [mul_one, zero_mul, e1, e2, round_double_zero]
    norm_num
  refine ⟨by norm_num, rfl,
    update_neuron_using_resilient_rounded_scale round_double sample_tiny_gradient_neuron 1 2
      (fun _ => 1) (by norm_num) rfl hb ?_⟩
  intro i hi
  have hi0 : i = 0 := by
    have : i < 1 := hi
    omega
  subst hi0
  show (0 < round_double (2 ^ (-600 : Int) * round_double (round_double (1 * 1) * 1)) ↔
      0 < round_double (2 ^ (-600 : Int) * round_double (round_double (2 * 1 * 1) * 1))) ∧
    (round_double (2 ^ (-600 : Int) * round_double (round_double (1 * 1) * 1)) < 0 ↔
      round_double (2 ^ (-600 : Int) * round_double (round_double (2 * 1 * 1) * 1)) < 0) ∧
    (0 < round_double (round_double (1 * 1) * 1) ↔
      0 < round_double (round_double (2 * 1 * 1) * 1))
  simp only [mul_one, e1, e2, e600, e599]
  refine ⟨⟨fun _ => q2, fun _ => q1⟩,
    ⟨fun h => absurd h (not_lt.mpr (le_of_lt q1)), fun h => absurd h (not_lt.mpr (le_of_lt q2))⟩,
    ⟨fun _ => by norm_num, fun _ => by norm_num⟩⟩

/-! ## The forward pass of a layer, by the value of its flag -/

/-- With the identity for `fl` the rounded `append_neuron_delta` is the one
in exact arithmetic. -/
theorem Builder.append_neuron_delta_rounded_id (neuron : Builder.BrainNeuron)
    (delta : BrainReal) :
    Builder.append_neuron_delta_rounded id neuron delta =
      Builder.append_neuron_delta neuron delta := by
  cases neuron <;> rfl

/-- With the identity for `fl` the rounded `get_neuron_weighted_delta` is the
one in exact arithmetic. -/
theorem Builder.get_neuron_weighted_delta_rounded_id (neuron : Builder.BrainNeuron)
    (index : Int) :
    Builder.get_neuron_weighted_delta_rounded id neuron index =
      Builder.get_neuron_weighted_delta neuron index := by
  cases neuron <;> rfl

/-- With the identity for `fl` the rounded builder `activate_neuron` is the
one in exact arithmetic. -/
theorem Builder.activate_neuron_rounded_id (neuron : Builder.BrainNeuron) :
    Builder.activate_neuron_rounded id neuron = Builder.activate_neuron neuron := by
  cases neuron <;> rfl

end Brain
